import Mathlib

/-!
# Buffer manager (`buf.C`): clock replacement and the page-access operations

A shallow embedding of `BufMgr` from `src/buf.C`.

* The frame table `bufTable` and the page pool `bufPool` are arrays indexed by frame
  number; they are embedded as total functions on `Nat`, of which only the indices
  below `numBufs` are ever addressed through the clock hand.
* The `File` objects and the hash table are collaborators whose code is not part of
  `buf.C`.  A `File` is embedded as an arbitrary state transformer (`FileOps`) over an
  abstract disk state; the hash table as a keyed map.
* Every call that `buf.C` makes to a `File` method, and every insertion into or removal
  from the hash table, is recorded in a ghost trace (`Env.trace`), so that statements of
  the form "no write is issued" can be expressed.
* The `while(1)` loop of `allocBuf` is embedded with a step budget: one unit is spent per
  call of `advanceClock`, and running out of budget yields `none`.
-/

namespace Minirel

/-- Status codes returned by the buffer manager and its collaborators (`error.h` is not
part of the source; the constructors are the codes that `buf.C` names, plus `other` for
any further code a collaborator may return). -/
inductive Status where
  | OK
  | BUFFEREXCEEDED
  | UNIXERR
  | HASHNOTFOUND
  | HASHTBLERROR
  | PAGENOTPINNED
  | PAGEPINNED
  | BADBUFFER
  | BADPAGENO
  | BADPAGEPTR
  | other (code : Nat)
  deriving DecidableEq, Repr

/-- A `File*`: the address of a file object, `0` being the null pointer. -/
abbrev FilePtr := Nat

/-- The null `File*`. -/
def NULL : FilePtr := 0

/-- Modelled from the spec: `Page` (`page.h` is missing), "an opaque fixed-size block of
bytes" whose content is meaningless to the buffer manager; a page image is encoded as a
number, the all-zero block being `0`. -/
abbrev Page := Nat

/-- Modelled from the spec: the frame descriptor `BufDesc` (`buf.h` is missing): owning
file (or null), page number, pin count ("number of outstanding holders"), dirty flag,
valid flag and reference flag; `frameNo` is the field the constructor of `BufMgr`
assigns. -/
structure BufDesc where
  file : FilePtr
  pageNo : Int
  frameNo : Nat
  pinCnt : Nat
  dirty : Bool
  valid : Bool
  refbit : Bool
  deriving DecidableEq, Repr

/-- Modelled from the spec: `BufDesc::Clear` (`buf.h` is missing), "reset the frame
descriptor to the free state": no owner, sentinel page number, pin count 0, not dirty,
not valid, reference flag cleared.  The sentinel `-1` is the one `flushFile` writes. -/
def BufDesc.Clear (d : BufDesc) : BufDesc :=
  { d with pinCnt := 0, file := NULL, pageNo := -1, dirty := false, refbit := false,
           valid := false }

/-- Modelled from the spec: `BufDesc::Set` (`buf.h` is missing), "initialize the frame
descriptor (owner, pageNumber, valid=true, dirty=false, pinCount=1, refBit=true)". -/
def BufDesc.Set (d : BufDesc) (filePtr : FilePtr) (pageNum : Int) : BufDesc :=
  { d with file := filePtr, pageNo := pageNum, pinCnt := 1, dirty := false, valid := true,
           refbit := true }

/-- Modelled from the spec: the residency index `BufHashTbl` (its code is missing), a
map "keyed uniquely by (file identity, pageNumber)" to a frame index. -/
structure BufHashTbl where
  map : FilePtr → Int → Option Nat

/-- Modelled from the spec: the index of a fresh manager holds no entry. -/
def BufHashTbl.empty : BufHashTbl := ⟨fun _ _ => none⟩

/-- Modelled from the spec: `lookup(file, pageNumber) -> frameIndex | notFound`.  The
third argument is the caller's `frameNo`, overwritten only when the key is found. -/
def BufHashTbl.lookup (h : BufHashTbl) (file : FilePtr) (pageNo : Int) (frameNo : Nat) :
    Status × Nat :=
  match h.map file pageNo with
  | some f => (Status.OK, f)
  | none => (Status.HASHNOTFOUND, frameNo)

/-- Modelled from the spec: `insert(file, pageNumber, frameIndex) -> outcome`; keys are
unique, so inserting an existing key fails. -/
def BufHashTbl.insert (h : BufHashTbl) (file : FilePtr) (pageNo : Int) (frameNo : Nat) :
    Status × BufHashTbl :=
  match h.map file pageNo with
  | some _ => (Status.HASHTBLERROR, h)
  | none =>
    (Status.OK, ⟨fun f p => if f = file ∧ p = pageNo then some frameNo else h.map f p⟩)

/-- Modelled from the spec: `remove(file, pageNumber) -> outcome | notFound`. -/
def BufHashTbl.remove (h : BufHashTbl) (file : FilePtr) (pageNo : Int) :
    Status × BufHashTbl :=
  match h.map file pageNo with
  | some _ =>
    (Status.OK, ⟨fun f p => if f = file ∧ p = pageNo then none else h.map f p⟩)
  | none => (Status.HASHNOTFOUND, h)

/-- Modelled from the spec: the `File` collaborator (its code is missing).  Each method
is an arbitrary function of the file pointer, its arguments and the disk state `W`;
`readPage` also receives the old content of the destination buffer and returns its new
content, `allocatePage` receives the old value of its reference argument and returns the
new one. -/
structure FileOps (W : Type) where
  readPage : FilePtr → Int → Page → W → Status × Page × W
  writePage : FilePtr → Int → Page → W → Status × W
  allocatePage : FilePtr → Int → W → Status × Int × W
  disposePage : FilePtr → Int → W → Status × W

/-- Ghost record of one call made by the buffer manager to a collaborator. -/
inductive Event where
  | readPage (file : FilePtr) (pageNo : Int)
  | writePage (file : FilePtr) (pageNo : Int) (content : Page)
  | allocatePage (file : FilePtr)
  | disposePage (file : FilePtr) (pageNo : Int)
  | indexInsert (file : FilePtr) (pageNo : Int) (frameNo : Nat)
  | indexRemove (file : FilePtr) (pageNo : Int)
  deriving DecidableEq, Repr

/-- The world outside the manager: the disk state and the ghost trace of the calls
issued so far, oldest first. -/
structure Env (W : Type) where
  disk : W
  trace : List Event

/-- Append one event to the trace and install the new disk state. -/
def Env.record {W : Type} (e : Env W) (disk : W) (ev : Event) : Env W :=
  ⟨disk, e.trace ++ [ev]⟩

/-- The members of `class BufMgr` that `buf.C` uses.  The clock hand indexes `bufTable`,
so it lies below `numBufs` (the constructor sets it to `bufs - 1`, `advanceClock` reduces
it modulo `numBufs`); in particular a manager has at least one frame. -/
structure BufMgr where
  numBufs : Nat
  bufTable : Nat → BufDesc
  bufPool : Nat → Page
  hashTable : BufHashTbl
  clockHand : Nat
  hand_lt : clockHand < numBufs

variable {W : Type}

/-- `BufMgr::BufMgr(bufs)` (lines 31-50): both tables zero-filled, `frameNo = i`,
`valid = false`, an empty hash table, the clock hand on the last frame. -/
def BufMgr.construct (bufs : Nat) (h : 0 < bufs) : BufMgr :=
  { numBufs := bufs
    bufTable := fun i =>
      { file := NULL, pageNo := 0, frameNo := i, pinCnt := 0, dirty := false,
        valid := false, refbit := false }
    bufPool := fun _ => 0
    hashTable := BufHashTbl.empty
    clockHand := bufs - 1
    hand_lt := Nat.sub_lt h Nat.one_pos }

/-- Modelled from the spec: `advanceClock` (`buf.h` is missing), the cursor "advanced
circularly (wrap to 0 past the last index)". -/
def BufMgr.advanceClock (s : BufMgr) : BufMgr :=
  { s with clockHand := (s.clockHand + 1) % s.numBufs
           hand_lt := Nat.mod_lt _ (Nat.zero_lt_of_lt s.hand_lt) }

/-- Lines 107-119 of `allocBuf`: the frame under the clock hand has been chosen as the
victim.  Write it back when dirty, remove its key from the hash table, clear its
descriptor and return its index in `frame`; a failing write or removal returns at once
with `frame` untouched. -/
def BufMgr.allocBufVictim (io : FileOps W) (frame : Nat) (s : BufMgr) (e : Env W) :
    Status × Nat × BufMgr × Env W :=
  let d := s.bufTable s.clockHand
  let wr : Status × Env W :=
    if d.dirty = true then
      let r := io.writePage d.file d.pageNo (s.bufPool s.clockHand) e.disk
      (r.1, e.record r.2 (Event.writePage d.file d.pageNo (s.bufPool s.clockHand)))
    else (Status.OK, e)
  if wr.1 ≠ Status.OK then (wr.1, frame, s, wr.2)
  else
    let rm := s.hashTable.remove d.file d.pageNo
    let e2 := wr.2.record wr.2.disk (Event.indexRemove d.file d.pageNo)
    if rm.1 ≠ Status.OK then (rm.1, frame, { s with hashTable := rm.2 }, e2)
    else
      (rm.1, s.clockHand,
        { s with hashTable := rm.2
                 bufTable := Function.update s.bufTable s.clockHand d.Clear }, e2)

/-- The `while(1)` loop of `allocBuf` (lines 90-120) together with the two statements
after it.  `start` and `round` are the local variables of that name, `frame` the
caller's variable; the first argument is the step budget. -/
def BufMgr.allocBufLoop (io : FileOps W) :
    Nat → Nat → Nat → Nat → BufMgr → Env W → Option (Status × Nat × BufMgr × Env W)
  | 0, _, _, _, _, _ => none
  | fuel + 1, start, round, frame, s, e =>
    let s1 := s.advanceClock
    let round1 := if s1.clockHand = start then round + 1 else round
    if s1.clockHand = start ∧ round1 = 2 then
      some (Status.BUFFEREXCEEDED, frame, s1, e)
    else if (s1.bufTable s1.clockHand).valid = false then
      some (Status.OK, s1.clockHand, s1, e)
    else if (s1.bufTable s1.clockHand).refbit = true then
      BufMgr.allocBufLoop io fuel start round1 frame
        { s1 with bufTable := Function.update s1.bufTable s1.clockHand
                    { s1.bufTable s1.clockHand with refbit := false } } e
    else if (s1.bufTable s1.clockHand).pinCnt = 0 then
      some (s1.allocBufVictim io frame e)
    else
      BufMgr.allocBufLoop io fuel start round1 frame s1 e

/-- `BufMgr::allocBuf(int & frame)` (lines 84-123).  The result carries the status and
the value of `frame` after the call.  The loop is given a budget of `2 * numBufs`
advances of the clock. -/
def BufMgr.allocBuf (io : FileOps W) (frame : Nat) (s : BufMgr) (e : Env W) :
    Option (Status × Nat × BufMgr × Env W) :=
  BufMgr.allocBufLoop io (2 * s.numBufs) s.clockHand 0 frame s e

/-- `BufMgr::readPage(file, PageNo, page)` (lines 134-162).  The second component of the
result is the frame whose pool slot `page` points to, `none` when `page` was not
assigned. -/
def BufMgr.readPage (io : FileOps W) (file : FilePtr) (PageNo : Int) (s : BufMgr)
    (e : Env W) : Option (Status × Option Nat × BufMgr × Env W) :=
  let lk := s.hashTable.lookup file PageNo 0
  if lk.1 = Status.OK then
    some (lk.1, some lk.2,
      { s with bufTable := Function.update s.bufTable lk.2
                 { s.bufTable lk.2 with refbit := true
                                        pinCnt := (s.bufTable lk.2).pinCnt + 1 } }, e)
  else
    match s.allocBuf io lk.2 e with
    | none => none
    | some (st, frameNo, s1, e1) =>
      if st ≠ Status.OK then some (st, none, s1, e1)
      else
        let rd := io.readPage file PageNo (s1.bufPool frameNo) e1.disk
        let s2 : BufMgr := { s1 with bufPool := Function.update s1.bufPool frameNo rd.2.1 }
        let e2 := e1.record rd.2.2 (Event.readPage file PageNo)
        if rd.1 ≠ Status.OK then some (rd.1, none, s2, e2)
        else
          let ins := s2.hashTable.insert file PageNo frameNo
          let e3 := e2.record e2.disk (Event.indexInsert file PageNo frameNo)
          if ins.1 ≠ Status.OK then some (ins.1, none, { s2 with hashTable := ins.2 }, e3)
          else
            some (ins.1, some frameNo,
              { s2 with hashTable := ins.2
                        bufTable := Function.update s2.bufTable frameNo
                          ((s2.bufTable frameNo).Set file PageNo) }, e3)

/-- `BufMgr::unPinPage(file, PageNo, dirty)` (lines 175-193).  It calls no `File` method
and does not modify the hash table. -/
def BufMgr.unPinPage (file : FilePtr) (PageNo : Int) (dirty : Bool) (s : BufMgr) :
    Status × BufMgr :=
  let lk := s.hashTable.lookup file PageNo 0
  if lk.1 = Status.OK then
    if (s.bufTable lk.2).pinCnt = 0 then (Status.PAGENOTPINNED, s)
    else
      let d1 : BufDesc := { s.bufTable lk.2 with pinCnt := (s.bufTable lk.2).pinCnt - 1 }
      let d2 : BufDesc := if dirty = true then { d1 with dirty := true } else d1
      (lk.1, { s with bufTable := Function.update s.bufTable lk.2 d2 })
  else (lk.1, s)

/-- `BufMgr::allocPage(file, pageNo, page)` (lines 204-226).  The result carries the
status, the value of `pageNo` after the call and the frame `page` points to (`none`
when not assigned); `pageNo` is the caller's value of the reference argument. -/
def BufMgr.allocPage (io : FileOps W) (file : FilePtr) (pageNo : Int) (s : BufMgr)
    (e : Env W) : Option (Status × Int × Option Nat × BufMgr × Env W) :=
  let al := io.allocatePage file pageNo e.disk
  let e0 := e.record al.2.2 (Event.allocatePage file)
  if al.1 ≠ Status.OK then some (al.1, al.2.1, none, s, e0)
  else
    match s.allocBuf io 0 e0 with
    | none => none
    | some (st, frameNo, s1, e1) =>
      if st ≠ Status.OK then some (st, al.2.1, none, s1, e1)
      else
        let ins := s1.hashTable.insert file al.2.1 frameNo
        let e2 := e1.record e1.disk (Event.indexInsert file al.2.1 frameNo)
        if ins.1 ≠ Status.OK then
          some (ins.1, al.2.1, none, { s1 with hashTable := ins.2 }, e2)
        else
          some (ins.1, al.2.1, some frameNo,
            { s1 with hashTable := ins.2
                      bufTable := Function.update s1.bufTable frameNo
                        ((s1.bufTable frameNo).Set file al.2.1) }, e2)

/-- `BufMgr::disposePage(file, pageNo)` (lines 228-243): the status of the hash-table
removal is overwritten by that of the file's `disposePage`. -/
def BufMgr.disposePage (io : FileOps W) (file : FilePtr) (pageNo : Int) (s : BufMgr)
    (e : Env W) : Status × BufMgr × Env W :=
  let lk := s.hashTable.lookup file pageNo 0
  let s1 : BufMgr :=
    if lk.1 = Status.OK then
      { s with bufTable := Function.update s.bufTable lk.2 (s.bufTable lk.2).Clear }
    else s
  let rm := s1.hashTable.remove file pageNo
  let e1 := e.record e.disk (Event.indexRemove file pageNo)
  let dp := io.disposePage file pageNo e1.disk
  (dp.1, { s1 with hashTable := rm.2 }, e1.record dp.2 (Event.disposePage file pageNo))

/-- The `for` loop of `flushFile` (lines 249-277) from frame `i` on, with `n` frames
still to visit, followed by `return OK`. -/
def BufMgr.flushFileLoop (io : FileOps W) (file : FilePtr) :
    Nat → Nat → BufMgr → Env W → Status × BufMgr × Env W
  | 0, _, s, e => (Status.OK, s, e)
  | n + 1, i, s, e =>
    let tmpbuf := s.bufTable i
    if tmpbuf.valid = true ∧ tmpbuf.file = file then
      if tmpbuf.pinCnt > 0 then (Status.PAGEPINNED, s, e)
      else if tmpbuf.dirty = true then
        let wr := io.writePage tmpbuf.file tmpbuf.pageNo (s.bufPool i) e.disk
        let e1 := e.record wr.2 (Event.writePage tmpbuf.file tmpbuf.pageNo (s.bufPool i))
        if wr.1 ≠ Status.OK then (wr.1, s, e1)
        else
          let rm := s.hashTable.remove file tmpbuf.pageNo
          BufMgr.flushFileLoop io file n (i + 1)
            { s with hashTable := rm.2
                     bufTable := Function.update s.bufTable i
                       { tmpbuf with dirty := false, file := NULL, pageNo := -1,
                                     valid := false } }
            (e1.record e1.disk (Event.indexRemove file tmpbuf.pageNo))
      else
        let rm := s.hashTable.remove file tmpbuf.pageNo
        BufMgr.flushFileLoop io file n (i + 1)
          { s with hashTable := rm.2
                   bufTable := Function.update s.bufTable i
                     { tmpbuf with file := NULL, pageNo := -1, valid := false } }
          (e.record e.disk (Event.indexRemove file tmpbuf.pageNo))
    else if tmpbuf.valid = false ∧ tmpbuf.file = file then (Status.BADBUFFER, s, e)
    else BufMgr.flushFileLoop io file n (i + 1) s e

/-- `BufMgr::flushFile(file)` (lines 245-280). -/
def BufMgr.flushFile (io : FileOps W) (file : FilePtr) (s : BufMgr) (e : Env W) :
    Status × BufMgr × Env W :=
  BufMgr.flushFileLoop io file s.numBufs 0 s e

/-- The `for` loop of the destructor (lines 56-68) from frame `i` on, with `n` frames
still to visit; the status of each write is dropped. -/
def BufMgr.destructLoop (io : FileOps W) (s : BufMgr) : Nat → Nat → Env W → Env W
  | 0, _, e => e
  | n + 1, i, e =>
    let tmpbuf := s.bufTable i
    if tmpbuf.valid = true ∧ tmpbuf.dirty = true then
      let wr := io.writePage tmpbuf.file tmpbuf.pageNo (s.bufPool i) e.disk
      BufMgr.destructLoop io s n (i + 1)
        (e.record wr.2 (Event.writePage tmpbuf.file tmpbuf.pageNo (s.bufPool i)))
    else BufMgr.destructLoop io s n (i + 1) e

/-- `BufMgr::~BufMgr()` (lines 53-72): what is left after the manager is destroyed is
the world. -/
def BufMgr.destruct (io : FileOps W) (s : BufMgr) (e : Env W) : Env W :=
  BufMgr.destructLoop io s s.numBufs 0 e

/-! ## Auxiliary definitions used in the statements -/

/-- The state `s1` arises from `s` by moving the clock hand and clearing reference flags
of valid frames: nothing else differs. -/
def RefbitsCleared (s s1 : BufMgr) : Prop :=
  s1.numBufs = s.numBufs ∧ s1.bufPool = s.bufPool ∧ s1.hashTable = s.hashTable ∧
  ∀ i, s1.bufTable i = s.bufTable i ∨
    ((s.bufTable i).valid = true ∧ (s.bufTable i).refbit = true ∧
      s1.bufTable i = { s.bufTable i with refbit := false })

/-- The descriptor `flushFile` leaves in a frame it has flushed (lines 265-272): not
dirty, no owner, page number `-1`, not valid; pin count and reference flag as before. -/
def BufDesc.flushed (d : BufDesc) : BufDesc :=
  { d with dirty := false, file := NULL, pageNo := -1, valid := false }

/-- The calls `flushFile(file)` issues for frame `i` of `s` when it flushes it: the
write-back of its content if the frame is dirty, then the removal of its key from the
index; none if the frame is not a valid frame of `file`. -/
def flushFrameEvents (s : BufMgr) (file : FilePtr) (i : Nat) : List Event :=
  if (s.bufTable i).valid = true ∧ (s.bufTable i).file = file then
    (if (s.bufTable i).dirty = true then
      [Event.writePage file (s.bufTable i).pageNo (s.bufPool i)] else []) ++
      [Event.indexRemove file (s.bufTable i).pageNo]
  else []

/-- The calls of `flushFrameEvents` for the `n` frames from `i` on, in frame order. -/
def flushEvents (s : BufMgr) (file : FilePtr) : Nat → Nat → List Event
  | 0, _ => []
  | n + 1, i => flushFrameEvents s file i ++ flushEvents s file n (i + 1)

/-- The manager `s1` is `s` after the valid frames of `file` among the `n` frames from
`i` on have been flushed: those frames carry the flushed descriptor and their keys are
absent from the index; every other descriptor, every other index entry, the pool, the
clock hand and the number of frames are as in `s`. -/
def FlushedRange (s s1 : BufMgr) (file : FilePtr) (i n : Nat) : Prop :=
  s1.numBufs = s.numBufs ∧ s1.clockHand = s.clockHand ∧ s1.bufPool = s.bufPool ∧
  (∀ j, i ≤ j → j < i + n → (s.bufTable j).valid = true → (s.bufTable j).file = file →
    s1.bufTable j = (s.bufTable j).flushed) ∧
  (∀ j, ¬(i ≤ j ∧ j < i + n ∧ (s.bufTable j).valid = true ∧ (s.bufTable j).file = file) →
    s1.bufTable j = s.bufTable j) ∧
  (∀ j, i ≤ j → j < i + n → (s.bufTable j).valid = true → (s.bufTable j).file = file →
    s1.hashTable.map file (s.bufTable j).pageNo = none) ∧
  (∀ f1 p1, ¬(f1 = file ∧ ∃ j, i ≤ j ∧ j < i + n ∧ (s.bufTable j).valid = true ∧
      (s.bufTable j).file = file ∧ (s.bufTable j).pageNo = p1) →
    s1.hashTable.map f1 p1 = s.hashTable.map f1 p1)

/-! ## Concrete managers and collaborators used in the examples -/

/-- A `File` collaborator over a trivial disk: every call succeeds, `readPage` delivers
the page image `pageNo + 100`, `allocatePage` hands out page `7`. -/
def okFiles : FileOps Unit :=
  { readPage := fun _ p _ w => (Status.OK, p.toNat + 100, w)
    writePage := fun _ _ _ w => (Status.OK, w)
    allocatePage := fun _ _ w => (Status.OK, 7, w)
    disposePage := fun _ _ w => (Status.OK, w) }

/-- A `File` collaborator whose `allocatePage` fails with `UNIXERR`; the other calls
succeed. -/
def noSpaceFiles : FileOps Unit :=
  { okFiles with allocatePage := fun _ p w => (Status.UNIXERR, p, w) }

/-- The world before any call: trivial disk, empty trace. -/
def emptyEnv : Env Unit := ⟨(), []⟩

/-- A descriptor with the given owner, page number, pin count and flags
(`dirty`, `valid`, `refbit`) for frame `i`. -/
def mkDesc (i : Nat) (file : FilePtr) (pageNo : Int) (pinCnt : Nat)
    (dirty valid refbit : Bool) : BufDesc :=
  { file := file, pageNo := pageNo, frameNo := i, pinCnt := pinCnt, dirty := dirty,
    valid := valid, refbit := refbit }

/-- A manager whose frame table is the given list of descriptors (frames past the list
are free), whose pool holds the page image `i + 1` in frame `i`, with the given index and
clock hand. -/
def BufMgr.ofFrames (frames : List BufDesc) (index : BufHashTbl) (hand : Nat)
    (h : hand < frames.length) : BufMgr :=
  { numBufs := frames.length
    bufTable := fun i => frames.getD i (mkDesc i NULL 0 0 false false false)
    bufPool := fun i => i + 1
    hashTable := index
    clockHand := hand
    hand_lt := h }

/-- Two valid frames carrying the same key `(1, 5)`: frame 0 pinned once, frame 1 not
pinned; the index maps the key to frame 0. -/
def dupKeyMgr : BufMgr :=
  BufMgr.ofFrames [mkDesc 0 1 5 1 false true false, mkDesc 1 1 5 0 false true false]
    ⟨fun f p => if f = 1 ∧ p = 5 then some 0 else none⟩ 0 (by decide)

/-- Two resident pages of file 1: page 5 in frame 0, pinned once and dirty; page 6 in
frame 1, not pinned, dirty, reference flag clear. -/
def twoPageMgr : BufMgr :=
  BufMgr.ofFrames [mkDesc 0 1 5 1 true true true, mkDesc 1 1 6 0 true true false]
    ⟨fun f p => if f = 1 ∧ p = 5 then some 0 else if f = 1 ∧ p = 6 then some 1 else none⟩
    0 (by decide)

/-- One frame holding page 5 of file 1, pinned once. -/
def onePinnedMgr : BufMgr :=
  BufMgr.ofFrames [mkDesc 0 1 5 1 false true true]
    ⟨fun f p => if f = 1 ∧ p = 5 then some 0 else none⟩ 0 (by decide)

/-- The manager and the world after: constructing a pool of one frame, fetching page 10
of file 1, and releasing it (clean). -/
def oneFrameReleased : Option (BufMgr × Env Unit) :=
  (BufMgr.readPage okFiles 1 10 (BufMgr.construct 1 (by decide)) emptyEnv).map
    fun r => ((BufMgr.unPinPage 1 10 false r.2.2.1).2, r.2.2.2)

/-- Two resident pages of file 1: page 5 in frame 0, dirty and not pinned; page 6 in
frame 1, dirty and pinned once. -/
def pinnedSecondMgr : BufMgr :=
  BufMgr.ofFrames [mkDesc 0 1 5 0 true true false, mkDesc 1 1 6 1 true true false]
    ⟨fun f p => if f = 1 ∧ p = 5 then some 0 else if f = 1 ∧ p = 6 then some 1 else none⟩
    1 (by decide)

/-- Two resident pages of file 1, neither pinned: page 5 in frame 0, dirty; page 6 in
frame 1, clean. -/
def unpinnedMgr : BufMgr :=
  BufMgr.ofFrames [mkDesc 0 1 5 0 true true false, mkDesc 1 1 6 0 false true true]
    ⟨fun f p => if f = 1 ∧ p = 5 then some 0 else if f = 1 ∧ p = 6 then some 1 else none⟩
    1 (by decide)

/-- One free frame, while the index still maps page 9 of file 1 to it. -/
def staleIndexMgr : BufMgr :=
  BufMgr.ofFrames [mkDesc 0 NULL 0 0 false false false]
    ⟨fun f p => if f = 1 ∧ p = 9 then some 0 else none⟩ 0 (by decide)

/-- The writes the destructor is to issue: one `writePage`, on the owning file, of the
page number and the frame content, for every frame below `numBufs` that is valid and
dirty, in increasing frame order. -/
def teardownWrites (s : BufMgr) : List Event :=
  ((List.range s.numBufs).filter
      (fun i => (s.bufTable i).valid && (s.bufTable i).dirty)).map
    (fun i => Event.writePage (s.bufTable i).file (s.bufTable i).pageNo (s.bufPool i))

/-- A `File` collaborator whose `writePage` always fails with `UNIXERR`; the other calls
succeed. -/
def noWriteFiles : FileOps Unit :=
  { okFiles with writePage := fun _ _ _ w => (Status.UNIXERR, w) }

/-- Three frames: pages 5 and 7 of file 1 valid and dirty in frames 0 and 2, page 6 of
file 2 valid and clean in frame 1. -/
def threePageMgr : BufMgr :=
  BufMgr.ofFrames [mkDesc 0 1 5 0 true true false, mkDesc 1 2 6 0 false true false,
      mkDesc 2 1 7 1 true true true]
    ⟨fun f p => if f = 1 ∧ p = 5 then some 0 else if f = 2 ∧ p = 6 then some 1
      else if f = 1 ∧ p = 7 then some 2 else none⟩
    0 (by decide)

/-- Whether an event is a call of the file's `readPage`. -/
def Event.isRead : Event → Bool
  | Event.readPage _ _ => true
  | _ => false

/-- The managers `s` and `s1` show the same visible cache state: the same index and, in
every frame, the same owner, page number, valid flag, dirty flag and pin count. -/
def SameVisible (s s1 : BufMgr) : Prop :=
  s1.hashTable = s.hashTable ∧
  ∀ i, (s1.bufTable i).file = (s.bufTable i).file ∧
    (s1.bufTable i).pageNo = (s.bufTable i).pageNo ∧
    (s1.bufTable i).valid = (s.bufTable i).valid ∧
    (s1.bufTable i).dirty = (s.bufTable i).dirty ∧
    (s1.bufTable i).pinCnt = (s.bufTable i).pinCnt

/-- A `File` collaborator whose `readPage` fails with `UNIXERR` on page 12 and succeeds
on every other page; the other calls succeed. -/
def badPageFiles : FileOps Unit :=
  { okFiles with
      readPage := fun _ p c w =>
        if p = 12 then (Status.UNIXERR, c, w) else (Status.OK, p.toNat + 100, w) }

/-- The manager and the world after: constructing a pool of two frames, fetching page 10
of file 1, releasing it, and fetching page 11 of file 1. -/
def twoFetched : Option (BufMgr × Env Unit) :=
  ((BufMgr.readPage badPageFiles 1 10 (BufMgr.construct 2 (by decide)) emptyEnv).map
    fun r => ((BufMgr.unPinPage 1 10 false r.2.2.1).2, r.2.2.2)).bind
    fun x => (BufMgr.readPage badPageFiles 1 11 x.1 x.2).map fun r => (r.2.2.1, r.2.2.2)

/-- One call of the public interface of the manager.  For `allocPage` the number is the
value the caller's `pageNo` variable holds when the call is made. -/
inductive Call where
  | readPage (file : FilePtr) (pageNo : Int)
  | unPinPage (file : FilePtr) (pageNo : Int) (dirty : Bool)
  | allocPage (file : FilePtr) (pageNo : Int)
  | disposePage (file : FilePtr) (pageNo : Int)
  | flushFile (file : FilePtr)

/-- The status, the manager and the world after one call. -/
def BufMgr.call (io : FileOps W) (c : Call) (s : BufMgr) (e : Env W) :
    Option (Status × BufMgr × Env W) :=
  match c with
  | Call.readPage f p => (s.readPage io f p e).map fun r => (r.1, r.2.2.1, r.2.2.2)
  | Call.unPinPage f p d => some ((s.unPinPage f p d).1, (s.unPinPage f p d).2, e)
  | Call.allocPage f p => (s.allocPage io f p e).map fun r => (r.1, r.2.2.2.1, r.2.2.2.2)
  | Call.disposePage f p => some (s.disposePage io f p e)
  | Call.flushFile f => some (s.flushFile io f e)

/-- The states reachable from a freshly constructed manager (of any capacity, in any
world) by a sequence of calls of the public interface, the file behaving as `io`. -/
inductive Reachable (io : FileOps W) : BufMgr → Env W → Prop where
  | fresh (bufs : Nat) (h : 0 < bufs) (e : Env W) : Reachable io (BufMgr.construct bufs h) e
  | step (s : BufMgr) (e : Env W) (c : Call) (r : Status × BufMgr × Env W) :
      Reachable io s e → s.call io c e = some r → Reachable io r.2.1 r.2.2

/-- Residency agreement: every valid frame is what the index gives for its own key, and
every index entry points to a frame below `numBufs` that is valid and carries the key. -/
def Agree (s : BufMgr) : Prop :=
  (∀ f, f < s.numBufs → (s.bufTable f).valid = true →
    s.hashTable.map (s.bufTable f).file (s.bufTable f).pageNo = some f) ∧
  (∀ fl p f, s.hashTable.map fl p = some f →
    f < s.numBufs ∧ (s.bufTable f).valid = true ∧ (s.bufTable f).file = fl ∧
      (s.bufTable f).pageNo = p)

/-- Free frames are clean: a frame that is not valid has pin count 0, is not dirty and
has no owning file. -/
def FreeClean (s : BufMgr) : Prop :=
  ∀ f, f < s.numBufs → (s.bufTable f).valid = false →
    (s.bufTable f).pinCnt = 0 ∧ (s.bufTable f).dirty = false ∧ (s.bufTable f).file = NULL

/-- A frame the sweep of `allocBuf` claims as soon as it examines it: it is not valid, or
its reference flag is clear and its pin count is 0. -/
def BufDesc.eligible (d : BufDesc) : Bool :=
  !d.valid || (!d.refbit && d.pinCnt == 0)

/-- The manager after the sweep has passed over one more frame: the clock hand advanced
and the reference flag of the frame it then points to cleared. -/
def BufMgr.passOne (s : BufMgr) : BufMgr :=
  { s.advanceClock with
      bufTable := Function.update s.advanceClock.bufTable s.advanceClock.clockHand
        { s.advanceClock.bufTable s.advanceClock.clockHand with refbit := false } }

/-- The manager after the sweep has passed over the next `m` frames. -/
def BufMgr.passMany (s : BufMgr) (m : Nat) : BufMgr :=
  BufMgr.passOne^[m] s

/-- Three frames with the hand on frame 0: frame 0 holds page 5 of file 1, pinned once;
frame 1 holds page 6 of file 1, unpinned with its reference flag set; frame 2 holds page
7 of file 1, unpinned, dirty, reference flag clear. -/
def sweepMgr : BufMgr :=
  BufMgr.ofFrames [mkDesc 0 1 5 1 false true true, mkDesc 1 1 6 0 false true true,
      mkDesc 2 1 7 0 true true false]
    ⟨fun f p => if f = 1 ∧ p = 5 then some 0 else if f = 1 ∧ p = 6 then some 1
      else if f = 1 ∧ p = 7 then some 2 else none⟩
    0 (by decide)

/-- Two resident pages of file 1 with the hand on frame 1: page 5 in frame 0, pinned
once; page 6 in frame 1, released (pin count 0) with its reference flag still set. -/
def handReleasedMgr : BufMgr :=
  BufMgr.ofFrames [mkDesc 0 1 5 1 false true true, mkDesc 1 1 6 0 false true true]
    ⟨fun f p => if f = 1 ∧ p = 5 then some 0 else if f = 1 ∧ p = 6 then some 1 else none⟩
    1 (by decide)

/-- Fetch the pages `keys 0`, ..., `keys (k - 1)` in this order with `readPage`, each
fetch starting from the manager and the world the previous one left; `none` as soon as
a fetch does not return `OK`. -/
def fetchAll (io : FileOps W) (keys : Nat → FilePtr × Int) :
    Nat → BufMgr → Env W → Option (BufMgr × Env W)
  | 0, s, e => some (s, e)
  | k + 1, s, e =>
    match fetchAll io keys k s e with
    | none => none
    | some (s1, e1) =>
      match s1.readPage io (keys k).1 (keys k).2 e1 with
      | none => none
      | some r => if r.1 = Status.OK then some (r.2.2.1, r.2.2.2) else none

/-- The pool in which the pages `keys 0`, ..., `keys (k - 1)` occupy the frames
`0`, ..., `k - 1`, each pinned once, clean, with its reference flag set and its key in
the index; the other frames are free, the index holds no other key, and the clock hand
is on the frame filled last (on the last frame when `k = 0`). -/
def Filled (keys : Nat → FilePtr × Int) (k : Nat) (s : BufMgr) : Prop :=
  s.clockHand = (s.numBufs - 1 + k) % s.numBufs ∧
  (∀ i, i < k →
    (s.bufTable i).valid = true ∧ (s.bufTable i).pinCnt = 1 ∧
    (s.bufTable i).refbit = true ∧ (s.bufTable i).dirty = false ∧
    (s.bufTable i).file = (keys i).1 ∧ (s.bufTable i).pageNo = (keys i).2 ∧
    s.hashTable.map (keys i).1 (keys i).2 = some i) ∧
  (∀ i, k ≤ i → (s.bufTable i).valid = false) ∧
  (∀ f p, (∀ i, i < k → keys i ≠ (f, p)) → s.hashTable.map f p = none)

/-- The pages of the example scenario: page `10 + i` of file 1. -/
def scenarioKeys : Nat → FilePtr × Int := fun i => (1, 10 + (i : Int))

/-- The disk after the file has carried out, in order and starting from the disk `w`,
the `writePage` calls recorded in `evs`; the other events of the trace do not go to the
file's `writePage`. -/
def applyWrites (io : FileOps W) (evs : List Event) (w : W) : W :=
  evs.foldl (fun w1 ev =>
    match ev with
    | Event.writePage f p c => (io.writePage f p c w1).2
    | _ => w1) w

/-- A `File` collaborator whose disk is the list of the page images written so far:
`writePage` fails with `UNIXERR` on page 5, leaving the disk as it is, and appends
`(file, pageNo, content)` to the disk for every other page; the other calls succeed and
leave the disk alone. -/
def logFiles : FileOps (List (FilePtr × Int × Page)) :=
  { readPage := fun _ p _ w => (Status.OK, p.toNat + 100, w)
    writePage := fun f p c w =>
      if p = 5 then (Status.UNIXERR, w) else (Status.OK, w ++ [(f, p, c)])
    allocatePage := fun _ _ w => (Status.OK, 7, w)
    disposePage := fun _ _ w => (Status.OK, w) }

/-! ## The clock sweep of `allocBuf` -/

@[simp] theorem advanceClock_numBufs (s : BufMgr) : s.advanceClock.numBufs = s.numBufs := rfl
@[simp] theorem advanceClock_bufTable (s : BufMgr) : s.advanceClock.bufTable = s.bufTable := rfl
@[simp] theorem advanceClock_bufPool (s : BufMgr) : s.advanceClock.bufPool = s.bufPool := rfl
@[simp] theorem advanceClock_hashTable (s : BufMgr) : s.advanceClock.hashTable = s.hashTable := rfl
@[simp] theorem advanceClock_clockHand (s : BufMgr) :
    s.advanceClock.clockHand = (s.clockHand + 1) % s.numBufs := rfl

theorem RefbitsCleared.refl (s : BufMgr) : RefbitsCleared s s :=
  ⟨rfl, rfl, rfl, fun _ => Or.inl rfl⟩

theorem RefbitsCleared.trans {a b c : BufMgr} (h1 : RefbitsCleared a b)
    (h2 : RefbitsCleared b c) : RefbitsCleared a c := by
  obtain ⟨n1, p1, t1, f1⟩ := h1
  obtain ⟨n2, p2, t2, f2⟩ := h2
  refine ⟨n2.trans n1, p2.trans p1, t2.trans t1, fun i => ?_⟩
  rcases f1 i with h | ⟨hv, hr, h⟩ <;> rcases f2 i with g | ⟨gv, gr, g⟩
  · exact Or.inl (g.trans h)
  · rw [h] at gv gr g
    exact Or.inr ⟨gv, gr, g⟩
  · exact Or.inr ⟨hv, hr, g.trans h⟩
  · rw [h] at gr
    simp at gr

theorem RefbitsCleared.advance (s : BufMgr) : RefbitsCleared s s.advanceClock :=
  ⟨rfl, rfl, rfl, fun _ => Or.inl rfl⟩

theorem RefbitsCleared.clear (s : BufMgr) (hv : (s.bufTable s.clockHand).valid = true)
    (hr : (s.bufTable s.clockHand).refbit = true) :
    RefbitsCleared s
      { s with bufTable := Function.update s.bufTable s.clockHand
                 { s.bufTable s.clockHand with refbit := false } } := by
  refine ⟨rfl, rfl, rfl, fun i => ?_⟩
  by_cases h : i = s.clockHand
  · subst h
    exact Or.inr ⟨hv, hr, by simp⟩
  · exact Or.inl (by simp [Function.update_noteq h])

/-- Shape of every run of the sweep: reference flags are cleared up to some state `s1`,
in which the loop leaves through one of its three exits. -/
theorem allocBufLoop_exit (io : FileOps W) :
    ∀ (fuel start round frame : Nat) (s : BufMgr) (e : Env W)
      (r : Status × Nat × BufMgr × Env W),
      BufMgr.allocBufLoop io fuel start round frame s e = some r →
      ∃ s1, RefbitsCleared s s1 ∧
        ((r = (Status.BUFFEREXCEEDED, frame, s1, e) ∧ s1.clockHand = start) ∨
         (r = (Status.OK, s1.clockHand, s1, e) ∧
            (s1.bufTable s1.clockHand).valid = false) ∨
         ((s1.bufTable s1.clockHand).valid = true ∧
            (s1.bufTable s1.clockHand).refbit = false ∧
            (s1.bufTable s1.clockHand).pinCnt = 0 ∧
            r = s1.allocBufVictim io frame e)) := by
  intro fuel
  induction fuel with
  | zero => intro start round frame s e r h; simp [BufMgr.allocBufLoop] at h
  | succ n ih =>
    intro start round frame s e r h
    rw [BufMgr.allocBufLoop] at h
    simp only at h
    generalize (if s.advanceClock.clockHand = start then round + 1 else round) = round1 at h
    split_ifs at h with h1 h2 h3 h4
    · exact ⟨s.advanceClock, RefbitsCleared.advance s,
        Or.inl ⟨(Option.some.inj h).symm, h1.1⟩⟩
    · exact ⟨s.advanceClock, RefbitsCleared.advance s,
        Or.inr (Or.inl ⟨(Option.some.inj h).symm, h2⟩)⟩
    · obtain ⟨s1, hs1, hx⟩ := ih _ _ _ _ _ _ h
      have hv : (s.advanceClock.bufTable s.advanceClock.clockHand).valid = true := by
        simpa using h2
      exact ⟨s1, (RefbitsCleared.advance s).trans
        ((RefbitsCleared.clear s.advanceClock hv h3).trans hs1), hx⟩
    · refine ⟨s.advanceClock, RefbitsCleared.advance s, Or.inr (Or.inr ⟨?_, ?_, h4, ?_⟩)⟩
      · simpa using h2
      · simpa using h3
      · exact (Option.some.inj h).symm
    · obtain ⟨s1, hs1, hx⟩ := ih _ _ _ _ _ _ h
      exact ⟨s1, (RefbitsCleared.advance s).trans hs1, hx⟩

theorem hand_returns_iff {n start m : Nat} (hs : start < n) :
    (start + m) % n = start ↔ n ∣ m := by
  constructor
  · intro h
    have h1 : (start + m) % n = (start + 0) % n := by
      rw [h, Nat.add_zero, Nat.mod_eq_of_lt hs]
    have h2 : m % n = 0 % n := Nat.ModEq.add_left_cancel' start h1
    exact Nat.dvd_of_mod_eq_zero (by simpa using h2)
  · intro h
    obtain ⟨c, rfl⟩ := h
    rw [Nat.add_mul_mod_self_left, Nat.mod_eq_of_lt hs]

theorem advance_offset {n start k : Nat} :
    ((start + k) % n + 1) % n = (start + (k + 1)) % n := by
  rw [Nat.mod_add_mod, Nat.add_assoc]

theorem allocBufLoop_isSome (io : FileOps W) :
    ∀ (fuel k start round frame : Nat) (s : BufMgr) (e : Env W),
      start < s.numBufs → s.clockHand = (start + k) % s.numBufs →
      round = k / s.numBufs → k < 2 * s.numBufs → 2 * s.numBufs ≤ k + fuel →
      (BufMgr.allocBufLoop io fuel start round frame s e).isSome = true := by
  intro fuel
  induction fuel with
  | zero => intro k start round frame s e _ _ _ h1 h2; omega
  | succ f ih =>
    intro k start round frame s e hs hc hr hk hf
    have hn : 0 < s.numBufs := Nat.zero_lt_of_lt hs
    have hc1 : s.advanceClock.clockHand = (start + (k + 1)) % s.numBufs := by
      rw [advanceClock_clockHand, hc, advance_offset]
    have hk1 : ¬(s.advanceClock.clockHand = start ∧
        (if s.advanceClock.clockHand = start then round + 1 else round) = 2) →
        k + 1 < 2 * s.numBufs := by
      intro hno
      by_contra hge
      have hk2 : k + 1 = 2 * s.numBufs := by omega
      apply hno
      have hd : s.advanceClock.clockHand = start := by
        rw [hc1, hand_returns_iff hs, hk2]; exact Dvd.intro_left 2 rfl
      refine ⟨hd, ?_⟩
      rw [if_pos hd, hr]
      have : k / s.numBufs = 1 := by
        apply Nat.div_eq_of_lt_le <;> omega
      omega
    have hr1 : (if s.advanceClock.clockHand = start then round + 1 else round)
        = (k + 1) / s.numBufs := by
      rw [hc1, hr, Nat.succ_div]
      by_cases hd : s.numBufs ∣ k + 1
      · rw [if_pos ((hand_returns_iff hs).2 hd), if_pos hd]
      · rw [if_neg (fun h => hd ((hand_returns_iff hs).1 h)), if_neg hd]
        rfl
    have hf1 : 2 * s.numBufs ≤ k + 1 + f := by omega
    rw [BufMgr.allocBufLoop]
    simp only
    generalize (if s.advanceClock.clockHand = start then round + 1 else round) = round1
      at hk1 hr1 ⊢
    split_ifs with h1 h2 h3 h4
    · rfl
    · rfl
    · exact ih (k + 1) start round1 frame _ e hs hc1 hr1 (hk1 h1) hf1
    · rfl
    · exact ih (k + 1) start round1 frame _ e hs hc1 hr1 (hk1 h1) hf1

theorem allocBufLoop_mono (io : FileOps W) :
    ∀ (fuel m start round frame : Nat) (s : BufMgr) (e : Env W)
      (r : Status × Nat × BufMgr × Env W),
      BufMgr.allocBufLoop io fuel start round frame s e = some r →
      BufMgr.allocBufLoop io (fuel + m) start round frame s e = some r := by
  intro fuel
  induction fuel with
  | zero => intro m start round frame s e r h; simp [BufMgr.allocBufLoop] at h
  | succ f ih =>
    intro m start round frame s e r h
    rw [Nat.add_right_comm, BufMgr.allocBufLoop]
    rw [BufMgr.allocBufLoop] at h
    simp only at h ⊢
    generalize (if s.advanceClock.clockHand = start then round + 1 else round) = round1
      at h ⊢
    split_ifs at h ⊢ with h1 h2 h3 h4
    · exact h
    · exact h
    · exact ih m _ _ _ _ _ _ h
    · exact h
    · exact ih m _ _ _ _ _ _ h

theorem RefbitsCleared.desc {s s1 : BufMgr} (h : RefbitsCleared s s1) (i : Nat) :
    s1.bufTable i = { s.bufTable i with refbit := (s1.bufTable i).refbit } ∧
    ((s1.bufTable i).refbit = true → (s.bufTable i).refbit = true) := by
  rcases h.2.2.2 i with h1 | ⟨_, hr, h1⟩
  · rw [h1]; exact ⟨rfl, id⟩
  · rw [h1]; exact ⟨rfl, fun _ => hr⟩

theorem allocBuf_isSome (io : FileOps W) (frame : Nat) (s : BufMgr) (e : Env W) :
    (s.allocBuf io frame e).isSome = true :=
  allocBufLoop_isSome io (2 * s.numBufs) 0 s.clockHand 0 frame s e s.hand_lt
    (by rw [Nat.add_zero, Nat.mod_eq_of_lt s.hand_lt]) (by simp)
    (by have := s.hand_lt; omega) (by omega)

/-- Effect of the victim branch on everything but the victim. -/
theorem allocBufVictim_frame (io : FileOps W) (frame : Nat) (s : BufMgr) (e : Env W) :
    (s.allocBufVictim io frame e).2.2.1.numBufs = s.numBufs ∧
    (s.allocBufVictim io frame e).2.2.1.clockHand = s.clockHand ∧
    (s.allocBufVictim io frame e).2.2.1.bufPool = s.bufPool ∧
    (∀ i, i ≠ s.clockHand →
      (s.allocBufVictim io frame e).2.2.1.bufTable i = s.bufTable i) ∧
    (∀ f p, ¬(f = (s.bufTable s.clockHand).file ∧ p = (s.bufTable s.clockHand).pageNo) →
      (s.allocBufVictim io frame e).2.2.1.hashTable.map f p = s.hashTable.map f p) ∧
    ((s.allocBufVictim io frame e).1 = Status.OK →
      (s.allocBufVictim io frame e).2.1 = s.clockHand) := by
  unfold BufMgr.allocBufVictim BufHashTbl.remove
  cases hm : s.hashTable.map (s.bufTable s.clockHand).file (s.bufTable s.clockHand).pageNo <;>
  by_cases hd : (s.bufTable s.clockHand).dirty = true <;>
  by_cases hw : (io.writePage (s.bufTable s.clockHand).file (s.bufTable s.clockHand).pageNo
      (s.bufPool s.clockHand) e.disk).1 = Status.OK <;>
  simp +contextual [hm, hd, hw, Function.update_noteq]

/-! ## Claims on `allocBuf` -/

/-- The proviso of `allocBuf_pinned_frames_kept` cannot be dropped outside the reachable
states.  In `dupKeyMgr`, where two valid frames carry the key `(1, 5)`, frame 0 is pinned
and the index maps the key to it; `allocBuf` evicts frame 1, which carries the same key,
and the index entry of frame 0 is gone. -/
theorem allocBuf_drops_entry_of_pinned_frame :
    (dupKeyMgr.bufTable 0).valid = true ∧ 0 < (dupKeyMgr.bufTable 0).pinCnt ∧
    dupKeyMgr.hashTable.map (dupKeyMgr.bufTable 0).file (dupKeyMgr.bufTable 0).pageNo
      = some 0 ∧
    (dupKeyMgr.allocBuf okFiles 0 emptyEnv).map
        (fun r => (r.1, r.2.1, r.2.2.1.hashTable.map 1 5)) = some (Status.OK, 1, none) := by
  decide

/-- With every frame valid and pinned the sweep leaves through its `BUFFEREXCEEDED`
return, having changed reference flags only, with the clock hand back where it was. -/
theorem allocBuf_exceeded_of_all_pinned (io : FileOps W) (frame : Nat) (s : BufMgr)
    (e : Env W)
    (hall : ∀ i, i < s.numBufs → (s.bufTable i).valid = true ∧ 0 < (s.bufTable i).pinCnt) :
    ∃ s1, s.allocBuf io frame e = some (Status.BUFFEREXCEEDED, frame, s1, e) ∧
      RefbitsCleared s s1 ∧ s1.clockHand = s.clockHand := by
  obtain ⟨r, hr⟩ := Option.isSome_iff_exists.1 (allocBuf_isSome io frame s e)
  obtain ⟨s1, hs1, hx⟩ := allocBufLoop_exit io _ _ _ _ _ _ _ hr
  have hlt : s1.clockHand < s.numBufs := hs1.1 ▸ s1.hand_lt
  have hdv := (hs1.desc s1.clockHand).1
  have hp := hall _ hlt
  rcases hx with ⟨rfl, hc⟩ | ⟨rfl, hinv⟩ | ⟨_, _, hp1, rfl⟩
  · exact ⟨s1, hr, hs1, hc⟩
  · rw [hdv] at hinv
    simp only [hp.1] at hinv
    exact absurd hinv (by decide)
  · rw [hdv] at hp1
    simp only at hp1
    omega

/-- C2 (as amended). When every frame is valid and pinned, `allocBuf` returns
`BUFFEREXCEEDED` with no call to a collaborator (the world is unchanged), changing nothing
in the manager but reference flags, the clock hand ending where it started; `readPage` of
a page that is not in the index fails in the same way; `allocPage` fails in the same way
once the file's `allocatePage` has succeeded, and returns the status of `allocatePage`,
leaving the manager untouched, when that call fails. -/
theorem allocBuf_all_pinned (io : FileOps W) (s : BufMgr) (e : Env W)
    (hall : ∀ i, i < s.numBufs → (s.bufTable i).valid = true ∧ 0 < (s.bufTable i).pinCnt) :
    (∀ frame, ∃ s1, s.allocBuf io frame e = some (Status.BUFFEREXCEEDED, frame, s1, e) ∧
        s1.clockHand = s.clockHand ∧ s1.numBufs = s.numBufs ∧ s1.bufPool = s.bufPool ∧
        s1.hashTable = s.hashTable ∧
        ∀ i, s1.bufTable i = { s.bufTable i with refbit := (s1.bufTable i).refbit }) ∧
    (∀ file pageNo, s.hashTable.map file pageNo = none →
      ∃ s1, s.readPage io file pageNo e = some (Status.BUFFEREXCEEDED, none, s1, e) ∧
        RefbitsCleared s s1 ∧ s1.clockHand = s.clockHand) ∧
    (∀ file pageNo, (io.allocatePage file pageNo e.disk).1 = Status.OK →
      ∃ s1, s.allocPage io file pageNo e =
          some (Status.BUFFEREXCEEDED, (io.allocatePage file pageNo e.disk).2.1, none, s1,
            e.record (io.allocatePage file pageNo e.disk).2.2 (Event.allocatePage file)) ∧
        RefbitsCleared s s1 ∧ s1.clockHand = s.clockHand) ∧
    (∀ file pageNo, (io.allocatePage file pageNo e.disk).1 ≠ Status.OK →
      s.allocPage io file pageNo e =
        some ((io.allocatePage file pageNo e.disk).1,
          (io.allocatePage file pageNo e.disk).2.1, none, s,
          e.record (io.allocatePage file pageNo e.disk).2.2 (Event.allocatePage file))) := by
  refine ⟨fun frame => ?_, fun file pageNo hm => ?_, fun file pageNo hal => ?_,
    fun file pageNo hal => ?_⟩
  · obtain ⟨s1, h1, h2, h3⟩ := allocBuf_exceeded_of_all_pinned io frame s e hall
    exact ⟨s1, h1, h3, h2.1, h2.2.1, h2.2.2.1, fun i => (h2.desc i).1⟩
  · obtain ⟨s1, h1, h2, h3⟩ := allocBuf_exceeded_of_all_pinned io 0 s e hall
    refine ⟨s1, ?_, h2, h3⟩
    simp [BufMgr.readPage, BufHashTbl.lookup, hm, h1]
  · obtain ⟨s1, h1, h2, h3⟩ := allocBuf_exceeded_of_all_pinned io 0 s
      (e.record (io.allocatePage file pageNo e.disk).2.2 (Event.allocatePage file)) hall
    refine ⟨s1, ?_, h2, h3⟩
    simp [BufMgr.allocPage, hal, h1]
  · simp [BufMgr.allocPage, hal]

/-- Witness for `allocBuf_all_pinned`: the one-frame pool whose only frame is pinned. -/
theorem allocBuf_all_pinned_witness :
    (∃ s1, onePinnedMgr.allocBuf okFiles 0 emptyEnv
        = some (Status.BUFFEREXCEEDED, 0, s1, emptyEnv) ∧ s1.clockHand = 0) ∧
    (∃ s1, onePinnedMgr.readPage okFiles 1 6 emptyEnv
        = some (Status.BUFFEREXCEEDED, none, s1, emptyEnv) ∧ s1.clockHand = 0) := by
  have h := allocBuf_all_pinned okFiles onePinnedMgr emptyEnv (by decide)
  constructor
  · obtain ⟨s1, h1, h2, _⟩ := h.1 0
    exact ⟨s1, h1, h2⟩
  · obtain ⟨s1, h1, _, h2⟩ := h.2.1 1 6 (by decide)
    exact ⟨s1, h1, h2⟩

/-- C2, counterexample to the claim as stated. Every frame of `onePinnedMgr` is valid and
pinned, yet `allocPage` does not fail with `BUFFEREXCEEDED`: the file's `allocatePage`
fails first and `allocPage` returns its `UNIXERR`. -/
theorem allocPage_all_pinned_not_exceeded :
    (∀ i, i < onePinnedMgr.numBufs →
      (onePinnedMgr.bufTable i).valid = true ∧ 0 < (onePinnedMgr.bufTable i).pinCnt) ∧
    (onePinnedMgr.allocPage noSpaceFiles 1 0 emptyEnv).map (fun r => r.1)
      = some Status.UNIXERR := by
  decide

/-- C3, the code at a reachable input. A pool of one frame is constructed, page 10 of
file 1 is fetched (`OK`) and released (`OK`): the only frame is valid with `pinCnt = 0`.
`allocBuf`, and with it the fetch of page 11, nevertheless return `BUFFEREXCEEDED`. -/
theorem allocBuf_exceeded_with_unpinned_frame :
    (BufMgr.readPage okFiles 1 10 (BufMgr.construct 1 (by decide)) emptyEnv).map
        (fun r => (r.1, (BufMgr.unPinPage 1 10 false r.2.2.1).1))
      = some (Status.OK, Status.OK) ∧
    oneFrameReleased.map (fun x =>
        (x.1.numBufs, (x.1.bufTable 0).valid, (x.1.bufTable 0).pinCnt,
          (x.1.bufTable 0).refbit))
      = some (1, true, 0, true) ∧
    oneFrameReleased.map (fun x =>
        ((x.1.allocBuf okFiles 0 x.2).map (fun r => r.1),
          (x.1.readPage okFiles 1 11 x.2).map (fun r => r.1)))
      = some (some Status.BUFFEREXCEEDED, some Status.BUFFEREXCEEDED) :=
  ⟨by decide, by decide, by decide⟩

/-- C4. The sweep of `allocBuf` ends within `2 * numBufs` advances of the clock, for every
manager (whose clock hand lies below `numBufs >= 1`) and every behaviour of the
collaborators: the loop run with that budget returns a result, any larger budget gives the
same result, and the result is `OK` with a frame below `numBufs`, or `BUFFEREXCEEDED`, or
a status other than `OK` handed back by the `writePage` or the index removal of some
frame. -/
theorem allocBuf_terminates (io : FileOps W) (frame : Nat) (s : BufMgr) (e : Env W) :
    ∃ r, BufMgr.allocBufLoop io (2 * s.numBufs) s.clockHand 0 frame s e = some r ∧
      (∀ m, BufMgr.allocBufLoop io (2 * s.numBufs + m) s.clockHand 0 frame s e = some r) ∧
      s.allocBuf io frame e = some r ∧
      ((r.1 = Status.OK ∧ r.2.1 < s.numBufs) ∨ r.1 = Status.BUFFEREXCEEDED ∨
        (r.1 ≠ Status.OK ∧ ∃ i, i < s.numBufs ∧
          (r.1 = (io.writePage (s.bufTable i).file (s.bufTable i).pageNo (s.bufPool i)
                    e.disk).1 ∨
           r.1 = (s.hashTable.remove (s.bufTable i).file (s.bufTable i).pageNo).1))) := by
  obtain ⟨r, hr⟩ := Option.isSome_iff_exists.1 (allocBuf_isSome io frame s e)
  refine ⟨r, hr, fun m => allocBufLoop_mono io _ m _ _ _ _ _ _ hr, hr, ?_⟩
  obtain ⟨s1, hs1, hx⟩ := allocBufLoop_exit io _ _ _ _ _ _ _ hr
  have hlt : s1.clockHand < s.numBufs := hs1.1 ▸ s1.hand_lt
  have hdv := (hs1.desc s1.clockHand).1
  rcases hx with ⟨rfl, _⟩ | ⟨rfl, _⟩ | ⟨_, _, _, rfl⟩
  · exact Or.inr (Or.inl rfl)
  · exact Or.inl ⟨rfl, hlt⟩
  · by_cases hok : (s1.allocBufVictim io frame e).1 = Status.OK
    · exact Or.inl ⟨hok, by
        rw [(allocBufVictim_frame io frame s1 e).2.2.2.2.2 hok]; exact hlt⟩
    · refine Or.inr (Or.inr ⟨hok, s1.clockHand, hlt, ?_⟩)
      have hf : (s1.bufTable s1.clockHand).file = (s.bufTable s1.clockHand).file := by
        rw [hdv]
      have hq : (s1.bufTable s1.clockHand).pageNo = (s.bufTable s1.clockHand).pageNo := by
        rw [hdv]
      rw [← hf, ← hq, ← hs1.2.1, ← hs1.2.2.1]
      unfold BufMgr.allocBufVictim
      simp only
      split_ifs <;> simp_all

/-- The victim branch never adds an index entry. -/
theorem allocBufVictim_map (io : FileOps W) (frame : Nat) (s : BufMgr) (e : Env W)
    (f : FilePtr) (p : Int) :
    (s.allocBufVictim io frame e).2.2.1.hashTable.map f p = s.hashTable.map f p ∨
    (s.allocBufVictim io frame e).2.2.1.hashTable.map f p = none := by
  by_cases hk : f = (s.bufTable s.clockHand).file ∧ p = (s.bufTable s.clockHand).pageNo
  · obtain ⟨rfl, rfl⟩ := hk
    unfold BufMgr.allocBufVictim BufHashTbl.remove
    cases hm : s.hashTable.map (s.bufTable s.clockHand).file
        (s.bufTable s.clockHand).pageNo <;>
    by_cases hd : (s.bufTable s.clockHand).dirty = true <;>
    by_cases hw : (io.writePage (s.bufTable s.clockHand).file
        (s.bufTable s.clockHand).pageNo (s.bufPool s.clockHand) e.disk).1 = Status.OK <;>
    simp [hm, hd, hw]
  · exact Or.inl ((allocBufVictim_frame io frame s e).2.2.2.2.1 f p hk)

/-- What a successful `allocBuf` returns: the frame under the clock hand, below `numBufs`;
the pool and the number of frames are untouched and no index entry is added. -/
theorem allocBuf_ok (io : FileOps W) (frame : Nat) (s : BufMgr) (e : Env W)
    (f : Nat) (sa : BufMgr) (ea : Env W)
    (h : s.allocBuf io frame e = some (Status.OK, f, sa, ea)) :
    f = sa.clockHand ∧ f < s.numBufs ∧ sa.numBufs = s.numBufs ∧ sa.bufPool = s.bufPool ∧
    (∀ fl p, s.hashTable.map fl p = none → sa.hashTable.map fl p = none) := by
  obtain ⟨s1, hs1, hx⟩ := allocBufLoop_exit io _ _ _ _ _ _ _ h
  have hlt : s1.clockHand < s.numBufs := hs1.1 ▸ s1.hand_lt
  rcases hx with ⟨hb, _⟩ | ⟨hb, _⟩ | ⟨_, _, _, hb⟩
  · simp at hb
  · simp only [Prod.mk.injEq, true_and] at hb
    obtain ⟨rfl, rfl, rfl⟩ := hb
    exact ⟨rfl, hlt, hs1.1, hs1.2.1, fun fl p hm => by rw [hs1.2.2.1]; exact hm⟩
  · have hv := allocBufVictim_frame io frame s1 e
    have hm := allocBufVictim_map io frame s1 e
    rw [← hb] at hv hm
    simp only at hv hm
    refine ⟨(hv.2.2.2.2.2 trivial).trans hv.2.1.symm,
      by rw [hv.2.2.2.2.2 trivial]; exact hlt,
      hv.1.trans hs1.1, hv.2.2.1.trans hs1.2.1, fun fl p hn => ?_⟩
    rcases hm fl p with h1 | h1
    · rw [h1, hs1.2.2.1]; exact hn
    · exact h1

/-! ## Claims on `readPage` and `unPinPage` -/

/-- The hit branch of `readPage`, as an equation. -/
theorem readPage_of_resident (io : FileOps W) (file : FilePtr) (pageNo : Int) (s : BufMgr)
    (e : Env W) (f : Nat) (h : s.hashTable.map file pageNo = some f) :
    s.readPage io file pageNo e = some (Status.OK, some f,
      { s with bufTable := Function.update s.bufTable f
                 { s.bufTable f with refbit := true
                                     pinCnt := (s.bufTable f).pinCnt + 1 } }, e) := by
  simp [BufMgr.readPage, BufHashTbl.lookup, h]

/-- C5. When the index maps `(file, pageNo)` to frame `f`, `readPage` returns `OK` with a
reference to frame `f`; the descriptor of `f` gets `refbit = true` and `pinCnt + 1`; the
other descriptors, the index, the clock hand, the pool and the world (disk and trace: no
call to a collaborator) are unchanged.  A second fetch returns the same frame and leaves
`pinCnt` increased by 2. -/
theorem readPage_hit (io : FileOps W) (file : FilePtr) (pageNo : Int) (s : BufMgr)
    (e : Env W) (f : Nat) (h : s.hashTable.map file pageNo = some f) :
    ∃ s1, s.readPage io file pageNo e = some (Status.OK, some f, s1, e) ∧
      s1.bufTable f =
        { s.bufTable f with refbit := true, pinCnt := (s.bufTable f).pinCnt + 1 } ∧
      (∀ g, g ≠ f → s1.bufTable g = s.bufTable g) ∧
      s1.hashTable = s.hashTable ∧ s1.clockHand = s.clockHand ∧ s1.bufPool = s.bufPool ∧
      s1.numBufs = s.numBufs ∧
      ∃ s2, s1.readPage io file pageNo e = some (Status.OK, some f, s2, e) ∧
        s2.bufTable f =
          { s.bufTable f with refbit := true, pinCnt := (s.bufTable f).pinCnt + 2 } ∧
        (∀ g, g ≠ f → s2.bufTable g = s.bufTable g) ∧
        s2.hashTable = s.hashTable ∧ s2.clockHand = s.clockHand ∧
        s2.bufPool = s.bufPool := by
  refine ⟨_, readPage_of_resident io file pageNo s e f h, by simp,
    fun g hg => by simp [Function.update_noteq hg], rfl, rfl, rfl, rfl, ?_⟩
  refine ⟨_, readPage_of_resident io file pageNo _ e f h, by simp,
    fun g hg => by simp [Function.update_noteq hg], rfl, rfl, rfl⟩

/-- Witness for `readPage_hit`: page 5 of file 1 is resident in frame 0 of
`onePinnedMgr`. -/
theorem readPage_hit_witness :
    ∃ s1, onePinnedMgr.readPage okFiles 1 5 emptyEnv = some (Status.OK, some 0, s1, emptyEnv) ∧
      (s1.bufTable 0).pinCnt = 2 ∧ (s1.bufTable 0).refbit = true := by
  obtain ⟨s1, h1, h2, _⟩ := readPage_hit okFiles 1 5 onePinnedMgr emptyEnv 0 (by decide)
  exact ⟨s1, h1, by rw [h2]; rfl, by rw [h2]⟩

/-- The miss branch of `readPage` after a successful `allocBuf` and a successful read of
the file, as an equation. -/
theorem readPage_of_miss (io : FileOps W) (file : FilePtr) (pageNo : Int) (s : BufMgr)
    (e : Env W) (hm : s.hashTable.map file pageNo = none) (f : Nat) (sa : BufMgr)
    (ea : Env W) (ha : s.allocBuf io 0 e = some (Status.OK, f, sa, ea))
    (hrd : (io.readPage file pageNo (sa.bufPool f) ea.disk).1 = Status.OK) :
    s.readPage io file pageNo e = some (Status.OK, some f,
      { sa with
          bufPool := Function.update sa.bufPool f
            (io.readPage file pageNo (sa.bufPool f) ea.disk).2.1
          hashTable :=
            ⟨fun fl p => if fl = file ∧ p = pageNo then some f else sa.hashTable.map fl p⟩
          bufTable := Function.update sa.bufTable f ((sa.bufTable f).Set file pageNo) },
      (ea.record (io.readPage file pageNo (sa.bufPool f) ea.disk).2.2
          (Event.readPage file pageNo)).record
        (io.readPage file pageNo (sa.bufPool f) ea.disk).2.2
        (Event.indexInsert file pageNo f)) := by
  have hn := (allocBuf_ok io 0 s e f sa ea ha).2.2.2.2 file pageNo hm
  simp [BufMgr.readPage, BufHashTbl.lookup, hm, ha, hrd, BufHashTbl.insert, hn, Env.record]

/-- A fetch of a page that is not in the index returns `OK` only through a successful
`allocBuf` followed by a successful read of the file. -/
theorem readPage_ok_inv (io : FileOps W) (file : FilePtr) (pageNo : Int) (s : BufMgr)
    (e : Env W) (hm : s.hashTable.map file pageNo = none)
    (r : Status × Option Nat × BufMgr × Env W)
    (hr : s.readPage io file pageNo e = some r) (hok : r.1 = Status.OK) :
    ∃ f sa ea, s.allocBuf io 0 e = some (Status.OK, f, sa, ea) ∧
      (io.readPage file pageNo (sa.bufPool f) ea.disk).1 = Status.OK := by
  obtain ⟨⟨st, f, sa, ea⟩, ha⟩ := Option.isSome_iff_exists.1 (allocBuf_isSome io 0 s e)
  have hst : st = Status.OK := by
    by_contra hne
    simp [BufMgr.readPage, BufHashTbl.lookup, hm, ha, hne] at hr
    rw [← hr] at hok
    exact hne hok
  subst hst
  refine ⟨f, sa, ea, ha, ?_⟩
  by_contra hne
  simp [BufMgr.readPage, BufHashTbl.lookup, hm, ha, hne] at hr
  rw [← hr] at hok
  exact hne hok

/-- After a successful fetch of a page that was not in the index, the page is in the
index and its frame is pinned exactly once. -/
theorem readPage_ok_pinned (io : FileOps W) (file : FilePtr) (pageNo : Int) (s : BufMgr)
    (e : Env W) (hm : s.hashTable.map file pageNo = none)
    (r : Status × Option Nat × BufMgr × Env W)
    (hr : s.readPage io file pageNo e = some r) (hok : r.1 = Status.OK) :
    ∃ f, r.2.2.1.hashTable.map file pageNo = some f ∧ (r.2.2.1.bufTable f).pinCnt = 1 := by
  obtain ⟨f, sa, ea, ha, hrd⟩ := readPage_ok_inv io file pageNo s e hm r hr hok
  rw [readPage_of_miss io file pageNo s e hm f sa ea ha hrd] at hr
  have hr1 := (Option.some.inj hr).symm
  subst hr1
  exact ⟨f, by simp, by simp [BufDesc.Set]⟩

/-- C6. For a page that is not in the index: if `readPage` returns `OK`, then `allocBuf`
had returned `OK` with a frame `f` and the file's `readPage` had succeeded, and afterwards
`page` refers to `f`, `f` is the clock hand, the index maps `(file, pageNo)` to `f`, the
descriptor of `f` is exactly (file, pageNo, pinCnt 1, not dirty, valid, refbit set), the
content of `f` is what the file's `readPage` delivered, and the calls issued after
`allocBuf` are that read and the index insertion.  Conversely `readPage` does return `OK`
whenever `allocBuf` and the file's `readPage` succeed. -/
theorem readPage_miss (io : FileOps W) (file : FilePtr) (pageNo : Int) (s : BufMgr)
    (e : Env W) (hm : s.hashTable.map file pageNo = none) :
    (∀ r, s.readPage io file pageNo e = some r → r.1 = Status.OK →
      ∃ f sa ea, s.allocBuf io 0 e = some (Status.OK, f, sa, ea) ∧
        (io.readPage file pageNo (sa.bufPool f) ea.disk).1 = Status.OK ∧
        r.2.1 = some f ∧ f = r.2.2.1.clockHand ∧ f < r.2.2.1.numBufs ∧
        r.2.2.1.hashTable.map file pageNo = some f ∧
        r.2.2.1.bufTable f =
          { file := file, pageNo := pageNo, frameNo := (sa.bufTable f).frameNo, pinCnt := 1,
            dirty := false, valid := true, refbit := true } ∧
        r.2.2.1.bufPool f = (io.readPage file pageNo (sa.bufPool f) ea.disk).2.1 ∧
        (∀ g, g ≠ f → r.2.2.1.bufTable g = sa.bufTable g ∧
          r.2.2.1.bufPool g = sa.bufPool g) ∧
        r.2.2.2.trace =
          ea.trace ++ [Event.readPage file pageNo, Event.indexInsert file pageNo f]) ∧
    (∀ f sa ea, s.allocBuf io 0 e = some (Status.OK, f, sa, ea) →
      (io.readPage file pageNo (sa.bufPool f) ea.disk).1 = Status.OK →
      ∃ r, s.readPage io file pageNo e = some r ∧ r.1 = Status.OK ∧ r.2.1 = some f) := by
  constructor
  · intro r hr hok
    obtain ⟨f, sa, ea, ha, hrd⟩ := readPage_ok_inv io file pageNo s e hm r hr hok
    have hk := allocBuf_ok io 0 s e f sa ea ha
    rw [readPage_of_miss io file pageNo s e hm f sa ea ha hrd] at hr
    have hr1 := (Option.some.inj hr).symm
    subst hr1
    refine ⟨f, sa, ea, ha, hrd, rfl, hk.1, ?_, by simp, by simp [BufDesc.Set], by simp,
      fun g hg => by simp [Function.update_noteq hg], by simp [Env.record]⟩
    show f < sa.numBufs
    rw [hk.2.2.1]; exact hk.2.1
  · intro f sa ea ha hrd
    exact ⟨_, readPage_of_miss io file pageNo s e hm f sa ea ha hrd, rfl, rfl⟩

/-- Witness for `readPage_miss`: fetching page 10 of file 1 into a fresh pool of one
frame. -/
theorem readPage_miss_witness :
    ∃ r, (BufMgr.construct 1 (by decide)).readPage okFiles 1 10 emptyEnv = some r ∧
      r.1 = Status.OK ∧ r.2.1 = some 0 ∧ r.2.2.1.hashTable.map 1 10 = some 0 ∧
      (r.2.2.1.bufTable 0).pinCnt = 1 ∧ r.2.2.1.bufPool 0 = 110 := by
  have h := readPage_miss okFiles 1 10 (BufMgr.construct 1 (by decide)) emptyEnv rfl
  obtain ⟨r, hr, hok, hp⟩ := h.2 0 (BufMgr.construct 1 (by decide)).advanceClock emptyEnv
    rfl (by decide)
  obtain ⟨f, sa, ea, ha, _, hf, _, _, hmap, hd, hpool, _⟩ := h.1 r hr hok
  have hf0 : f = 0 := Option.some.inj (hf.symm.trans hp)
  subst hf0
  have hsa : (Status.OK, 0, sa, ea) = ((Status.OK : Status), (0 : Nat),
      (BufMgr.construct 1 (by decide)).advanceClock, emptyEnv) :=
    Option.some.inj (ha.symm.trans rfl)
  simp only [Prod.mk.injEq, true_and] at hsa
  obtain ⟨rfl, rfl⟩ := hsa
  exact ⟨r, hr, hok, hp, hmap, by rw [hd], by rw [hpool]; rfl⟩

/-- C7. `unPinPage` on a page that is not in the index returns `HASHNOTFOUND` and leaves
the manager as it was; on a resident page whose frame has `pinCnt = 0` it returns
`PAGENOTPINNED` and leaves the manager as it was, whatever the `dirty` argument.  After a
successful fetch of a page that was not resident, the first release returns `OK` and a
second release returns `PAGENOTPINNED` without changing anything. -/
theorem unPinPage_errors (io : FileOps W) (file : FilePtr) (pageNo : Int) (s : BufMgr)
    (e : Env W) (dirty dirty2 : Bool) :
    (s.hashTable.map file pageNo = none →
      s.unPinPage file pageNo dirty = (Status.HASHNOTFOUND, s)) ∧
    (∀ f, s.hashTable.map file pageNo = some f → (s.bufTable f).pinCnt = 0 →
      s.unPinPage file pageNo dirty = (Status.PAGENOTPINNED, s)) ∧
    (s.hashTable.map file pageNo = none →
      ∀ r, s.readPage io file pageNo e = some r → r.1 = Status.OK →
        (r.2.2.1.unPinPage file pageNo dirty).1 = Status.OK ∧
        (r.2.2.1.unPinPage file pageNo dirty).2.unPinPage file pageNo dirty2 =
          (Status.PAGENOTPINNED, (r.2.2.1.unPinPage file pageNo dirty).2)) := by
  refine ⟨fun hm => by simp [BufMgr.unPinPage, BufHashTbl.lookup, hm],
    fun f hm hp => by simp [BufMgr.unPinPage, BufHashTbl.lookup, hm, hp], ?_⟩
  intro hm r hr hok
  obtain ⟨f, hmap, hpin⟩ := readPage_ok_pinned io file pageNo s e hm r hr hok
  constructor
  · simp [BufMgr.unPinPage, BufHashTbl.lookup, hmap, hpin]
  · cases dirty <;> simp [BufMgr.unPinPage, BufHashTbl.lookup, hmap, hpin]

/-- Witness for `unPinPage_errors` on a fresh pool of one frame: releasing page 10 of file
1 before any fetch gives `HASHNOTFOUND`; after one fetch the first release gives `OK` and
the second `PAGENOTPINNED`, also with `dirty = true`. -/
theorem unPinPage_errors_witness :
    ((BufMgr.construct 1 (by decide)).unPinPage 1 10 true).1 = Status.HASHNOTFOUND ∧
    ∃ r, (BufMgr.construct 1 (by decide)).readPage okFiles 1 10 emptyEnv = some r ∧
      (r.2.2.1.unPinPage 1 10 false).1 = Status.OK ∧
      ((r.2.2.1.unPinPage 1 10 false).2.unPinPage 1 10 true).1 = Status.PAGENOTPINNED := by
  have h := unPinPage_errors okFiles 1 10 (BufMgr.construct 1 (by decide)) emptyEnv false true
  have h1 := unPinPage_errors okFiles 1 10 (BufMgr.construct 1 (by decide)) emptyEnv true true
  refine ⟨by rw [h1.1 rfl], ?_⟩
  obtain ⟨r, hr⟩ := Option.isSome_iff_exists.1
    (show ((BufMgr.construct 1 (by decide)).readPage okFiles 1 10 emptyEnv).isSome = true
      by decide)
  have hok : r.1 = Status.OK := by
    have : ((BufMgr.construct 1 (by decide)).readPage okFiles 1 10 emptyEnv).map
        (fun x => x.1) = some Status.OK := by decide
    rw [hr] at this
    exact Option.some.inj this
  have h2 := h.2.2 rfl r hr hok
  exact ⟨r, hr, h2.1, by rw [h2.2]⟩

/-- C8. When `(file, pageNo)` is resident in frame `f` with `pinCnt > 0`, `unPinPage`
returns `OK`; the descriptor of `f` gets `pinCnt - 1` and `dirty := old dirty || d`, its
other fields being unchanged; the other descriptors, the index, the clock hand, the pool
and the number of frames are unchanged (and no collaborator is called: `unPinPage` does
not touch the world). -/
theorem unPinPage_ok (file : FilePtr) (pageNo : Int) (d : Bool) (s : BufMgr) (f : Nat)
    (hm : s.hashTable.map file pageNo = some f) (hp : 0 < (s.bufTable f).pinCnt) :
    ∃ s1, s.unPinPage file pageNo d = (Status.OK, s1) ∧
      s1.bufTable f = { s.bufTable f with pinCnt := (s.bufTable f).pinCnt - 1
                                          dirty := (s.bufTable f).dirty || d } ∧
      (s1.bufTable f).pinCnt + 1 = (s.bufTable f).pinCnt ∧
      (∀ g, g ≠ f → s1.bufTable g = s.bufTable g) ∧
      s1.hashTable = s.hashTable ∧ s1.clockHand = s.clockHand ∧ s1.bufPool = s.bufPool ∧
      s1.numBufs = s.numBufs := by
  have hp0 : (s.bufTable f).pinCnt ≠ 0 := by omega
  let d1 : BufDesc :=
    { s.bufTable f with pinCnt := (s.bufTable f).pinCnt - 1,
                        dirty := (s.bufTable f).dirty || d }
  refine ⟨{ s with bufTable := Function.update s.bufTable f d1 }, ?_, by simp [d1], ?_,
    fun g hg => by simp [Function.update_noteq hg], rfl, rfl, rfl, rfl⟩
  · cases d <;> simp [BufMgr.unPinPage, BufHashTbl.lookup, hm, hp0, d1]
  · simp only [Function.update_same, d1]
    omega

/-- Witness for `unPinPage_ok`: releasing the dirty page 5 of `twoPageMgr` with
`dirty = false` keeps it dirty and takes its pin count from 1 to 0. -/
theorem unPinPage_ok_witness :
    ∃ s1, twoPageMgr.unPinPage 1 5 false = (Status.OK, s1) ∧
      (s1.bufTable 0).pinCnt = 0 ∧ (s1.bufTable 0).dirty = true := by
  obtain ⟨s1, h1, h2, _⟩ := unPinPage_ok 1 5 false twoPageMgr 0 (by decide) (by decide)
  exact ⟨s1, h1, by rw [h2]; rfl, by rw [h2]; rfl⟩

/-! ## The loop of `flushFile` -/

theorem remove_map (h : BufHashTbl) (f : FilePtr) (p : Int) (f1 : FilePtr) (p1 : Int) :
    (h.remove f p).2.map f1 p1 = if f1 = f ∧ p1 = p then none else h.map f1 p1 := by
  unfold BufHashTbl.remove
  cases hm : h.map f p
  · simp only
    split_ifs with hk
    · rw [hk.1, hk.2]; exact hm
    · rfl
  · rfl

/-- The events of a range of frames depend only on the descriptors in the range and on
the pool. -/
theorem flushEvents_congr (file : FilePtr) (s s2 : BufMgr) (hpool : s2.bufPool = s.bufPool) :
    ∀ (n i : Nat), (∀ j, i ≤ j → j < i + n → s2.bufTable j = s.bufTable j) →
      flushEvents s2 file n i = flushEvents s file n i := by
  intro n
  induction n with
  | zero => intro i _; rfl
  | succ n ih =>
    intro i h
    have h0 := h i (Nat.le_refl i) (by omega)
    simp only [flushEvents, flushFrameEvents, h0, hpool]
    rw [ih (i + 1) (fun j h1 h2 => h j (by omega) (by omega))]

/-- One iteration of the loop of `flushFile` on a valid frame of the file that is not
pinned and whose write-back, if any, succeeds: the loop goes on from the next frame with
the frame flushed and its key removed. -/
theorem flushFileLoop_flush (io : FileOps W) (file : FilePtr) (n i : Nat) (s : BufMgr)
    (e : Env W) (hv : (s.bufTable i).valid = true) (hf : (s.bufTable i).file = file)
    (hp : (s.bufTable i).pinCnt = 0)
    (hw : (s.bufTable i).dirty = true →
      (io.writePage file (s.bufTable i).pageNo (s.bufPool i) e.disk).1 = Status.OK) :
    ∃ e2 : Env W, e2.trace = e.trace ++ flushFrameEvents s file i ∧
      BufMgr.flushFileLoop io file (n + 1) i s e =
        BufMgr.flushFileLoop io file n (i + 1)
          { s with hashTable := (s.hashTable.remove file (s.bufTable i).pageNo).2
                   bufTable := Function.update s.bufTable i (s.bufTable i).flushed } e2 := by
  by_cases hd : (s.bufTable i).dirty = true
  · have hw1 := hw hd
    refine ⟨⟨(io.writePage file (s.bufTable i).pageNo (s.bufPool i) e.disk).2,
      e.trace ++ [Event.writePage file (s.bufTable i).pageNo (s.bufPool i)] ++
        [Event.indexRemove file (s.bufTable i).pageNo]⟩, ?_, ?_⟩
    · simp [flushFrameEvents, hv, hf, hd]
    · rw [BufMgr.flushFileLoop]
      simp [hv, hf, hp, hd, hw1, BufDesc.flushed, Env.record]
  · have hd2 : (s.bufTable i).dirty = false := by simpa using hd
    refine ⟨⟨e.disk, e.trace ++ [Event.indexRemove file (s.bufTable i).pageNo]⟩, ?_, ?_⟩
    · simp [flushFrameEvents, hv, hf, hd]
    · rw [BufMgr.flushFileLoop]
      simp [hv, hf, hp, hd2, BufDesc.flushed, Env.record]

/-- One iteration of the loop of `flushFile` on a frame that the file does not own: the
loop goes on from the next frame. -/
theorem flushFileLoop_skip (io : FileOps W) (file : FilePtr) (n i : Nat) (s : BufMgr)
    (e : Env W) (hf : (s.bufTable i).file ≠ file) :
    BufMgr.flushFileLoop io file (n + 1) i s e = BufMgr.flushFileLoop io file n (i + 1) s e ∧
    flushFrameEvents s file i = [] := by
  constructor
  · rw [BufMgr.flushFileLoop]
    simp [hf]
  · simp [flushFrameEvents, hf]

theorem FlushedRange.nil (s : BufMgr) (file : FilePtr) (i : Nat) :
    FlushedRange s s file i 0 :=
  ⟨rfl, rfl, rfl, fun j h1 h2 => by omega, fun _ _ => rfl, fun j h1 h2 => by omega,
    fun _ _ _ => rfl⟩

/-- Extending a flushed range to the left by a frame the file does not validly own. -/
theorem FlushedRange.cons_skip {s s1 : BufMgr} {file : FilePtr} {i n : Nat}
    (h : FlushedRange s s1 file (i + 1) n)
    (hi : ¬((s.bufTable i).valid = true ∧ (s.bufTable i).file = file)) :
    FlushedRange s s1 file i (n + 1) := by
  obtain ⟨a1, a2, a3, a4, a5, a6, a7⟩ := h
  have hne : ∀ j, i ≤ j → (s.bufTable j).valid = true → (s.bufTable j).file = file →
      i + 1 ≤ j := by
    intro j hj hv hf
    rcases Nat.eq_or_lt_of_le hj with rfl | h
    · exact absurd ⟨hv, hf⟩ hi
    · exact h
  refine ⟨a1, a2, a3, ?_, ?_, ?_, ?_⟩
  · intro j h1 h2 hv hf
    exact a4 j (hne j h1 hv hf) (by omega) hv hf
  · intro j hj
    apply a5
    rintro ⟨b1, b2, b3, b4⟩
    exact hj ⟨by omega, by omega, b3, b4⟩
  · intro j h1 h2 hv hf
    exact a6 j (hne j h1 hv hf) (by omega) hv hf
  · intro f1 p1 hk
    apply a7
    rintro ⟨b0, j, b1, b2, b3, b4, b5⟩
    exact hk ⟨b0, j, by omega, by omega, b3, b4, b5⟩

/-- Extending a flushed range to the left by a frame that has just been flushed. -/
theorem FlushedRange.cons_flush {s s1 : BufMgr} {file : FilePtr} {i n : Nat}
    (hv : (s.bufTable i).valid = true) (hf : (s.bufTable i).file = file)
    (h : FlushedRange
      { s with hashTable := (s.hashTable.remove file (s.bufTable i).pageNo).2
               bufTable := Function.update s.bufTable i (s.bufTable i).flushed }
      s1 file (i + 1) n) :
    FlushedRange s s1 file i (n + 1) := by
  obtain ⟨a1, a2, a3, a4, a5, a6, a7⟩ := h
  simp only at a1 a2 a3 a4 a5 a6 a7
  have hupd : ∀ j, i + 1 ≤ j →
      Function.update s.bufTable i (s.bufTable i).flushed j = s.bufTable j := by
    intro j hj
    exact Function.update_noteq (by omega) _ _
  refine ⟨a1, a2, a3, ?_, ?_, ?_, ?_⟩
  · intro j h1 h2 hvj hfj
    rcases Nat.eq_or_lt_of_le h1 with rfl | hlt
    · rw [a5 i (by rintro ⟨b1, _⟩; omega)]
      exact Function.update_same _ _ _
    · have := a4 j hlt (by omega)
      rw [hupd j hlt] at this
      exact this hvj hfj
  · intro j hj
    have hji : j ≠ i := by
      rintro rfl
      exact hj ⟨Nat.le_refl _, by omega, hv, hf⟩
    rw [a5 j, Function.update_noteq hji]
    rintro ⟨b1, b2, b3, b4⟩
    rw [hupd j b1] at b3 b4
    exact hj ⟨by omega, by omega, b3, b4⟩
  · intro j h1 h2 hvj hfj
    rcases Nat.eq_or_lt_of_le h1 with rfl | hlt
    · by_cases hex : ∃ k, i + 1 ≤ k ∧ k < i + 1 + n ∧ (s.bufTable k).valid = true ∧
          (s.bufTable k).file = file ∧ (s.bufTable k).pageNo = (s.bufTable i).pageNo
      · obtain ⟨k, k1, k2, k3, k4, k5⟩ := hex
        have := a6 k k1 k2
        rw [hupd k k1] at this
        rw [← k5]
        exact this k3 k4
      · rw [a7 file (s.bufTable i).pageNo, remove_map]
        · simp
        · rintro ⟨_, k, k1, k2, k3, k4, k5⟩
          rw [hupd k k1] at k3 k4 k5
          exact hex ⟨k, k1, k2, k3, k4, k5⟩
    · have := a6 j hlt (by omega)
      rw [hupd j hlt] at this
      exact this hvj hfj
  · intro f1 p1 hk
    rw [a7 f1 p1, remove_map, if_neg]
    · rintro ⟨b1, b2⟩
      exact hk ⟨b1, i, Nat.le_refl _, by omega, hv, hf, b2.symm⟩
    · rintro ⟨b0, k, k1, k2, k3, k4, k5⟩
      rw [hupd k k1] at k3 k4 k5
      exact hk ⟨b0, k, by omega, by omega, k3, k4, k5⟩

/-- A stretch of frames that contains a pinned valid frame `p` of the file: whatever the
collaborators do, the loop of `flushFile` does not return `OK`, touches no frame before
the stretch or from `p` on, removes index entries only for pages of valid frames of the
file before `p`, and issues an initial part of the calls that flushing the frames before
`p` consists of. -/
theorem flushFileLoop_pinned (io : FileOps W) (file : FilePtr) (p : Nat) :
    ∀ (n i : Nat) (s : BufMgr) (e : Env W), i ≤ p → p < i + n →
      (s.bufTable p).valid = true → (s.bufTable p).file = file →
      0 < (s.bufTable p).pinCnt →
      (BufMgr.flushFileLoop io file n i s e).1 ≠ Status.OK ∧
      (∀ j, j < i ∨ p ≤ j →
        (BufMgr.flushFileLoop io file n i s e).2.1.bufTable j = s.bufTable j) ∧
      (BufMgr.flushFileLoop io file n i s e).2.1.bufPool = s.bufPool ∧
      (BufMgr.flushFileLoop io file n i s e).2.1.numBufs = s.numBufs ∧
      (BufMgr.flushFileLoop io file n i s e).2.1.clockHand = s.clockHand ∧
      (∀ f1 p1,
        (BufMgr.flushFileLoop io file n i s e).2.1.hashTable.map f1 p1 = s.hashTable.map f1 p1 ∨
        ((BufMgr.flushFileLoop io file n i s e).2.1.hashTable.map f1 p1 = none ∧ f1 = file ∧
          ∃ j, i ≤ j ∧ j < p ∧ (s.bufTable j).valid = true ∧ (s.bufTable j).file = file ∧
            (s.bufTable j).pageNo = p1)) ∧
      ∃ evs, (BufMgr.flushFileLoop io file n i s e).2.2.trace = e.trace ++ evs ∧
        evs <+: flushEvents s file (p - i) i := by
  intro n
  induction n with
  | zero => intro i s e h1 h2; omega
  | succ n ih =>
    intro i s e hip hpn hvp hfp hpp
    have stop : ∀ (st : Status), st ≠ Status.OK →
        BufMgr.flushFileLoop io file (n + 1) i s e = (st, s, e) →
        (BufMgr.flushFileLoop io file (n + 1) i s e).1 ≠ Status.OK ∧
        (∀ j, j < i ∨ p ≤ j →
          (BufMgr.flushFileLoop io file (n + 1) i s e).2.1.bufTable j = s.bufTable j) ∧
        (BufMgr.flushFileLoop io file (n + 1) i s e).2.1.bufPool = s.bufPool ∧
        (BufMgr.flushFileLoop io file (n + 1) i s e).2.1.numBufs = s.numBufs ∧
        (BufMgr.flushFileLoop io file (n + 1) i s e).2.1.clockHand = s.clockHand ∧
        (∀ f1 p1,
          (BufMgr.flushFileLoop io file (n + 1) i s e).2.1.hashTable.map f1 p1
            = s.hashTable.map f1 p1 ∨
          ((BufMgr.flushFileLoop io file (n + 1) i s e).2.1.hashTable.map f1 p1 = none ∧
            f1 = file ∧
            ∃ j, i ≤ j ∧ j < p ∧ (s.bufTable j).valid = true ∧ (s.bufTable j).file = file ∧
              (s.bufTable j).pageNo = p1)) ∧
        ∃ evs, (BufMgr.flushFileLoop io file (n + 1) i s e).2.2.trace = e.trace ++ evs ∧
          evs <+: flushEvents s file (p - i) i := by
      intro st hst heq
      rw [heq]
      exact ⟨hst, fun _ _ => rfl, rfl, rfl, rfl, fun _ _ => Or.inl rfl,
        [], by simp, List.nil_prefix⟩
    by_cases hf : (s.bufTable i).file = file
    · by_cases hv : (s.bufTable i).valid = true
      · by_cases hp : (s.bufTable i).pinCnt = 0
        · have hlt : i < p := by
            rcases Nat.eq_or_lt_of_le hip with rfl | h
            · omega
            · exact h
          have hcnt : p - i = (p - (i + 1)) + 1 := by omega
          by_cases hw : (s.bufTable i).dirty = true →
              (io.writePage file (s.bufTable i).pageNo (s.bufPool i) e.disk).1 = Status.OK
          · obtain ⟨e2, he2, hstep⟩ := flushFileLoop_flush io file n i s e hv hf hp hw
            let s2 : BufMgr :=
              { s with hashTable := (s.hashTable.remove file (s.bufTable i).pageNo).2
                       bufTable := Function.update s.bufTable i (s.bufTable i).flushed }
            have hupd : ∀ j, j ≠ i → s2.bufTable j = s.bufTable j := by
              intro j hj
              exact Function.update_noteq hj _ _
            have hstep2 : BufMgr.flushFileLoop io file (n + 1) i s e =
                BufMgr.flushFileLoop io file n (i + 1) s2 e2 := hstep
            obtain ⟨b1, b2, b3, b4, b5, b6, evs, b7, b8⟩ := ih (i + 1) s2 e2 hlt (by omega)
              (by rw [hupd p (by omega)]; exact hvp) (by rw [hupd p (by omega)]; exact hfp)
              (by rw [hupd p (by omega)]; exact hpp)
            rw [hstep2]
            refine ⟨b1, ?_, b3, b4, b5, ?_, flushFrameEvents s file i ++ evs, ?_, ?_⟩
            · intro j hj
              rw [b2 j (by omega), hupd j (by omega)]
            · intro f1 p1
              rcases b6 f1 p1 with h | ⟨h1, h2, j, j1, j2, j3, j4, j5⟩
              · rw [h]
                show (s.hashTable.remove file (s.bufTable i).pageNo).2.map f1 p1 = _ ∨ _
                rw [remove_map]
                split_ifs with hk
                · exact Or.inr ⟨rfl, hk.1, i, Nat.le_refl _, hlt, hv, hf, hk.2.symm⟩
                · exact Or.inl rfl
              · rw [hupd j (by omega)] at j3 j4 j5
                exact Or.inr ⟨h1, h2, j, by omega, j2, j3, j4, j5⟩
            · rw [b7, he2, List.append_assoc]
            · rw [hcnt, flushEvents, List.prefix_append_right_inj,
                ← flushEvents_congr file s s2 rfl (p - (i + 1)) (i + 1)
                  (fun j h1 _ => hupd j (by omega))]
              exact b8
          · have hd : (s.bufTable i).dirty = true := by
              by_contra hd
              exact hw (fun h => absurd h hd)
            have hwf : (io.writePage file (s.bufTable i).pageNo (s.bufPool i) e.disk).1
                ≠ Status.OK := fun h => hw (fun _ => h)
            have heq : BufMgr.flushFileLoop io file (n + 1) i s e =
                ((io.writePage file (s.bufTable i).pageNo (s.bufPool i) e.disk).1, s,
                  e.record (io.writePage file (s.bufTable i).pageNo (s.bufPool i) e.disk).2
                    (Event.writePage file (s.bufTable i).pageNo (s.bufPool i))) := by
              rw [BufMgr.flushFileLoop]
              simp [hv, hf, hp, hd, hwf]
            rw [heq]
            refine ⟨hwf, fun _ _ => rfl, rfl, rfl, rfl, fun _ _ => Or.inl rfl,
              [Event.writePage file (s.bufTable i).pageNo (s.bufPool i)], rfl, ?_⟩
            rw [hcnt, flushEvents]
            simp only [flushFrameEvents, hv, hf, hd, and_self, if_true, List.append_assoc]
            exact List.prefix_append _ _
        · apply stop Status.PAGEPINNED (by decide)
          rw [BufMgr.flushFileLoop]
          simp [hv, hf, Nat.pos_of_ne_zero hp]
      · apply stop Status.BADBUFFER (by decide)
        rw [BufMgr.flushFileLoop]
        simp [hv, hf]
    · have hlt : i < p := by
        rcases Nat.eq_or_lt_of_le hip with rfl | h
        · exact absurd hfp hf
        · exact h
      have hcnt : p - i = (p - (i + 1)) + 1 := by omega
      obtain ⟨hstep, hev⟩ := flushFileLoop_skip io file n i s e hf
      obtain ⟨b1, b2, b3, b4, b5, b6, evs, b7, b8⟩ := ih (i + 1) s e hlt (by omega)
        hvp hfp hpp
      rw [hstep]
      refine ⟨b1, fun j hj => b2 j (by omega), b3, b4, b5, ?_, evs, b7, ?_⟩
      · intro f1 p1
        rcases b6 f1 p1 with h | ⟨h1, h2, j, j1, j2, j3, j4, j5⟩
        · exact Or.inl h
        · exact Or.inr ⟨h1, h2, j, by omega, j2, j3, j4, j5⟩
      · rw [hcnt, flushEvents, hev, List.nil_append]
        exact b8

/-! ## Teardown -/

theorem destructLoop_trace (io : FileOps W) (s : BufMgr) :
    ∀ (n i : Nat) (e : Env W),
      (BufMgr.destructLoop io s n i e).trace = e.trace ++
        ((List.range' i n).filter
            (fun j => (s.bufTable j).valid && (s.bufTable j).dirty)).map
          (fun j => Event.writePage (s.bufTable j).file (s.bufTable j).pageNo
            (s.bufPool j)) := by
  intro n
  induction n with
  | zero => intro i e; simp [BufMgr.destructLoop]
  | succ n ih =>
    intro i e
    rw [BufMgr.destructLoop, List.range'_succ]
    by_cases h : (s.bufTable i).valid = true ∧ (s.bufTable i).dirty = true
    · simp [h, ih, Env.record]
    · have h2 : ((s.bufTable i).valid && (s.bufTable i).dirty) = false := by
        cases hv : (s.bufTable i).valid <;> cases hd : (s.bufTable i).dirty <;> simp_all
      simp [h, ih, h2]

theorem applyWrites_append (io : FileOps W) (l1 l2 : List Event) (w : W) :
    applyWrites io (l1 ++ l2) w = applyWrites io l2 (applyWrites io l1 w) := by
  unfold applyWrites
  rw [List.foldl_append]

theorem applyWrites_nil (io : FileOps W) (w : W) : applyWrites io [] w = w := rfl

theorem applyWrites_cons_write (io : FileOps W) (f : FilePtr) (p : Int) (c : Page)
    (l : List Event) (w : W) :
    applyWrites io (Event.writePage f p c :: l) w =
      applyWrites io l (io.writePage f p c w).2 := rfl

theorem applyWrites_cons_remove (io : FileOps W) (f : FilePtr) (p : Int)
    (l : List Event) (w : W) :
    applyWrites io (Event.indexRemove f p :: l) w = applyWrites io l w := rfl

/-- The disk the loop of the destructor leaves is the one the file's `writePage` produces
from the writes of the valid dirty frames, applied in frame order. -/
theorem destructLoop_disk (io : FileOps W) (s : BufMgr) :
    ∀ (n i : Nat) (e : Env W),
      (BufMgr.destructLoop io s n i e).disk = applyWrites io
        (((List.range' i n).filter
            (fun j => (s.bufTable j).valid && (s.bufTable j).dirty)).map
          (fun j => Event.writePage (s.bufTable j).file (s.bufTable j).pageNo
            (s.bufPool j))) e.disk := by
  intro n
  induction n with
  | zero => intro i e; simp [BufMgr.destructLoop, applyWrites]
  | succ n ih =>
    intro i e
    rw [BufMgr.destructLoop, List.range'_succ]
    by_cases h : (s.bufTable i).valid = true ∧ (s.bufTable i).dirty = true
    · simp [h, ih, Env.record, applyWrites_cons_write]
    · have h2 : ((s.bufTable i).valid && (s.bufTable i).dirty) = false := by
        cases hv : (s.bufTable i).valid <;> cases hd : (s.bufTable i).dirty <;> simp_all
      simp [h, ih, h2]

/-- C17. Destroying the manager hands to the file's `writePage`, and records in the
trace, exactly `teardownWrites`: one `writePage(pageNo, frame content)` on the owning
file for each frame that is valid and dirty, in increasing frame order, and nothing for
the other frames; the disk it leaves is the one these calls of `writePage` produce, each
applied to the disk the previous one left.  This holds for every behaviour of the file,
hence also when some or all of these writes fail. -/
theorem destruct_writes (io : FileOps W) (s : BufMgr) (e : Env W) :
    (s.destruct io e).trace = e.trace ++ teardownWrites s ∧
    (s.destruct io e).disk = applyWrites io (teardownWrites s) e.disk := by
  unfold BufMgr.destruct teardownWrites
  rw [destructLoop_trace, destructLoop_disk, List.range_eq_range']
  exact ⟨rfl, rfl⟩

/-- Instance of `destruct_writes` with `logFiles`, whose write of page 5 fails: the
destructor of `threePageMgr` still hands both dirty frames to `writePage`, in frame
order, and none for the clean frame; the image of page 7, written after the failed write
of page 5, is on the disk. -/
theorem destruct_writes_witness :
    (threePageMgr.destruct logFiles ⟨[], []⟩).trace =
      [Event.writePage 1 5 1, Event.writePage 1 7 3] ∧
    (threePageMgr.destruct logFiles ⟨[], []⟩).disk = [(1, 7, 3)] := by
  have h := destruct_writes logFiles threePageMgr ⟨[], []⟩
  exact ⟨by rw [h.1]; decide, by rw [h.2]; decide⟩

/-! ## The victim branch in detail -/

/-- The three ways through the victim branch of `allocBuf`: the write-back of a dirty
victim fails; the write-back (if any) succeeds and the index removal fails; both
succeed and the frame is cleared and claimed. -/
theorem allocBufVictim_cases (io : FileOps W) (frame : Nat) (s : BufMgr) (e : Env W) :
    ((s.bufTable s.clockHand).dirty = true ∧
      (io.writePage (s.bufTable s.clockHand).file (s.bufTable s.clockHand).pageNo
        (s.bufPool s.clockHand) e.disk).1 ≠ Status.OK ∧
      s.allocBufVictim io frame e =
        ((io.writePage (s.bufTable s.clockHand).file (s.bufTable s.clockHand).pageNo
            (s.bufPool s.clockHand) e.disk).1, frame, s,
          e.record (io.writePage (s.bufTable s.clockHand).file
              (s.bufTable s.clockHand).pageNo (s.bufPool s.clockHand) e.disk).2
            (Event.writePage (s.bufTable s.clockHand).file (s.bufTable s.clockHand).pageNo
              (s.bufPool s.clockHand)))) ∨
    (((s.bufTable s.clockHand).dirty = true →
        (io.writePage (s.bufTable s.clockHand).file (s.bufTable s.clockHand).pageNo
          (s.bufPool s.clockHand) e.disk).1 = Status.OK) ∧
      ∃ ew : Env W,
        ew = (if (s.bufTable s.clockHand).dirty = true then
            e.record (io.writePage (s.bufTable s.clockHand).file
                (s.bufTable s.clockHand).pageNo (s.bufPool s.clockHand) e.disk).2
              (Event.writePage (s.bufTable s.clockHand).file (s.bufTable s.clockHand).pageNo
                (s.bufPool s.clockHand))
          else e) ∧
        ((s.hashTable.map (s.bufTable s.clockHand).file (s.bufTable s.clockHand).pageNo
            = none ∧
          s.allocBufVictim io frame e =
            (Status.HASHNOTFOUND, frame, s,
              ew.record ew.disk (Event.indexRemove (s.bufTable s.clockHand).file
                (s.bufTable s.clockHand).pageNo))) ∨
         (s.hashTable.map (s.bufTable s.clockHand).file (s.bufTable s.clockHand).pageNo
            ≠ none ∧
          s.allocBufVictim io frame e =
            (Status.OK, s.clockHand,
              { s with
                  hashTable := (s.hashTable.remove (s.bufTable s.clockHand).file
                    (s.bufTable s.clockHand).pageNo).2
                  bufTable := Function.update s.bufTable s.clockHand
                    (s.bufTable s.clockHand).Clear },
              ew.record ew.disk (Event.indexRemove (s.bufTable s.clockHand).file
                (s.bufTable s.clockHand).pageNo))))) := by
  unfold BufMgr.allocBufVictim BufHashTbl.remove
  cases hm : s.hashTable.map (s.bufTable s.clockHand).file (s.bufTable s.clockHand).pageNo <;>
  by_cases hd : (s.bufTable s.clockHand).dirty = true <;>
  by_cases hw : (io.writePage (s.bufTable s.clockHand).file (s.bufTable s.clockHand).pageNo
      (s.bufPool s.clockHand) e.disk).1 = Status.OK <;>
  simp [hm, hd, hw]
theorem readPage_of_allocBuf_fail (io : FileOps W) (file : FilePtr) (pageNo : Int)
    (s : BufMgr) (e : Env W) (hm : s.hashTable.map file pageNo = none) (st : Status)
    (f : Nat) (sa : BufMgr) (ea : Env W) (ha : s.allocBuf io 0 e = some (st, f, sa, ea))
    (hst : st ≠ Status.OK) :
    s.readPage io file pageNo e = some (st, none, sa, ea) := by
  simp [BufMgr.readPage, BufHashTbl.lookup, hm, ha, hst]

theorem readPage_of_read_fail (io : FileOps W) (file : FilePtr) (pageNo : Int)
    (s : BufMgr) (e : Env W) (hm : s.hashTable.map file pageNo = none)
    (f : Nat) (sa : BufMgr) (ea : Env W)
    (ha : s.allocBuf io 0 e = some (Status.OK, f, sa, ea))
    (hrd : (io.readPage file pageNo (sa.bufPool f) ea.disk).1 ≠ Status.OK) :
    s.readPage io file pageNo e =
      some ((io.readPage file pageNo (sa.bufPool f) ea.disk).1, none,
        { sa with bufPool := Function.update sa.bufPool f
                    (io.readPage file pageNo (sa.bufPool f) ea.disk).2.1 },
        ea.record (io.readPage file pageNo (sa.bufPool f) ea.disk).2.2
          (Event.readPage file pageNo)) := by
  simp [BufMgr.readPage, BufHashTbl.lookup, hm, ha, hrd]

theorem allocPage_of_allocate_fail (io : FileOps W) (file : FilePtr) (pageNo : Int)
    (s : BufMgr) (e : Env W) (hal : (io.allocatePage file pageNo e.disk).1 ≠ Status.OK) :
    s.allocPage io file pageNo e =
      some ((io.allocatePage file pageNo e.disk).1,
        (io.allocatePage file pageNo e.disk).2.1, none, s,
        e.record (io.allocatePage file pageNo e.disk).2.2 (Event.allocatePage file)) := by
  simp [BufMgr.allocPage, hal]

theorem allocPage_of_allocBuf_fail (io : FileOps W) (file : FilePtr) (pageNo : Int)
    (s : BufMgr) (e : Env W) (hal : (io.allocatePage file pageNo e.disk).1 = Status.OK)
    (st : Status) (f : Nat) (sa : BufMgr) (ea : Env W)
    (ha : s.allocBuf io 0 (e.record (io.allocatePage file pageNo e.disk).2.2
      (Event.allocatePage file)) = some (st, f, sa, ea))
    (hst : st ≠ Status.OK) :
    s.allocPage io file pageNo e =
      some (st, (io.allocatePage file pageNo e.disk).2.1, none, sa, ea) := by
  simp [BufMgr.allocPage, hal, ha, hst]

theorem allocPage_of_insert_fail (io : FileOps W) (file : FilePtr) (pageNo : Int)
    (s : BufMgr) (e : Env W) (hal : (io.allocatePage file pageNo e.disk).1 = Status.OK)
    (f : Nat) (sa : BufMgr) (ea : Env W)
    (ha : s.allocBuf io 0 (e.record (io.allocatePage file pageNo e.disk).2.2
      (Event.allocatePage file)) = some (Status.OK, f, sa, ea))
    (hin : sa.hashTable.map file (io.allocatePage file pageNo e.disk).2.1 ≠ none) :
    s.allocPage io file pageNo e =
      some (Status.HASHTBLERROR, (io.allocatePage file pageNo e.disk).2.1, none, sa,
        ea.record ea.disk
          (Event.indexInsert file (io.allocatePage file pageNo e.disk).2.1 f)) := by
  obtain ⟨g, hg⟩ := Option.ne_none_iff_exists'.1 hin
  simp [BufMgr.allocPage, hal, ha, BufHashTbl.insert, hg]

theorem allocPage_of_ok (io : FileOps W) (file : FilePtr) (pageNo : Int)
    (s : BufMgr) (e : Env W) (hal : (io.allocatePage file pageNo e.disk).1 = Status.OK)
    (f : Nat) (sa : BufMgr) (ea : Env W)
    (ha : s.allocBuf io 0 (e.record (io.allocatePage file pageNo e.disk).2.2
      (Event.allocatePage file)) = some (Status.OK, f, sa, ea))
    (hin : sa.hashTable.map file (io.allocatePage file pageNo e.disk).2.1 = none) :
    s.allocPage io file pageNo e =
      some (Status.OK, (io.allocatePage file pageNo e.disk).2.1, some f,
        { sa with
            hashTable := ⟨fun fl p =>
              if fl = file ∧ p = (io.allocatePage file pageNo e.disk).2.1 then some f
              else sa.hashTable.map fl p⟩
            bufTable := Function.update sa.bufTable f
              ((sa.bufTable f).Set file (io.allocatePage file pageNo e.disk).2.1) },
        ea.record ea.disk
          (Event.indexInsert file (io.allocatePage file pageNo e.disk).2.1 f)) := by
  simp [BufMgr.allocPage, hal, ha, BufHashTbl.insert, hin]

/-! ## Claims on eviction, allocation and disposal -/

/-- The calls `allocBuf` issues are at most one `writePage` and one index removal: it
never reads from a file. -/
theorem allocBuf_no_read (io : FileOps W) (frame : Nat) (s : BufMgr) (e : Env W)
    (r : Status × Nat × BufMgr × Env W) (h : s.allocBuf io frame e = some r) :
    ∃ evs, r.2.2.2.trace = e.trace ++ evs ∧ evs.filter Event.isRead = [] := by
  obtain ⟨s1, _, hx⟩ := allocBufLoop_exit io _ _ _ _ _ _ _ h
  rcases hx with ⟨rfl, _⟩ | ⟨rfl, _⟩ | ⟨_, _, _, rfl⟩
  · exact ⟨[], by simp, rfl⟩
  · exact ⟨[], by simp, rfl⟩
  · rcases allocBufVictim_cases io frame s1 e with ⟨_, _, c3⟩ | ⟨_, ew, hew, c2⟩
    · rw [c3]
      exact ⟨[_], rfl, rfl⟩
    · have htr : ∃ evs, (ew.record ew.disk (Event.indexRemove
          (s1.bufTable s1.clockHand).file (s1.bufTable s1.clockHand).pageNo)).trace
            = e.trace ++ evs ∧ evs.filter Event.isRead = [] := by
        rw [hew]
        by_cases hdd : (s1.bufTable s1.clockHand).dirty = true
        · exact ⟨[Event.writePage (s1.bufTable s1.clockHand).file
              (s1.bufTable s1.clockHand).pageNo (s1.bufPool s1.clockHand),
            Event.indexRemove (s1.bufTable s1.clockHand).file
              (s1.bufTable s1.clockHand).pageNo], by simp [hdd, Env.record], rfl⟩
        · exact ⟨[Event.indexRemove (s1.bufTable s1.clockHand).file
              (s1.bufTable s1.clockHand).pageNo], by simp [hdd, Env.record], rfl⟩
      rcases c2 with ⟨_, c4⟩ | ⟨_, c4⟩ <;> rw [c4] <;> exact htr

/-- C14. If `allocPage` returns `OK` with page number `p` and frame `f`, then
`allocatePage` had succeeded and produced `p`, `allocBuf` had returned `OK` with `f`,
the index maps `(file, p)` to `f`, the descriptor of `f` is exactly (file, p, pinCnt 1,
not dirty, valid, refbit set), the whole pool, and so the content of `f`, is what it was
before the call, and no `readPage` has been issued.  If `allocatePage` fails, `allocPage`
returns its status and the manager is returned unchanged. -/
theorem allocPage_ok (io : FileOps W) (file : FilePtr) (pageNo : Int) (s : BufMgr)
    (e : Env W) :
    (∀ r, s.allocPage io file pageNo e = some r → r.1 = Status.OK →
      (io.allocatePage file pageNo e.disk).1 = Status.OK ∧
      r.2.1 = (io.allocatePage file pageNo e.disk).2.1 ∧
      ∃ f sa ea,
        s.allocBuf io 0 (e.record (io.allocatePage file pageNo e.disk).2.2
          (Event.allocatePage file)) = some (Status.OK, f, sa, ea) ∧
        r.2.2.1 = some f ∧ f = r.2.2.2.1.clockHand ∧ f < r.2.2.2.1.numBufs ∧
        r.2.2.2.1.hashTable.map file r.2.1 = some f ∧
        r.2.2.2.1.bufTable f =
          { file := file, pageNo := r.2.1, frameNo := (sa.bufTable f).frameNo, pinCnt := 1,
            dirty := false, valid := true, refbit := true } ∧
        r.2.2.2.1.bufPool = s.bufPool ∧
        r.2.2.2.2.trace.filter Event.isRead = e.trace.filter Event.isRead) ∧
    ((io.allocatePage file pageNo e.disk).1 ≠ Status.OK →
      s.allocPage io file pageNo e =
        some ((io.allocatePage file pageNo e.disk).1,
          (io.allocatePage file pageNo e.disk).2.1, none, s,
          e.record (io.allocatePage file pageNo e.disk).2.2 (Event.allocatePage file))) := by
  refine ⟨?_, allocPage_of_allocate_fail io file pageNo s e⟩
  intro r hr hok
  have hal : (io.allocatePage file pageNo e.disk).1 = Status.OK := by
    by_contra hne
    rw [allocPage_of_allocate_fail io file pageNo s e hne] at hr
    rw [← Option.some.inj hr] at hok
    exact hne hok
  obtain ⟨⟨st, f, sa, ea⟩, ha⟩ := Option.isSome_iff_exists.1 (allocBuf_isSome io 0 s
    (e.record (io.allocatePage file pageNo e.disk).2.2 (Event.allocatePage file)))
  have hst : st = Status.OK := by
    by_contra hne
    rw [allocPage_of_allocBuf_fail io file pageNo s e hal st f sa ea ha hne] at hr
    rw [← Option.some.inj hr] at hok
    exact hne hok
  subst hst
  have hin : sa.hashTable.map file (io.allocatePage file pageNo e.disk).2.1 = none := by
    by_contra hne
    rw [allocPage_of_insert_fail io file pageNo s e hal f sa ea ha hne] at hr
    rw [← Option.some.inj hr] at hok
    exact absurd hok (by simp)
  have hk := allocBuf_ok io 0 s _ f sa ea ha
  obtain ⟨evs, hev, hnr⟩ := allocBuf_no_read io 0 s _ _ ha
  rw [allocPage_of_ok io file pageNo s e hal f sa ea ha hin] at hr
  have hr1 := (Option.some.inj hr).symm
  subst hr1
  refine ⟨hal, rfl, f, sa, ea, ha, rfl, hk.1, ?_, by simp, by simp [BufDesc.Set],
    hk.2.2.2.1, ?_⟩
  · show f < sa.numBufs
    rw [hk.2.2.1]; exact hk.2.1
  · simp only at hev
    simp [Env.record, hev, hnr, List.filter_append, Event.isRead]

/-- Witness for `allocPage_ok`: allocating a page of file 1 in a fresh pool of one frame
gives page 7 in frame 0; with a file whose `allocatePage` fails the status is
`UNIXERR`. -/
theorem allocPage_ok_witness :
    (∃ r, (BufMgr.construct 1 (by decide)).allocPage okFiles 1 0 emptyEnv = some r ∧
      r.1 = Status.OK ∧ r.2.1 = 7 ∧ r.2.2.1 = some 0 ∧
      r.2.2.2.1.hashTable.map 1 7 = some 0 ∧ r.2.2.2.1.bufPool 0 = 0) ∧
    ((BufMgr.construct 1 (by decide)).allocPage noSpaceFiles 1 0 emptyEnv).map
      (fun r => r.1) = some Status.UNIXERR := by
  have h := allocPage_ok okFiles 1 0 (BufMgr.construct 1 (by decide)) emptyEnv
  have h2 := allocPage_ok noSpaceFiles 1 0 (BufMgr.construct 1 (by decide)) emptyEnv
  refine ⟨?_, by rw [h2.2 (by decide)]; rfl⟩
  obtain ⟨r, hr⟩ := Option.isSome_iff_exists.1
    (show ((BufMgr.construct 1 (by decide)).allocPage okFiles 1 0 emptyEnv).isSome = true
      by decide)
  have hok : r.1 = Status.OK := by
    have : ((BufMgr.construct 1 (by decide)).allocPage okFiles 1 0 emptyEnv).map
        (fun x => x.1) = some Status.OK := by decide
    rw [hr] at this
    exact Option.some.inj this
  have hf : r.2.2.1 = some 0 := by
    have : ((BufMgr.construct 1 (by decide)).allocPage okFiles 1 0 emptyEnv).map
        (fun x => x.2.2.1) = some (some 0) := by decide
    rw [hr] at this
    exact Option.some.inj this
  obtain ⟨_, hp, f, sa, ea, _, hf2, _, _, hmap, _, hpool, _⟩ := h.1 r hr hok
  have hf0 : f = 0 := Option.some.inj (hf2.symm.trans hf)
  subst hf0
  have hp7 : r.2.1 = 7 := hp
  exact ⟨r, hr, hok, hp7, hf, by rw [← hp7]; exact hmap, by rw [hpool]; rfl⟩

theorem sameVisible_self (s : BufMgr) : SameVisible s s :=
  ⟨rfl, fun _ => ⟨rfl, rfl, rfl, rfl, rfl⟩⟩

theorem RefbitsCleared.sameVisible {s s1 : BufMgr} (h : RefbitsCleared s s1) :
    SameVisible s s1 := by
  refine ⟨h.2.2.1, fun i => ?_⟩
  rw [(h.desc i).1]
  exact ⟨rfl, rfl, rfl, rfl, rfl⟩

/-- A failing `allocBuf` leaves the visible cache state as it was. -/
theorem allocBuf_fail_sameVisible (io : FileOps W) (frame : Nat) (s : BufMgr) (e : Env W)
    (r : Status × Nat × BufMgr × Env W) (h : s.allocBuf io frame e = some r)
    (hne : r.1 ≠ Status.OK) : SameVisible s r.2.2.1 := by
  obtain ⟨s1, hs1, hx⟩ := allocBufLoop_exit io _ _ _ _ _ _ _ h
  rcases hx with ⟨rfl, _⟩ | ⟨rfl, _⟩ | ⟨_, _, _, rfl⟩
  · exact hs1.sameVisible
  · exact absurd rfl hne
  · rcases allocBufVictim_cases io frame s1 e with ⟨_, _, c3⟩ | ⟨_, ew, _, c2⟩
    · rw [c3]; exact hs1.sameVisible
    · rcases c2 with ⟨_, c4⟩ | ⟨_, c4⟩
      · rw [c4]; exact hs1.sameVisible
      · rw [c4] at hne; exact absurd rfl hne

/-- A successful `allocBuf` that returns a frame which was not valid leaves the visible
cache state as it was. -/
theorem allocBuf_ok_invalid_sameVisible (io : FileOps W) (frame : Nat) (s : BufMgr)
    (e : Env W) (f : Nat) (sa : BufMgr) (ea : Env W)
    (h : s.allocBuf io frame e = some (Status.OK, f, sa, ea))
    (hinv : (s.bufTable f).valid = false) : SameVisible s sa := by
  obtain ⟨s1, hs1, hx⟩ := allocBufLoop_exit io _ _ _ _ _ _ _ h
  rcases hx with ⟨hb, _⟩ | ⟨hb, _⟩ | ⟨hv, _, _, hb⟩
  · simp at hb
  · simp only [Prod.mk.injEq, true_and] at hb
    obtain ⟨_, rfl, _⟩ := hb
    exact hs1.sameVisible
  · have hfr := (allocBufVictim_frame io frame s1 e).2.2.2.2.2
    rw [← hb] at hfr
    have hf : f = s1.clockHand := hfr rfl
    rw [← hf, (hs1.desc f).1] at hv
    rw [hinv] at hv
    exact absurd hv (by decide)

/-- C11 (as amended). A failing `unPinPage` returns the manager unchanged.  A failing
`readPage` or `allocPage` leaves the visible cache state (index; owner, page number,
valid, dirty and pin count of every frame) as it was whenever the failure is that of
`allocatePage` or of `allocBuf` itself, or the frame `allocBuf` had claimed was not
valid; otherwise the failure (of the file's `readPage`, or of the index insertion in
`allocPage`) comes after a successful `allocBuf` and the visible state is the one
`allocBuf` left.  `disposePage` leaves the frame table and the index unchanged when the
page is not resident, whatever status it returns. -/
theorem failure_leaves_state (io : FileOps W) (file : FilePtr) (pageNo : Int)
    (s : BufMgr) (e : Env W) :
    (∀ d, (s.unPinPage file pageNo d).1 ≠ Status.OK → (s.unPinPage file pageNo d).2 = s) ∧
    (∀ r, s.readPage io file pageNo e = some r → r.1 ≠ Status.OK →
      SameVisible s r.2.2.1 ∨
      ∃ f sa ea, s.allocBuf io 0 e = some (Status.OK, f, sa, ea) ∧
        (s.bufTable f).valid = true ∧
        r.1 = (io.readPage file pageNo (sa.bufPool f) ea.disk).1 ∧
        SameVisible sa r.2.2.1) ∧
    (∀ r, s.allocPage io file pageNo e = some r → r.1 ≠ Status.OK →
      SameVisible s r.2.2.2.1 ∨
      ∃ f sa ea,
        s.allocBuf io 0 (e.record (io.allocatePage file pageNo e.disk).2.2
          (Event.allocatePage file)) = some (Status.OK, f, sa, ea) ∧
        (s.bufTable f).valid = true ∧ r.1 = Status.HASHTBLERROR ∧
        SameVisible sa r.2.2.2.1) ∧
    (s.hashTable.map file pageNo = none →
      (s.disposePage io file pageNo e).2.1.bufTable = s.bufTable ∧
      (s.disposePage io file pageNo e).2.1.hashTable = s.hashTable) := by
  refine ⟨?_, ?_, ?_, ?_⟩
  · intro d hne
    cases hm : s.hashTable.map file pageNo with
    | none => simp [BufMgr.unPinPage, BufHashTbl.lookup, hm]
    | some g =>
      by_cases hp : (s.bufTable g).pinCnt = 0
      · simp [BufMgr.unPinPage, BufHashTbl.lookup, hm, hp]
      · exfalso
        apply hne
        cases d <;> simp [BufMgr.unPinPage, BufHashTbl.lookup, hm, hp]
  · intro r hr hne
    cases hm : s.hashTable.map file pageNo with
    | some g =>
      rw [readPage_of_resident io file pageNo s e g hm] at hr
      rw [← Option.some.inj hr] at hne
      exact absurd rfl hne
    | none =>
      obtain ⟨⟨st, f, sa, ea⟩, ha⟩ := Option.isSome_iff_exists.1 (allocBuf_isSome io 0 s e)
      by_cases hst : st = Status.OK
      · subst hst
        have hrd : (io.readPage file pageNo (sa.bufPool f) ea.disk).1 ≠ Status.OK := by
          intro hrd
          rw [readPage_of_miss io file pageNo s e hm f sa ea ha hrd] at hr
          rw [← Option.some.inj hr] at hne
          exact absurd rfl hne
        rw [readPage_of_read_fail io file pageNo s e hm f sa ea ha hrd] at hr
        have hr1 := (Option.some.inj hr).symm
        subst hr1
        have hsame : SameVisible sa
            { sa with bufPool := Function.update sa.bufPool f
                        (io.readPage file pageNo (sa.bufPool f) ea.disk).2.1 } :=
          ⟨rfl, fun _ => ⟨rfl, rfl, rfl, rfl, rfl⟩⟩
        cases hv : (s.bufTable f).valid with
        | false =>
          have h1 := allocBuf_ok_invalid_sameVisible io 0 s e f sa ea ha hv
          exact Or.inl ⟨h1.1, h1.2⟩
        | true => exact Or.inr ⟨f, sa, ea, ha, hv, rfl, hsame⟩
      · rw [readPage_of_allocBuf_fail io file pageNo s e hm st f sa ea ha hst] at hr
        have hr1 := (Option.some.inj hr).symm
        subst hr1
        exact Or.inl (allocBuf_fail_sameVisible io 0 s e _ ha hst)
  · intro r hr hne
    by_cases hal : (io.allocatePage file pageNo e.disk).1 = Status.OK
    · obtain ⟨⟨st, f, sa, ea⟩, ha⟩ := Option.isSome_iff_exists.1 (allocBuf_isSome io 0 s
        (e.record (io.allocatePage file pageNo e.disk).2.2 (Event.allocatePage file)))
      by_cases hst : st = Status.OK
      · subst hst
        have hin : sa.hashTable.map file (io.allocatePage file pageNo e.disk).2.1 ≠ none := by
          intro hin
          rw [allocPage_of_ok io file pageNo s e hal f sa ea ha hin] at hr
          rw [← Option.some.inj hr] at hne
          exact absurd rfl hne
        rw [allocPage_of_insert_fail io file pageNo s e hal f sa ea ha hin] at hr
        have hr1 := (Option.some.inj hr).symm
        subst hr1
        cases hv : (s.bufTable f).valid with
        | false =>
          exact Or.inl (allocBuf_ok_invalid_sameVisible io 0 s _ f sa ea ha hv)
        | true => exact Or.inr ⟨f, sa, ea, ha, hv, rfl, sameVisible_self sa⟩
      · rw [allocPage_of_allocBuf_fail io file pageNo s e hal st f sa ea ha hst] at hr
        have hr1 := (Option.some.inj hr).symm
        subst hr1
        exact Or.inl (allocBuf_fail_sameVisible io 0 s _ _ ha hst)
    · rw [allocPage_of_allocate_fail io file pageNo s e hal] at hr
      have hr1 := (Option.some.inj hr).symm
      subst hr1
      exact Or.inl (sameVisible_self s)
  · intro hm
    simp [BufMgr.disposePage, BufHashTbl.lookup, BufHashTbl.remove, hm]

/-- Witness for `failure_leaves_state`: releasing a page that was never fetched fails and
changes nothing; fetching a page in `onePinnedMgr`, where the only frame is pinned, fails
and leaves the visible state as it was. -/
theorem failure_leaves_state_witness :
    ((BufMgr.construct 1 (by decide)).unPinPage 1 10 true).2 = BufMgr.construct 1 (by decide) ∧
    ∃ r, onePinnedMgr.readPage okFiles 1 6 emptyEnv = some r ∧
      SameVisible onePinnedMgr r.2.2.1 := by
  refine ⟨(failure_leaves_state okFiles 1 10 (BufMgr.construct 1 (by decide)) emptyEnv).1
    true (by decide), ?_⟩
  obtain ⟨r, hr⟩ := Option.isSome_iff_exists.1
    (show (onePinnedMgr.readPage okFiles 1 6 emptyEnv).isSome = true by decide)
  have hst : r.1 = Status.BUFFEREXCEEDED := by
    have : (onePinnedMgr.readPage okFiles 1 6 emptyEnv).map (fun x => x.1)
        = some Status.BUFFEREXCEEDED := by decide
    rw [hr] at this
    exact Option.some.inj this
  rcases (failure_leaves_state okFiles 1 6 onePinnedMgr emptyEnv).2.1 r hr
    (by rw [hst]; decide) with h | ⟨f, sa, ea, ha, _⟩
  · exact ⟨r, hr, h⟩
  · have : (onePinnedMgr.allocBuf okFiles 0 emptyEnv).map (fun x => x.1)
        = some Status.BUFFEREXCEEDED := by decide
    rw [ha] at this
    exact absurd (Option.some.inj this) (by simp)

/-- C11, counterexample to the claim as stated. After a pool of two frames has been
filled by fetching pages 10 and 11 of file 1 (page 10 released), page 10 is resident in
frame 0; a fetch of page 12 whose disk read fails returns `UNIXERR`, yet page 10 has
left the index and frame 0 is no longer valid. -/
theorem readPage_failure_after_eviction :
    twoFetched.map (fun x => (x.1.hashTable.map 1 10, (x.1.bufTable 0).valid,
        (x.1.bufTable 0).pageNo)) = some (some 0, true, 10) ∧
    (twoFetched.bind fun x => (BufMgr.readPage badPageFiles 1 12 x.1 x.2).map
        (fun r => (r.1, r.2.2.1.hashTable.map 1 10, (r.2.2.1.bufTable 0).valid)))
      = some (Status.UNIXERR, none, false) :=
  ⟨by decide, by decide⟩

/-! ## The invariants of the reachable states -/

theorem construct_agree (bufs : Nat) (h : 0 < bufs) : Agree (BufMgr.construct bufs h) :=
  ⟨fun f _ hv => by simp [BufMgr.construct] at hv,
   fun fl p f hm => by simp [BufMgr.construct, BufHashTbl.empty] at hm⟩

theorem construct_freeClean (bufs : Nat) (h : 0 < bufs) :
    FreeClean (BufMgr.construct bufs h) :=
  fun _ _ _ => ⟨rfl, rfl, rfl⟩

/-- Both invariants only look at the index, the number of frames and, in each frame, the
owner, page number, valid flag, dirty flag and pin count. -/
theorem invariants_of_sameVisible {s s1 : BufMgr} (hn : s1.numBufs = s.numBufs)
    (h : SameVisible s s1) (ha : Agree s) (hc : FreeClean s) : Agree s1 ∧ FreeClean s1 := by
  obtain ⟨hm, hd⟩ := h
  refine ⟨⟨?_, ?_⟩, ?_⟩
  · intro f hf hv
    rw [hn] at hf
    rw [(hd f).2.2.1] at hv
    rw [hm, (hd f).1, (hd f).2.1]
    exact ha.1 f hf hv
  · intro fl p f hmap
    rw [hm] at hmap
    obtain ⟨a1, a2, a3, a4⟩ := ha.2 fl p f hmap
    rw [hn, (hd f).1, (hd f).2.1, (hd f).2.2.1]
    exact ⟨a1, a2, a3, a4⟩
  · intro f hf hv
    rw [hn] at hf
    rw [(hd f).2.2.1] at hv
    rw [(hd f).1, (hd f).2.2.2.1, (hd f).2.2.2.2]
    exact hc f hf hv

/-- Changing the descriptor of a valid frame without changing its key or its valid flag
keeps both invariants. -/
theorem invariants_of_touch {s s1 : BufMgr} (f : Nat) (hn : s1.numBufs = s.numBufs)
    (hm : s1.hashTable = s.hashTable) (hf : (s.bufTable f).valid = true)
    (h1 : (s1.bufTable f).valid = true) (h2 : (s1.bufTable f).file = (s.bufTable f).file)
    (h3 : (s1.bufTable f).pageNo = (s.bufTable f).pageNo)
    (ho : ∀ g, g ≠ f → s1.bufTable g = s.bufTable g)
    (ha : Agree s) (hc : FreeClean s) : Agree s1 ∧ FreeClean s1 := by
  refine ⟨⟨?_, ?_⟩, ?_⟩
  · intro g hg hv
    rw [hn] at hg
    by_cases hgf : g = f
    · subst hgf
      rw [hm, h2, h3]
      exact ha.1 g hg hf
    · rw [ho g hgf] at hv ⊢
      rw [hm]
      exact ha.1 g hg hv
  · intro fl p g hmap
    rw [hm] at hmap
    obtain ⟨a1, a2, a3, a4⟩ := ha.2 fl p g hmap
    rw [hn]
    by_cases hgf : g = f
    · subst hgf
      exact ⟨a1, h1, h2.trans a3, h3.trans a4⟩
    · rw [ho g hgf]
      exact ⟨a1, a2, a3, a4⟩
  · intro g hg hv
    rw [hn] at hg
    by_cases hgf : g = f
    · subst hgf
      rw [h1] at hv
      exact absurd hv (by decide)
    · rw [ho g hgf] at hv ⊢
      exact hc g hg hv

/-- Removing the key of a valid frame from the index and putting a free, clean descriptor
into the frame keeps both invariants. -/
theorem invariants_of_evict {s s1 : BufMgr} (v : Nat) (hn : s1.numBufs = s.numBufs)
    (hv : v < s.numBufs) (hval : (s.bufTable v).valid = true)
    (hm : ∀ fl p, s1.hashTable.map fl p =
      if fl = (s.bufTable v).file ∧ p = (s.bufTable v).pageNo then none
      else s.hashTable.map fl p)
    (h1 : (s1.bufTable v).valid = false) (h2 : (s1.bufTable v).pinCnt = 0)
    (h3 : (s1.bufTable v).dirty = false) (h4 : (s1.bufTable v).file = NULL)
    (ho : ∀ g, g ≠ v → s1.bufTable g = s.bufTable g)
    (ha : Agree s) (hc : FreeClean s) : Agree s1 ∧ FreeClean s1 := by
  refine ⟨⟨?_, ?_⟩, ?_⟩
  · intro g hg hgv
    rw [hn] at hg
    have hgne : g ≠ v := by
      rintro rfl
      rw [h1] at hgv
      exact absurd hgv (by decide)
    rw [ho g hgne] at hgv ⊢
    rw [hm, if_neg]
    · exact ha.1 g hg hgv
    · rintro ⟨k1, k2⟩
      have e1 := ha.1 g hg hgv
      have e2 := ha.1 v hv hval
      rw [k1, k2, e2] at e1
      exact hgne (Option.some.inj e1).symm
  · intro fl p g hmap
    rw [hm] at hmap
    split_ifs at hmap with hk
    obtain ⟨a1, a2, a3, a4⟩ := ha.2 fl p g hmap
    have hgne : g ≠ v := by
      rintro rfl
      exact hk ⟨a3.symm, a4.symm⟩
    rw [hn, ho g hgne]
    exact ⟨a1, a2, a3, a4⟩
  · intro g hg hgv
    rw [hn] at hg
    by_cases hgf : g = v
    · subst hgf
      exact ⟨h2, h3, h4⟩
    · rw [ho g hgf] at hgv ⊢
      exact hc g hg hgv

/-- Entering a new key for a free frame and setting the frame up for it keeps both
invariants. -/
theorem invariants_of_install {s s1 : BufMgr} (f : Nat) (fl : FilePtr) (p : Int)
    (hn : s1.numBufs = s.numBufs) (hf : f < s.numBufs)
    (hinv : (s.bufTable f).valid = false) (hnew : s.hashTable.map fl p = none)
    (hm : ∀ fl1 p1, s1.hashTable.map fl1 p1 =
      if fl1 = fl ∧ p1 = p then some f else s.hashTable.map fl1 p1)
    (h1 : (s1.bufTable f).valid = true) (h2 : (s1.bufTable f).file = fl)
    (h3 : (s1.bufTable f).pageNo = p)
    (ho : ∀ g, g ≠ f → s1.bufTable g = s.bufTable g)
    (ha : Agree s) (hc : FreeClean s) : Agree s1 ∧ FreeClean s1 := by
  refine ⟨⟨?_, ?_⟩, ?_⟩
  · intro g hg hgv
    rw [hn] at hg
    by_cases hgf : g = f
    · subst hgf
      rw [hm, h2, h3]
      simp
    · rw [ho g hgf] at hgv ⊢
      rw [hm, if_neg]
      · exact ha.1 g hg hgv
      · rintro ⟨k1, k2⟩
        have e1 := ha.1 g hg hgv
        rw [k1, k2, hnew] at e1
        exact absurd e1 (by simp)
  · intro fl1 p1 g hmap
    rw [hm] at hmap
    rw [hn]
    split_ifs at hmap with hk
    · have hgf : g = f := (Option.some.inj hmap).symm
      subst hgf
      exact ⟨hf, h1, h2.trans hk.1.symm, h3.trans hk.2.symm⟩
    · obtain ⟨a1, a2, a3, a4⟩ := ha.2 fl1 p1 g hmap
      have hgne : g ≠ f := by
        rintro rfl
        rw [hinv] at a2
        exact absurd a2 (by decide)
      rw [ho g hgne]
      exact ⟨a1, a2, a3, a4⟩
  · intro g hg hgv
    rw [hn] at hg
    by_cases hgf : g = f
    · subst hgf
      rw [h1] at hgv
      exact absurd hgv (by decide)
    · rw [ho g hgf] at hgv ⊢
      exact hc g hg hgv

theorem allocBuf_invariants (io : FileOps W) (frame : Nat) (s : BufMgr) (e : Env W)
    (r : Status × Nat × BufMgr × Env W) (h : s.allocBuf io frame e = some r)
    (ha : Agree s) (hc : FreeClean s) :
    Agree r.2.2.1 ∧ FreeClean r.2.2.1 ∧ r.2.2.1.numBufs = s.numBufs ∧
    (r.1 = Status.OK → (r.2.2.1.bufTable r.2.1).valid = false) := by
  obtain ⟨s1, hs1, hx⟩ := allocBufLoop_exit io _ _ _ _ _ _ _ h
  have hi1 := @invariants_of_sameVisible s s1 hs1.1 hs1.sameVisible ha hc
  rcases hx with ⟨rfl, _⟩ | ⟨rfl, hinv⟩ | ⟨hv, _, hp, rfl⟩
  · exact ⟨hi1.1, hi1.2, hs1.1, fun hok => absurd hok (by simp)⟩
  · exact ⟨hi1.1, hi1.2, hs1.1, fun _ => hinv⟩
  · rcases allocBufVictim_cases io frame s1 e with ⟨_, _, c3⟩ | ⟨_, ew, _, c2⟩
    · rw [c3]
      exact ⟨hi1.1, hi1.2, hs1.1, fun hok => absurd hok (by simpa using ‹_ ≠ Status.OK›)⟩
    · rcases c2 with ⟨_, c4⟩ | ⟨_, c4⟩
      · rw [c4]
        exact ⟨hi1.1, hi1.2, hs1.1, fun hok => absurd hok (by simp)⟩
      · rw [c4]
        have hev := @invariants_of_evict s1
          { s1 with
            hashTable := (s1.hashTable.remove (s1.bufTable s1.clockHand).file
              (s1.bufTable s1.clockHand).pageNo).2
            bufTable := Function.update s1.bufTable s1.clockHand
              (s1.bufTable s1.clockHand).Clear }
          s1.clockHand rfl s1.hand_lt hv (fun fl p => remove_map _ _ _ _ _)
          (by simp [BufDesc.Clear]) (by simp [BufDesc.Clear]) (by simp [BufDesc.Clear])
          (by simp [BufDesc.Clear]) (fun g hg => Function.update_noteq hg _ _) hi1.1 hi1.2
        exact ⟨hev.1, hev.2, hs1.1, fun _ => by simp [BufDesc.Clear]⟩

theorem readPage_invariants (io : FileOps W) (file : FilePtr) (pageNo : Int) (s : BufMgr)
    (e : Env W) (r : Status × Option Nat × BufMgr × Env W)
    (h : s.readPage io file pageNo e = some r) (ha : Agree s) (hc : FreeClean s) :
    Agree r.2.2.1 ∧ FreeClean r.2.2.1 := by
  cases hm : s.hashTable.map file pageNo with
  | some g =>
    rw [readPage_of_resident io file pageNo s e g hm] at h
    rw [← Option.some.inj h]
    obtain ⟨_, a2, _, _⟩ := ha.2 file pageNo g hm
    exact @invariants_of_touch s _ g rfl rfl a2 (by simpa using a2) (by simp) (by simp)
      (fun k hk => Function.update_noteq hk _ _) ha hc
  | none =>
    obtain ⟨⟨st, f, sa, ea⟩, hab⟩ := Option.isSome_iff_exists.1 (allocBuf_isSome io 0 s e)
    obtain ⟨i1, i2, i3, i4⟩ := allocBuf_invariants io 0 s e _ hab ha hc
    by_cases hst : st = Status.OK
    · subst hst
      have hk := allocBuf_ok io 0 s e f sa ea hab
      by_cases hrd : (io.readPage file pageNo (sa.bufPool f) ea.disk).1 = Status.OK
      · rw [readPage_of_miss io file pageNo s e hm f sa ea hab hrd] at h
        rw [← Option.some.inj h]
        exact @invariants_of_install sa _ f file pageNo rfl
          (by rw [i3]; exact hk.2.1) (i4 rfl) (hk.2.2.2.2 file pageNo hm)
          (fun _ _ => rfl) (by simp [BufDesc.Set]) (by simp [BufDesc.Set])
          (by simp [BufDesc.Set]) (fun g hg => Function.update_noteq hg _ _) i1 i2
      · rw [readPage_of_read_fail io file pageNo s e hm f sa ea hab hrd] at h
        rw [← Option.some.inj h]
        exact @invariants_of_sameVisible sa _ rfl ⟨rfl, fun _ => ⟨rfl, rfl, rfl, rfl, rfl⟩⟩ i1 i2
    · rw [readPage_of_allocBuf_fail io file pageNo s e hm st f sa ea hab hst] at h
      rw [← Option.some.inj h]
      exact ⟨i1, i2⟩

theorem allocPage_invariants (io : FileOps W) (file : FilePtr) (pageNo : Int) (s : BufMgr)
    (e : Env W) (r : Status × Int × Option Nat × BufMgr × Env W)
    (h : s.allocPage io file pageNo e = some r) (ha : Agree s) (hc : FreeClean s) :
    Agree r.2.2.2.1 ∧ FreeClean r.2.2.2.1 := by
  by_cases hal : (io.allocatePage file pageNo e.disk).1 = Status.OK
  · obtain ⟨⟨st, f, sa, ea⟩, hab⟩ := Option.isSome_iff_exists.1 (allocBuf_isSome io 0 s
      (e.record (io.allocatePage file pageNo e.disk).2.2 (Event.allocatePage file)))
    obtain ⟨i1, i2, i3, i4⟩ := allocBuf_invariants io 0 s _ _ hab ha hc
    by_cases hst : st = Status.OK
    · subst hst
      have hk := allocBuf_ok io 0 s _ f sa ea hab
      by_cases hin : sa.hashTable.map file (io.allocatePage file pageNo e.disk).2.1 = none
      · rw [allocPage_of_ok io file pageNo s e hal f sa ea hab hin] at h
        rw [← Option.some.inj h]
        exact @invariants_of_install sa _ f file _ rfl
          (by rw [i3]; exact hk.2.1) (i4 rfl) hin
          (fun _ _ => rfl) (by simp [BufDesc.Set]) (by simp [BufDesc.Set])
          (by simp [BufDesc.Set]) (fun g hg => Function.update_noteq hg _ _) i1 i2
      · rw [allocPage_of_insert_fail io file pageNo s e hal f sa ea hab hin] at h
        rw [← Option.some.inj h]
        exact ⟨i1, i2⟩
    · rw [allocPage_of_allocBuf_fail io file pageNo s e hal st f sa ea hab hst] at h
      rw [← Option.some.inj h]
      exact ⟨i1, i2⟩
  · rw [allocPage_of_allocate_fail io file pageNo s e hal] at h
    rw [← Option.some.inj h]
    exact ⟨ha, hc⟩

/-- The success branch of `unPinPage`, as an equation with its consequences. -/
theorem unPinPage_success (file : FilePtr) (pageNo : Int) (d : Bool) (s : BufMgr) (f : Nat)
    (hm : s.hashTable.map file pageNo = some f) (hp : 0 < (s.bufTable f).pinCnt) :
    ∃ s1, s.unPinPage file pageNo d = (Status.OK, s1) ∧
      s1.bufTable f = { s.bufTable f with pinCnt := (s.bufTable f).pinCnt - 1
                                          dirty := (s.bufTable f).dirty || d } ∧
      (s1.bufTable f).pinCnt + 1 = (s.bufTable f).pinCnt ∧
      (∀ g, g ≠ f → s1.bufTable g = s.bufTable g) ∧
      s1.hashTable = s.hashTable ∧ s1.clockHand = s.clockHand ∧ s1.bufPool = s.bufPool ∧
      s1.numBufs = s.numBufs := by
  have hp0 : (s.bufTable f).pinCnt ≠ 0 := by omega
  let d1 : BufDesc :=
    { s.bufTable f with pinCnt := (s.bufTable f).pinCnt - 1,
                        dirty := (s.bufTable f).dirty || d }
  refine ⟨{ s with bufTable := Function.update s.bufTable f d1 }, ?_, by simp [d1], ?_,
    fun g hg => by simp [Function.update_noteq hg], rfl, rfl, rfl, rfl⟩
  · cases d <;> simp [BufMgr.unPinPage, BufHashTbl.lookup, hm, hp0, d1]
  · simp only [Function.update_same, d1]
    omega

theorem unPinPage_invariants (file : FilePtr) (pageNo : Int) (d : Bool) (s : BufMgr)
    (ha : Agree s) (hc : FreeClean s) :
    Agree (s.unPinPage file pageNo d).2 ∧ FreeClean (s.unPinPage file pageNo d).2 := by
  cases hm : s.hashTable.map file pageNo with
  | none =>
    have : (s.unPinPage file pageNo d).2 = s := by
      simp [BufMgr.unPinPage, BufHashTbl.lookup, hm]
    rw [this]; exact ⟨ha, hc⟩
  | some g =>
    obtain ⟨_, a2, _, _⟩ := ha.2 file pageNo g hm
    by_cases hp : (s.bufTable g).pinCnt = 0
    · have : (s.unPinPage file pageNo d).2 = s := by
        simp [BufMgr.unPinPage, BufHashTbl.lookup, hm, hp]
      rw [this]; exact ⟨ha, hc⟩
    · obtain ⟨s1, h1, h2, _, h4, h5, _, _, h8⟩ :=
        unPinPage_success file pageNo d s g hm (Nat.pos_of_ne_zero hp)
      rw [h1]
      exact @invariants_of_touch s s1 g h8 h5 a2 (by rw [h2]; exact a2) (by rw [h2])
        (by rw [h2]) h4 ha hc

theorem disposePage_invariants (io : FileOps W) (file : FilePtr) (pageNo : Int)
    (s : BufMgr) (e : Env W) (ha : Agree s) (hc : FreeClean s) :
    Agree (s.disposePage io file pageNo e).2.1 ∧
    FreeClean (s.disposePage io file pageNo e).2.1 := by
  cases hm : s.hashTable.map file pageNo with
  | none =>
    refine @invariants_of_sameVisible s _ ?_ ⟨?_, fun i => ?_⟩ ha hc
    · simp [BufMgr.disposePage, BufHashTbl.lookup, hm]
    · simp [BufMgr.disposePage, BufHashTbl.lookup, BufHashTbl.remove, hm]
    · simp [BufMgr.disposePage, BufHashTbl.lookup, hm]
  | some g =>
    obtain ⟨a1, a2, a3, a4⟩ := ha.2 file pageNo g hm
    refine @invariants_of_evict s _ g ?_ a1 a2 ?_ ?_ ?_ ?_ ?_ ?_ ha hc
    · simp [BufMgr.disposePage, BufHashTbl.lookup, hm]
    · intro fl p
      rw [a3, a4]
      simp [BufMgr.disposePage, BufHashTbl.lookup, hm, remove_map]
    · simp [BufMgr.disposePage, BufHashTbl.lookup, hm, BufDesc.Clear]
    · simp [BufMgr.disposePage, BufHashTbl.lookup, hm, BufDesc.Clear]
    · simp [BufMgr.disposePage, BufHashTbl.lookup, hm, BufDesc.Clear]
    · simp [BufMgr.disposePage, BufHashTbl.lookup, hm, BufDesc.Clear]
    · intro k hk
      simp [BufMgr.disposePage, BufHashTbl.lookup, hm, Function.update_noteq hk]

theorem flushFileLoop_invariants (io : FileOps W) (file : FilePtr) :
    ∀ (n i : Nat) (s : BufMgr) (e : Env W), i + n ≤ s.numBufs → Agree s → FreeClean s →
      Agree (BufMgr.flushFileLoop io file n i s e).2.1 ∧
      FreeClean (BufMgr.flushFileLoop io file n i s e).2.1 ∧
      (BufMgr.flushFileLoop io file n i s e).2.1.numBufs = s.numBufs := by
  intro n
  induction n with
  | zero => intro i s e _ ha hc; exact ⟨ha, hc, rfl⟩
  | succ n ih =>
    intro i s e hin ha hc
    by_cases hf : (s.bufTable i).file = file
    · by_cases hv : (s.bufTable i).valid = true
      · by_cases hp : (s.bufTable i).pinCnt = 0
        · by_cases hw : (s.bufTable i).dirty = true →
              (io.writePage file (s.bufTable i).pageNo (s.bufPool i) e.disk).1 = Status.OK
          · obtain ⟨e2, _, hstep⟩ := flushFileLoop_flush io file n i s e hv hf hp hw
            rw [hstep]
            have hev := @invariants_of_evict s
              { s with hashTable := (s.hashTable.remove file (s.bufTable i).pageNo).2
                       bufTable := Function.update s.bufTable i (s.bufTable i).flushed }
              i rfl (by omega) hv
              (fun fl p => by rw [hf]; exact remove_map _ _ _ _ _)
              (by simp [BufDesc.flushed]) (by simp [BufDesc.flushed, hp])
              (by simp [BufDesc.flushed]) (by simp [BufDesc.flushed])
              (fun g hg => Function.update_noteq hg _ _) ha hc
            exact ih (i + 1) _ e2 (by show i + 1 + n ≤ s.numBufs; omega) hev.1 hev.2
          · have hd : (s.bufTable i).dirty = true := by
              by_contra hd
              exact hw (fun h => absurd h hd)
            have hwf : (io.writePage file (s.bufTable i).pageNo (s.bufPool i) e.disk).1
                ≠ Status.OK := fun h => hw (fun _ => h)
            have heq : (BufMgr.flushFileLoop io file (n + 1) i s e).2.1 = s := by
              rw [BufMgr.flushFileLoop]
              simp [hv, hf, hp, hd, hwf]
            rw [heq]; exact ⟨ha, hc, rfl⟩
        · have heq : (BufMgr.flushFileLoop io file (n + 1) i s e).2.1 = s := by
            rw [BufMgr.flushFileLoop]
            simp [hv, hf, Nat.pos_of_ne_zero hp]
          rw [heq]; exact ⟨ha, hc, rfl⟩
      · have heq : (BufMgr.flushFileLoop io file (n + 1) i s e).2.1 = s := by
          rw [BufMgr.flushFileLoop]
          simp [hv, hf]
        rw [heq]; exact ⟨ha, hc, rfl⟩
    · rw [(flushFileLoop_skip io file n i s e hf).1]
      exact ih (i + 1) s e (by omega) ha hc

/-- `readPage` always returns. -/
theorem readPage_isSome (io : FileOps W) (file : FilePtr) (pageNo : Int) (s : BufMgr)
    (e : Env W) : ∃ r, s.readPage io file pageNo e = some r := by
  cases hm : s.hashTable.map file pageNo with
  | some g => exact ⟨_, readPage_of_resident io file pageNo s e g hm⟩
  | none =>
    obtain ⟨⟨st, f, sa, ea⟩, ha⟩ := Option.isSome_iff_exists.1 (allocBuf_isSome io 0 s e)
    by_cases hst : st = Status.OK
    · subst hst
      by_cases hrd : (io.readPage file pageNo (sa.bufPool f) ea.disk).1 = Status.OK
      · exact ⟨_, readPage_of_miss io file pageNo s e hm f sa ea ha hrd⟩
      · exact ⟨_, readPage_of_read_fail io file pageNo s e hm f sa ea ha hrd⟩
    · exact ⟨_, readPage_of_allocBuf_fail io file pageNo s e hm st f sa ea ha hst⟩

/-- `allocPage` always returns. -/
theorem allocPage_isSome (io : FileOps W) (file : FilePtr) (pageNo : Int) (s : BufMgr)
    (e : Env W) : ∃ r, s.allocPage io file pageNo e = some r := by
  by_cases hal : (io.allocatePage file pageNo e.disk).1 = Status.OK
  · obtain ⟨⟨st, f, sa, ea⟩, ha⟩ := Option.isSome_iff_exists.1 (allocBuf_isSome io 0 s
      (e.record (io.allocatePage file pageNo e.disk).2.2 (Event.allocatePage file)))
    by_cases hst : st = Status.OK
    · subst hst
      by_cases hin : sa.hashTable.map file (io.allocatePage file pageNo e.disk).2.1 = none
      · exact ⟨_, allocPage_of_ok io file pageNo s e hal f sa ea ha hin⟩
      · exact ⟨_, allocPage_of_insert_fail io file pageNo s e hal f sa ea ha hin⟩
    · exact ⟨_, allocPage_of_allocBuf_fail io file pageNo s e hal st f sa ea ha hst⟩
  · exact ⟨_, allocPage_of_allocate_fail io file pageNo s e hal⟩

/-- Every call of the public interface returns, and keeps both invariants. -/
theorem call_invariants (io : FileOps W) (c : Call) (s : BufMgr) (e : Env W)
    (ha : Agree s) (hc : FreeClean s) :
    ∃ r, s.call io c e = some r ∧ Agree r.2.1 ∧ FreeClean r.2.1 := by
  cases c with
  | readPage f p =>
    obtain ⟨r, h⟩ := readPage_isSome io f p s e
    have hi := readPage_invariants io f p s e _ h ha hc
    exact ⟨_, by simp only [BufMgr.call, h]; rfl, hi.1, hi.2⟩
  | unPinPage f p d =>
    have hi := unPinPage_invariants f p d s ha hc
    exact ⟨_, rfl, hi.1, hi.2⟩
  | allocPage f p =>
    obtain ⟨r, h⟩ := allocPage_isSome io f p s e
    have hi := allocPage_invariants io f p s e _ h ha hc
    exact ⟨_, by simp only [BufMgr.call, h]; rfl, hi.1, hi.2⟩
  | disposePage f p =>
    have hi := disposePage_invariants io f p s e ha hc
    exact ⟨_, rfl, hi.1, hi.2⟩
  | flushFile f =>
    have hi := flushFileLoop_invariants io f s.numBufs 0 s e (by omega) ha hc
    exact ⟨_, rfl, hi.1, hi.2.1⟩

theorem reachable_invariants (io : FileOps W) (s : BufMgr) (e : Env W)
    (h : Reachable io s e) : Agree s ∧ FreeClean s := by
  induction h with
  | fresh bufs hb e => exact ⟨construct_agree bufs hb, construct_freeClean bufs hb⟩
  | step s e c r _ hcall ih =>
    obtain ⟨r2, h2, i1, i2⟩ := call_invariants io c s e ih.1 ih.2
    rw [hcall] at h2
    rw [Option.some.inj h2]
    exact ⟨i1, i2⟩

/-- When no frame of the stretch is invalid while carrying the file, the loop of
`flushFile` ends with `OK`, with `PAGEPINNED`, or with the status a `writePage` of the
file returned. -/
theorem flushFileLoop_status (io : FileOps W) (file : FilePtr) :
    ∀ (n i : Nat) (s : BufMgr) (e : Env W),
      (∀ j, i ≤ j → j < i + n →
        ¬((s.bufTable j).valid = false ∧ (s.bufTable j).file = file)) →
      (BufMgr.flushFileLoop io file n i s e).1 = Status.OK ∨
      (BufMgr.flushFileLoop io file n i s e).1 = Status.PAGEPINNED ∨
      ∃ pg c w, (BufMgr.flushFileLoop io file n i s e).1 = (io.writePage file pg c w).1 := by
  intro n
  induction n with
  | zero => intro i s e _; exact Or.inl rfl
  | succ n ih =>
    intro i s e hnb
    by_cases hf : (s.bufTable i).file = file
    · have hv : (s.bufTable i).valid = true := by
        by_contra hv
        exact hnb i (Nat.le_refl _) (by omega) ⟨by simpa using hv, hf⟩
      by_cases hp : (s.bufTable i).pinCnt = 0
      · by_cases hw : (s.bufTable i).dirty = true →
            (io.writePage file (s.bufTable i).pageNo (s.bufPool i) e.disk).1 = Status.OK
        · obtain ⟨e2, _, hstep⟩ := flushFileLoop_flush io file n i s e hv hf hp hw
          rw [hstep]
          apply ih
          intro j h1 h2
          show ¬((Function.update s.bufTable i (s.bufTable i).flushed j).valid = false ∧
            (Function.update s.bufTable i (s.bufTable i).flushed j).file = file)
          rw [Function.update_noteq (by omega)]
          exact hnb j (by omega) (by omega)
        · have hd : (s.bufTable i).dirty = true := by
            by_contra hd
            exact hw (fun h => absurd h hd)
          have hwf : (io.writePage file (s.bufTable i).pageNo (s.bufPool i) e.disk).1
              ≠ Status.OK := fun h => hw (fun _ => h)
          refine Or.inr (Or.inr ⟨(s.bufTable i).pageNo, s.bufPool i, e.disk, ?_⟩)
          rw [BufMgr.flushFileLoop]
          simp [hv, hf, hp, hd, hwf]
      · refine Or.inr (Or.inl ?_)
        rw [BufMgr.flushFileLoop]
        simp [hv, hf, Nat.pos_of_ne_zero hp]
    · rw [(flushFileLoop_skip io file n i s e hf).1]
      exact ih (i + 1) s e (fun j h1 h2 => hnb j (by omega) (by omega))

/-- A reachable state stays reachable after any call, and every call returns. -/
theorem reachable_call (io : FileOps W) (s : BufMgr) (e : Env W) (h : Reachable io s e)
    (c : Call) : ∃ r, s.call io c e = some r ∧ Reachable io r.2.1 r.2.2 := by
  obtain ⟨ha, hc⟩ := reachable_invariants io s e h
  obtain ⟨r, hr, _⟩ := call_invariants io c s e ha hc
  exact ⟨r, hr, Reachable.step s e c r h hr⟩

/-! ## Claims on the reachable states -/

/-- C15. In every state reachable from a freshly constructed manager by calls of
`readPage`, `unPinPage`, `allocPage`, `disposePage` and `flushFile`, whatever the file
does: a frame is valid if and only if the index maps its (owner, page number) to it;
every index entry points to a frame below `numBufs` that is valid and carries the key;
no two valid frames carry the same (file, page number).  Every call returns and leads to
a reachable state again. -/
theorem residency_agreement (io : FileOps W) (s : BufMgr) (e : Env W)
    (h : Reachable io s e) :
    (∀ f, f < s.numBufs →
      ((s.bufTable f).valid = true ↔
        s.hashTable.map (s.bufTable f).file (s.bufTable f).pageNo = some f)) ∧
    (∀ fl p f, s.hashTable.map fl p = some f →
      f < s.numBufs ∧ (s.bufTable f).valid = true ∧ (s.bufTable f).file = fl ∧
        (s.bufTable f).pageNo = p) ∧
    (∀ f g, f < s.numBufs → g < s.numBufs → (s.bufTable f).valid = true →
      (s.bufTable g).valid = true → (s.bufTable f).file = (s.bufTable g).file →
      (s.bufTable f).pageNo = (s.bufTable g).pageNo → f = g) ∧
    (∀ c, ∃ r, s.call io c e = some r ∧ Reachable io r.2.1 r.2.2) := by
  obtain ⟨ha, _⟩ := reachable_invariants io s e h
  refine ⟨fun f hf => ⟨ha.1 f hf, fun hm => (ha.2 _ _ f hm).2.1⟩, ha.2, ?_,
    reachable_call io s e h⟩
  intro f g hf hg hvf hvg h1 h2
  have e1 := ha.1 f hf hvf
  have e2 := ha.1 g hg hvg
  rw [h1, h2, e2] at e1
  exact (Option.some.inj e1).symm

/-- Witness for `residency_agreement`: the state after fetching page 10 of file 1 into a
fresh pool of two frames is reachable; frame 0 is valid and the index maps its key to
it. -/
theorem residency_agreement_witness :
    ∃ r, (BufMgr.construct 2 (by decide)).call okFiles (Call.readPage 1 10) emptyEnv
        = some r ∧
      Reachable okFiles r.2.1 r.2.2 ∧ (r.2.1.bufTable 0).valid = true ∧
      r.2.1.hashTable.map (r.2.1.bufTable 0).file (r.2.1.bufTable 0).pageNo = some 0 := by
  obtain ⟨r, hr⟩ := Option.isSome_iff_exists.1
    (show ((BufMgr.construct 2 (by decide)).call okFiles (Call.readPage 1 10)
      emptyEnv).isSome = true by decide)
  have hreach : Reachable okFiles r.2.1 r.2.2 :=
    Reachable.step _ _ _ r (Reachable.fresh 2 (by decide) emptyEnv) hr
  have hv : (r.2.1.bufTable 0).valid = true := by
    have : ((BufMgr.construct 2 (by decide)).call okFiles (Call.readPage 1 10)
        emptyEnv).map (fun x => (x.2.1.bufTable 0).valid) = some true := by decide
    rw [hr] at this
    exact Option.some.inj this
  have hn : r.2.1.numBufs = 2 := by
    have : ((BufMgr.construct 2 (by decide)).call okFiles (Call.readPage 1 10)
        emptyEnv).map (fun x => x.2.1.numBufs) = some 2 := by decide
    rw [hr] at this
    exact Option.some.inj this
  exact ⟨r, hr, hreach, hv,
    ((residency_agreement okFiles r.2.1 r.2.2 hreach).1 0 (by omega)).1 hv⟩

/-- C20. In every reachable state a frame that is not valid has pin count 0, is not
dirty and has no owning file.  Consequently `flushFile` called with a file other than
`NULL` never takes its `BADBUFFER` return: its status is `OK`, `PAGEPINNED` or the
status a `writePage` of that file returned (so it is not `BADBUFFER` unless the file
itself returns that code); and a frame that `allocBuf` returns with `OK` and that was not
valid has pin count 0. -/
theorem free_frame_invariant (io : FileOps W) (s : BufMgr) (e : Env W)
    (h : Reachable io s e) :
    (∀ f, f < s.numBufs → (s.bufTable f).valid = false →
      (s.bufTable f).pinCnt = 0 ∧ (s.bufTable f).dirty = false ∧
        (s.bufTable f).file = NULL) ∧
    (∀ file, file ≠ NULL →
      ((s.flushFile io file e).1 = Status.OK ∨
        (s.flushFile io file e).1 = Status.PAGEPINNED ∨
        ∃ pg c w, (s.flushFile io file e).1 = (io.writePage file pg c w).1) ∧
      ((∀ pg c w, (io.writePage file pg c w).1 ≠ Status.BADBUFFER) →
        (s.flushFile io file e).1 ≠ Status.BADBUFFER)) ∧
    (∀ frame r, s.allocBuf io frame e = some r → r.1 = Status.OK →
      (s.bufTable r.2.1).valid = false → (s.bufTable r.2.1).pinCnt = 0) := by
  obtain ⟨_, hc⟩ := reachable_invariants io s e h
  refine ⟨hc, ?_, ?_⟩
  · intro file hfile
    have hst := flushFileLoop_status io file s.numBufs 0 s e (fun j _ hj hbad =>
      hfile (hbad.2.symm.trans (hc j (by omega) hbad.1).2.2))
    refine ⟨hst, fun hw => ?_⟩
    rcases hst with h1 | h1 | ⟨pg, c, w, h1⟩
    · unfold BufMgr.flushFile; rw [h1]; decide
    · unfold BufMgr.flushFile; rw [h1]; decide
    · unfold BufMgr.flushFile; rw [h1]; exact hw pg c w
  · intro frame r hr hok hinv
    obtain ⟨st, f, sa, ea⟩ := r
    simp only at hok hinv ⊢
    subst hok
    exact (hc f (allocBuf_ok io frame s e f sa ea hr).2.1 hinv).1

/-- Witness for `free_frame_invariant`: after fetching page 10 of file 1 into a fresh pool
of two frames, frame 1 is free and clean, and flushing file 1 does not give
`BADBUFFER`. -/
theorem free_frame_invariant_witness :
    ∃ r, (BufMgr.construct 2 (by decide)).call okFiles (Call.readPage 1 10) emptyEnv
        = some r ∧
      ((r.2.1.bufTable 1).valid = false →
        (r.2.1.bufTable 1).pinCnt = 0 ∧ (r.2.1.bufTable 1).dirty = false ∧
          (r.2.1.bufTable 1).file = NULL) ∧
      (r.2.1.flushFile okFiles 1 r.2.2).1 ≠ Status.BADBUFFER := by
  obtain ⟨r, hr⟩ := Option.isSome_iff_exists.1
    (show ((BufMgr.construct 2 (by decide)).call okFiles (Call.readPage 1 10)
      emptyEnv).isSome = true by decide)
  have hreach : Reachable okFiles r.2.1 r.2.2 :=
    Reachable.step _ _ _ r (Reachable.fresh 2 (by decide) emptyEnv) hr
  have hn : r.2.1.numBufs = 2 := by
    have : ((BufMgr.construct 2 (by decide)).call okFiles (Call.readPage 1 10)
        emptyEnv).map (fun x => x.2.1.numBufs) = some 2 := by decide
    rw [hr] at this
    exact Option.some.inj this
  have h := free_frame_invariant okFiles r.2.1 r.2.2 hreach
  exact ⟨r, hr, h.1 1 (by omega), (h.2.1 1 (by decide)).2 (fun _ _ _ => by simp [okFiles])⟩

/-! ## The order in which the sweep visits the frames -/

@[simp] theorem passOne_numBufs (s : BufMgr) : s.passOne.numBufs = s.numBufs := rfl
@[simp] theorem passOne_bufPool (s : BufMgr) : s.passOne.bufPool = s.bufPool := rfl
@[simp] theorem passOne_hashTable (s : BufMgr) : s.passOne.hashTable = s.hashTable := rfl
@[simp] theorem passOne_clockHand (s : BufMgr) :
    s.passOne.clockHand = (s.clockHand + 1) % s.numBufs := rfl

theorem passOne_bufTable (s : BufMgr) (i : Nat) :
    s.passOne.bufTable i =
      if i = (s.clockHand + 1) % s.numBufs then { s.bufTable i with refbit := false }
      else s.bufTable i := by
  unfold BufMgr.passOne
  simp only [advanceClock_bufTable, advanceClock_clockHand]
  split_ifs with h
  · subst h; exact Function.update_same _ _ _
  · exact Function.update_noteq h _ _

theorem passMany_zero (s : BufMgr) : s.passMany 0 = s := rfl

theorem passMany_succ (s : BufMgr) (m : Nat) : s.passMany (m + 1) = (s.passMany m).passOne :=
  Function.iterate_succ_apply' _ _ _

theorem passMany_succ_front (s : BufMgr) (m : Nat) :
    s.passMany (m + 1) = s.passOne.passMany m :=
  Function.iterate_succ_apply _ _ _

theorem passMany_numBufs (s : BufMgr) (m : Nat) : (s.passMany m).numBufs = s.numBufs := by
  induction m with
  | zero => rfl
  | succ m ih => rw [passMany_succ, passOne_numBufs, ih]

theorem passMany_bufPool (s : BufMgr) (m : Nat) : (s.passMany m).bufPool = s.bufPool := by
  induction m with
  | zero => rfl
  | succ m ih => rw [passMany_succ, passOne_bufPool, ih]

theorem passMany_hashTable (s : BufMgr) (m : Nat) :
    (s.passMany m).hashTable = s.hashTable := by
  induction m with
  | zero => rfl
  | succ m ih => rw [passMany_succ, passOne_hashTable, ih]

theorem passMany_clockHand (s : BufMgr) (m : Nat) :
    (s.passMany m).clockHand = (s.clockHand + m) % s.numBufs := by
  induction m with
  | zero => exact (Nat.mod_eq_of_lt s.hand_lt).symm
  | succ m ih =>
    rw [passMany_succ, passOne_clockHand, ih, passMany_numBufs, Nat.mod_add_mod,
      Nat.add_assoc]

/-- Passing over frames changes reference flags only. -/
theorem passMany_desc (s : BufMgr) (m i : Nat) :
    (s.passMany m).bufTable i =
      { s.bufTable i with refbit := ((s.passMany m).bufTable i).refbit } := by
  induction m with
  | zero => rfl
  | succ m ih =>
    rw [passMany_succ, passOne_bufTable]
    split_ifs with h
    · rw [ih]
    · exact ih

/-- A frame the sweep has not passed over is as it was. -/
theorem passMany_bufTable_of_not_visited (s : BufMgr) (m i : Nat)
    (h : ∀ t, t < m → i ≠ (s.clockHand + (t + 1)) % s.numBufs) :
    (s.passMany m).bufTable i = s.bufTable i := by
  induction m with
  | zero => rfl
  | succ m ih =>
    rw [passMany_succ, passOne_bufTable, passMany_clockHand, passMany_numBufs,
      Nat.mod_add_mod, if_neg (by rw [Nat.add_assoc]; exact h m (Nat.lt_succ_self m))]
    exact ih (fun t ht => h t (Nat.lt_succ_of_lt ht))

/-- A frame the sweep has passed over has its reference flag clear and is otherwise as
it was. -/
theorem passMany_bufTable_visited (s : BufMgr) (m t : Nat) (ht : t < m) :
    (s.passMany m).bufTable ((s.clockHand + (t + 1)) % s.numBufs) =
      { s.bufTable ((s.clockHand + (t + 1)) % s.numBufs) with refbit := false } := by
  induction m with
  | zero => omega
  | succ m ih =>
    rw [passMany_succ, passOne_bufTable, passMany_clockHand, passMany_numBufs,
      Nat.mod_add_mod]
    split_ifs with h
    · rw [passMany_desc]
    · have htm : t < m := by
        rcases Nat.lt_succ_iff_lt_or_eq.1 ht with h1 | h1
        · exact h1
        · subst h1
          exact absurd (by rw [Nat.add_assoc]) h
      exact ih htm

/-- Offsets that differ by less than `n` give different positions on the clock. -/
theorem clock_pos_ne {n h a b : Nat} (hab : a < b) (hbn : b < a + n) :
    (h + a) % n ≠ (h + b) % n := by
  intro heq
  have h1 : n ∣ (h + b) - (h + a) := (Nat.modEq_iff_dvd' (by omega)).1 heq
  rw [Nat.add_sub_add_left] at h1
  have := Nat.le_of_dvd (by omega) h1
  omega

/-- Every frame below `n` is reached from the hand `h` by a unique offset between 1 and
`n`. -/
theorem clock_offset_exists {n h j : Nat} (hh : h < n) (hj : j < n) :
    ∃ t, 1 ≤ t ∧ t ≤ n ∧ (h + t) % n = j := by
  by_cases hjh : h < j
  · exact ⟨j - h, by omega, by omega, by
      rw [show h + (j - h) = j by omega]; exact Nat.mod_eq_of_lt hj⟩
  · refine ⟨j + n - h, by omega, by omega, ?_⟩
    rw [show h + (j + n - h) = j + n by omega, Nat.add_mod_right]
    exact Nat.mod_eq_of_lt hj

theorem eligible_false_iff (d : BufDesc) :
    d.eligible = false ↔ d.valid = true ∧ (d.refbit = true ∨ d.pinCnt ≠ 0) := by
  unfold BufDesc.eligible
  cases d.valid <;> cases d.refbit <;> simp

theorem eligible_true_iff (d : BufDesc) :
    d.eligible = true ↔ d.valid = false ∨ (d.refbit = false ∧ d.pinCnt = 0) := by
  unfold BufDesc.eligible
  cases d.valid <;> cases d.refbit <;> simp

theorem passOne_eq_advanceClock (s : BufMgr)
    (h : (s.bufTable ((s.clockHand + 1) % s.numBufs)).refbit = false) :
    s.passOne = s.advanceClock := by
  have hd : ({ s.bufTable ((s.clockHand + 1) % s.numBufs) with refbit := false } : BufDesc)
      = s.bufTable ((s.clockHand + 1) % s.numBufs) := by
    rw [← h]
  unfold BufMgr.passOne
  simp only [advanceClock_bufTable, advanceClock_clockHand, hd, Function.update_eq_self]
  rfl

/-- One iteration of the sweep over a frame that is not eligible, the exhaustion test not
firing: the loop goes on with the frame passed over. -/
theorem allocBufLoop_pass (io : FileOps W) (fuel start round frame : Nat) (s : BufMgr)
    (e : Env W)
    (hne : (s.bufTable ((s.clockHand + 1) % s.numBufs)).eligible = false)
    (hnob : ¬((s.clockHand + 1) % s.numBufs = start ∧
      (if (s.clockHand + 1) % s.numBufs = start then round + 1 else round) = 2)) :
    BufMgr.allocBufLoop io (fuel + 1) start round frame s e =
      BufMgr.allocBufLoop io fuel start
        (if (s.clockHand + 1) % s.numBufs = start then round + 1 else round) frame
        s.passOne e := by
  obtain ⟨hv, hrp⟩ := (eligible_false_iff _).1 hne
  rw [BufMgr.allocBufLoop]
  simp only [advanceClock_clockHand, advanceClock_bufTable]
  rw [if_neg hnob, if_neg (by rw [hv]; decide)]
  by_cases hr : (s.bufTable ((s.clockHand + 1) % s.numBufs)).refbit = true
  · rw [if_pos hr]
    rfl
  · have hp : (s.bufTable ((s.clockHand + 1) % s.numBufs)).pinCnt ≠ 0 := by
      rcases hrp with h | h
      · exact absurd h hr
      · exact h
    rw [if_neg hr, if_neg hp, passOne_eq_advanceClock s (by simpa using hr)]

/-- One iteration of the sweep reaching a frame that is not valid. -/
theorem allocBufLoop_claim (io : FileOps W) (fuel start round frame : Nat) (s : BufMgr)
    (e : Env W)
    (hinv : (s.bufTable ((s.clockHand + 1) % s.numBufs)).valid = false)
    (hnob : ¬((s.clockHand + 1) % s.numBufs = start ∧
      (if (s.clockHand + 1) % s.numBufs = start then round + 1 else round) = 2)) :
    BufMgr.allocBufLoop io (fuel + 1) start round frame s e =
      some (Status.OK, (s.clockHand + 1) % s.numBufs, s.advanceClock, e) := by
  rw [BufMgr.allocBufLoop]
  simp only [advanceClock_clockHand, advanceClock_bufTable]
  rw [if_neg hnob, if_pos hinv]

/-- One iteration of the sweep reaching a valid frame with reference flag clear and pin
count 0. -/
theorem allocBufLoop_victim (io : FileOps W) (fuel start round frame : Nat) (s : BufMgr)
    (e : Env W)
    (hv : (s.bufTable ((s.clockHand + 1) % s.numBufs)).valid = true)
    (hr : (s.bufTable ((s.clockHand + 1) % s.numBufs)).refbit = false)
    (hp : (s.bufTable ((s.clockHand + 1) % s.numBufs)).pinCnt = 0)
    (hnob : ¬((s.clockHand + 1) % s.numBufs = start ∧
      (if (s.clockHand + 1) % s.numBufs = start then round + 1 else round) = 2)) :
    BufMgr.allocBufLoop io (fuel + 1) start round frame s e =
      some (s.advanceClock.allocBufVictim io frame e) := by
  rw [BufMgr.allocBufLoop]
  simp only [advanceClock_clockHand, advanceClock_bufTable]
  rw [if_neg hnob, if_neg (by rw [hv]; decide), if_neg (by rw [hr]; decide), if_pos hp]

/-- One iteration of the sweep arriving at the start position for the second time. -/
theorem allocBufLoop_exceeded (io : FileOps W) (fuel start frame : Nat) (s : BufMgr)
    (e : Env W) (hs : (s.clockHand + 1) % s.numBufs = start) :
    BufMgr.allocBufLoop io (fuel + 1) start 1 frame s e =
      some (Status.BUFFEREXCEEDED, frame, s.advanceClock, e) := by
  rw [BufMgr.allocBufLoop]
  simp only [advanceClock_clockHand]
  rw [if_pos ⟨hs, by rw [if_pos hs]⟩]

/-- Bookkeeping of the sweep after `k` advances from `start`: the value of `round` after
one more advance, and the fact that the exhaustion test does not fire before the
`2 * n`-th advance. -/
theorem round_after_advance {n start k hand : Nat} (hs : start < n)
    (hc : hand = (start + k) % n) :
    (if (hand + 1) % n = start then k / n + 1 else k / n) = (k + 1) / n ∧
    (k + 1 < 2 * n →
      ¬((hand + 1) % n = start ∧
        (if (hand + 1) % n = start then k / n + 1 else k / n) = 2)) := by
  have hc1 : (hand + 1) % n = (start + (k + 1)) % n := by
    rw [hc, advance_offset]
  have hr1 : (if (hand + 1) % n = start then k / n + 1 else k / n) = (k + 1) / n := by
    rw [hc1, Nat.succ_div]
    by_cases hd : n ∣ k + 1
    · rw [if_pos ((hand_returns_iff hs).2 hd), if_pos hd]
    · rw [if_neg (fun h => hd ((hand_returns_iff hs).1 h)), if_neg hd]
      rfl
  refine ⟨hr1, fun hk h => ?_⟩
  rw [hr1] at h
  have hn : 0 < n := by omega
  have : (k + 1) / n < 2 := (Nat.div_lt_iff_lt_mul hn).2 (by omega)
  omega

/-- The sweep passes over `m` frames in a row when each of them, at the time it is
examined, is not eligible and fewer than `2 * numBufs` advances have been made. -/
theorem allocBufLoop_passMany (io : FileOps W) (start frame : Nat) (e : Env W) :
    ∀ (m k fuel : Nat) (s : BufMgr), start < s.numBufs →
      s.clockHand = (start + k) % s.numBufs → k + m < 2 * s.numBufs →
      (∀ t, t < m →
        ((s.passMany t).bufTable ((s.clockHand + (t + 1)) % s.numBufs)).eligible = false) →
      BufMgr.allocBufLoop io (m + fuel) start (k / s.numBufs) frame s e =
        BufMgr.allocBufLoop io fuel start ((k + m) / s.numBufs) frame (s.passMany m) e := by
  intro m
  induction m with
  | zero => intro k fuel s _ _ _ _; rw [Nat.zero_add]; rfl
  | succ m ih =>
    intro k fuel s hs hc hk hel
    obtain ⟨hr1, hnob⟩ := round_after_advance hs hc
    have h0 := hel 0 (Nat.succ_pos m)
    rw [passMany_zero] at h0
    rw [show m + 1 + fuel = (m + fuel) + 1 by omega,
      allocBufLoop_pass io _ start _ frame s e h0 (hnob (by omega)), hr1,
      passMany_succ_front]
    have hc2 : s.passOne.clockHand = (start + (k + 1)) % s.passOne.numBufs := by
      rw [passOne_clockHand, passOne_numBufs, hc, advance_offset]
    have := ih (k + 1) fuel s.passOne hs hc2 (by rw [passOne_numBufs]; omega) (by
      intro t ht
      have := hel (t + 1) (by omega)
      rw [passMany_succ_front] at this
      rw [passOne_clockHand, passOne_numBufs, Nat.mod_add_mod]
      rw [show s.clockHand + 1 + (t + 1) = s.clockHand + (t + 1 + 1) by omega]
      exact this)
    rw [passOne_numBufs] at this
    rw [this, show k + 1 + m = k + (m + 1) by omega]

/-- The manager in which the sweep stops after having passed over `m` frames: the hand is
on the next frame, which is as it was before the sweep when `m` is less than the number
of frames. -/
theorem passMany_advance (s : BufMgr) (m : Nat) (hm : m < s.numBufs) :
    (s.passMany m).advanceClock.clockHand = (s.clockHand + (m + 1)) % s.numBufs ∧
    (s.passMany m).advanceClock.bufTable ((s.clockHand + (m + 1)) % s.numBufs) =
      s.bufTable ((s.clockHand + (m + 1)) % s.numBufs) ∧
    (s.passMany m).advanceClock.bufPool = s.bufPool ∧
    (s.passMany m).advanceClock.hashTable = s.hashTable ∧
    (s.passMany m).advanceClock.numBufs = s.numBufs := by
  refine ⟨?_, ?_, passMany_bufPool s m, passMany_hashTable s m, passMany_numBufs s m⟩
  · rw [advanceClock_clockHand, passMany_clockHand, passMany_numBufs, Nat.mod_add_mod,
      Nat.add_assoc]
  · rw [advanceClock_bufTable]
    exact passMany_bufTable_of_not_visited s m _
      (fun t ht => (clock_pos_ne (by omega) (by omega)).symm)

/-- One iteration of the sweep reaching an eligible frame before the `2 * numBufs`-th
advance: the loop returns from that frame. -/
theorem allocBufLoop_stop (io : FileOps W) (start frame : Nat) (e : Env W)
    (k fuel : Nat) (s : BufMgr) (hs : start < s.numBufs)
    (hc : s.clockHand = (start + k) % s.numBufs) (hk : k + 1 < 2 * s.numBufs)
    (hel : (s.bufTable ((s.clockHand + 1) % s.numBufs)).eligible = true) :
    BufMgr.allocBufLoop io (fuel + 1) start (k / s.numBufs) frame s e =
      some (if (s.bufTable ((s.clockHand + 1) % s.numBufs)).valid = true then
          s.advanceClock.allocBufVictim io frame e
        else (Status.OK, (s.clockHand + 1) % s.numBufs, s.advanceClock, e)) := by
  obtain ⟨_, hnob⟩ := round_after_advance hs hc
  have hnob2 := hnob hk
  rcases (eligible_true_iff _).1 hel with hinv | ⟨hr, hp⟩
  · rw [if_neg (by rw [hinv]; decide)]
    exact allocBufLoop_claim io fuel start _ frame s e hinv hnob2
  · by_cases hv : (s.bufTable ((s.clockHand + 1) % s.numBufs)).valid = true
    · rw [if_pos hv]
      exact allocBufLoop_victim io fuel start _ frame s e hv hr hp hnob2
    · rw [if_neg hv]
      exact allocBufLoop_claim io fuel start _ frame s e (by simpa using hv) hnob2

/-- The sweep stops at the first eligible frame.  After `k` advances from `start`, if the
frame `m + 1` positions ahead of the hand is eligible, the `m` frames before it are not,
and `k + m + 1` stays below `2 * numBufs`, the loop returns from that frame: with `OK`
and no call if the frame is not valid, through the victim branch if it is. -/
theorem allocBufLoop_first_eligible (io : FileOps W) (start frame : Nat) (e : Env W)
    (m k fuel : Nat) (s : BufMgr) (hs : start < s.numBufs)
    (hc : s.clockHand = (start + k) % s.numBufs) (hmn : m < s.numBufs)
    (hk : k + (m + 1) < 2 * s.numBufs)
    (hbusy : ∀ u, u < m →
      (s.bufTable ((s.clockHand + (u + 1)) % s.numBufs)).eligible = false)
    (hel : (s.bufTable ((s.clockHand + (m + 1)) % s.numBufs)).eligible = true) :
    BufMgr.allocBufLoop io (m + (fuel + 1)) start (k / s.numBufs) frame s e =
      some (if (s.bufTable ((s.clockHand + (m + 1)) % s.numBufs)).valid = true then
          (s.passMany m).advanceClock.allocBufVictim io frame e
        else
          (Status.OK, (s.clockHand + (m + 1)) % s.numBufs, (s.passMany m).advanceClock, e)) := by
  have hpass := allocBufLoop_passMany io start frame e m k (fuel + 1) s hs hc (by omega)
    (fun t ht => by
      rw [passMany_bufTable_of_not_visited s t _
        (fun x hx => (clock_pos_ne (by omega) (by omega)).symm)]
      exact hbusy t ht)
  rw [hpass]
  obtain ⟨a1, a2, _, _, a5⟩ := passMany_advance s m hmn
  have a1b : ((s.passMany m).clockHand + 1) % (s.passMany m).numBufs =
      (s.clockHand + (m + 1)) % s.numBufs := a1
  have a2b : (s.passMany m).bufTable ((s.clockHand + (m + 1)) % s.numBufs) =
      s.bufTable ((s.clockHand + (m + 1)) % s.numBufs) := a2
  have a5b : (s.passMany m).numBufs = s.numBufs := a5
  have hc2 : (s.passMany m).clockHand = (start + (k + m)) % (s.passMany m).numBufs := by
    rw [passMany_clockHand, passMany_numBufs, hc, Nat.mod_add_mod, Nat.add_assoc]
  have hstop := allocBufLoop_stop io start frame e (k + m) fuel (s.passMany m)
    (by rw [a5b]; exact hs) hc2 (by rw [a5b]; omega) (by rw [a1b, a2b]; exact hel)
  rw [a1b, a2b] at hstop
  rw [← hstop, a5b]

/-- The first eligible frame in clock order: when some frame below `numBufs` is eligible
there is a least offset `t` between 1 and `numBufs` at which the frame `t` positions
ahead of the hand is eligible. -/
theorem first_eligible_exists (s : BufMgr)
    (hex : ∃ j, j < s.numBufs ∧ (s.bufTable j).eligible = true) :
    ∃ t, 1 ≤ t ∧ t ≤ s.numBufs ∧
      (s.bufTable ((s.clockHand + t) % s.numBufs)).eligible = true ∧
      ∀ u, 1 ≤ u → u < t →
        (s.bufTable ((s.clockHand + u) % s.numBufs)).eligible = false := by
  obtain ⟨j, hj, hel⟩ := hex
  obtain ⟨t0, h1, h2, h3⟩ := clock_offset_exists s.hand_lt hj
  have hP : ∃ t, 1 ≤ t ∧ (s.bufTable ((s.clockHand + t) % s.numBufs)).eligible = true :=
    ⟨t0, h1, by rw [h3]; exact hel⟩
  refine ⟨Nat.find hP, (Nat.find_spec hP).1, (Nat.find_min' hP ⟨h1, by rw [h3]; exact hel⟩).trans h2,
    (Nat.find_spec hP).2, fun u hu1 hu2 => ?_⟩
  have := Nat.find_min hP hu2
  simp only [not_and] at this
  simpa using this hu1

/-- The manager in which the sweep stops at offset `m + 1`, described frame by frame. -/
theorem passMany_advance_frames (s : BufMgr) (m : Nat) (hm : m < s.numBufs) :
    (∀ u, 1 ≤ u → u < m + 1 →
      (s.passMany m).advanceClock.bufTable ((s.clockHand + u) % s.numBufs) =
        { s.bufTable ((s.clockHand + u) % s.numBufs) with refbit := false }) ∧
    (∀ i, (∀ u, 1 ≤ u → u < m + 1 → i ≠ (s.clockHand + u) % s.numBufs) →
      (s.passMany m).advanceClock.bufTable i = s.bufTable i) ∧
    (∀ u, 1 ≤ u → u < m + 1 →
      (s.clockHand + u) % s.numBufs ≠ (s.clockHand + (m + 1)) % s.numBufs) := by
  refine ⟨fun u h1 h2 => ?_, fun i hi => ?_, fun u h1 h2 => clock_pos_ne h2 (by omega)⟩
  · obtain ⟨w, rfl⟩ : ∃ w, u = w + 1 := ⟨u - 1, by omega⟩
    exact passMany_bufTable_visited s m w (by omega)
  · exact passMany_bufTable_of_not_visited s m i (fun w hw => hi (w + 1) (by omega) (by omega))

/-- The result of `allocBuf` when the first eligible frame in clock order is `v`, at
offset `t` from the hand, and `v` is not valid or its write-back (when dirty) and index
removal succeed. -/
theorem allocBuf_stop_at (io : FileOps W) (frame : Nat) (s : BufMgr) (e : Env W)
    (t v : Nat) (ht1 : 1 ≤ t) (htn : t ≤ s.numBufs) (hv0 : v = (s.clockHand + t) % s.numBufs)
    (hel : (s.bufTable v).eligible = true)
    (hbusy : ∀ u, 1 ≤ u → u < t →
      (s.bufTable ((s.clockHand + u) % s.numBufs)).eligible = false)
    (hsucc : (s.bufTable v).valid = true →
      ((s.bufTable v).dirty = true →
        (io.writePage (s.bufTable v).file (s.bufTable v).pageNo (s.bufPool v)
          e.disk).1 = Status.OK) ∧
      s.hashTable.map (s.bufTable v).file (s.bufTable v).pageNo ≠ none) :
    ∃ sa ea, s.allocBuf io frame e = some (Status.OK, v, sa, ea) ∧
      sa.clockHand = v ∧
      (∀ u, 1 ≤ u → u < t →
        sa.bufTable ((s.clockHand + u) % s.numBufs) =
          { s.bufTable ((s.clockHand + u) % s.numBufs) with refbit := false }) ∧
      (∀ i, i ≠ v → (∀ u, 1 ≤ u → u < t → i ≠ (s.clockHand + u) % s.numBufs) →
        sa.bufTable i = s.bufTable i) ∧
      sa.bufTable v =
        (if (s.bufTable v).valid = true then (s.bufTable v).Clear else s.bufTable v) ∧
      (∀ fl p, sa.hashTable.map fl p =
        if (s.bufTable v).valid = true ∧ fl = (s.bufTable v).file ∧
            p = (s.bufTable v).pageNo then none
        else s.hashTable.map fl p) ∧
      sa.bufPool = s.bufPool ∧ sa.numBufs = s.numBufs := by
  subst hv0
  obtain ⟨m, rfl⟩ : ∃ m, t = m + 1 := ⟨t - 1, by omega⟩
  have hrun := allocBufLoop_first_eligible io s.clockHand frame e m 0
    (2 * s.numBufs - (m + 1)) s s.hand_lt
    (by rw [Nat.add_zero, Nat.mod_eq_of_lt s.hand_lt]) (by omega) (by omega)
    (fun u hu => hbusy (u + 1) (by omega) (by omega)) hel
  rw [show m + (2 * s.numBufs - (m + 1) + 1) = 2 * s.numBufs by omega, Nat.zero_div] at hrun
  obtain ⟨a1, a2, a3, a4, a5⟩ := passMany_advance s m (by omega)
  obtain ⟨b1, b2, b3⟩ := passMany_advance_frames s m (by omega)
  by_cases hv : (s.bufTable ((s.clockHand + (m + 1)) % s.numBufs)).valid = true
  · rw [if_pos hv] at hrun
    obtain ⟨hw, hidx⟩ := hsucc hv
    rcases allocBufVictim_cases io frame (s.passMany m).advanceClock e with
      ⟨c1, c2, _⟩ | ⟨_, ew, _, c2⟩
    · rw [a1, a2] at c1
      rw [a1, a2, a3] at c2
      exact absurd (hw c1) c2
    · rcases c2 with ⟨c3, _⟩ | ⟨_, c4⟩
      · rw [a1, a2, a4] at c3
        exact absurd c3 hidx
      · rw [c4] at hrun
        have key : ∀ h, (s.passMany m).advanceClock.clockHand = h →
            ∃ sa ea, s.allocBuf io frame e = some (Status.OK, h, sa, ea) ∧
              sa.clockHand = h ∧
              sa.bufTable = Function.update (s.passMany m).advanceClock.bufTable h
                ((s.passMany m).advanceClock.bufTable h).Clear ∧
              sa.hashTable = ((s.passMany m).advanceClock.hashTable.remove
                ((s.passMany m).advanceClock.bufTable h).file
                ((s.passMany m).advanceClock.bufTable h).pageNo).2 ∧
              sa.bufPool = (s.passMany m).advanceClock.bufPool ∧
              sa.numBufs = (s.passMany m).advanceClock.numBufs := by
          rintro h rfl
          exact ⟨_, _, hrun, rfl, rfl, rfl, rfl, rfl⟩
        obtain ⟨sa, ea, k1, k2, k3, k4, k5, k6⟩ := key _ a1
        rw [a2] at k3 k4
        refine ⟨sa, ea, k1, k2, ?_, ?_, ?_, ?_, k5.trans a3, k6.trans a5⟩
        · intro u h1 h2
          rw [k3, Function.update_noteq (b3 u h1 h2)]
          exact b1 u h1 h2
        · intro i hi hnv
          rw [k3, Function.update_noteq hi]
          exact b2 i hnv
        · rw [k3, Function.update_same, if_pos hv]
        · intro fl p
          rw [k4, remove_map, a4]
          simp only [hv, true_and]
  · rw [if_neg hv] at hrun
    refine ⟨_, _, hrun, a1, b1, fun i _ hnv => b2 i hnv, ?_, ?_, a3, a5⟩
    · rw [a2, if_neg hv]
    · intro fl p
      rw [a4]
      simp [hv]

/-- C18. When some frame is eligible (not valid, or reference flag clear and pin count
0), let `v` be the first eligible frame in clock order after the hand, at offset `t`.
If `v` is not valid, or its write-back (when dirty) and its index removal succeed,
`allocBuf` returns `OK` with `v` and leaves the hand on `v`; the `t - 1` frames passed
over before `v`, all valid, have their reference flag clear and are otherwise unchanged;
`v` is cleared if it was valid; every other frame is unchanged; the only index entry
removed is the key of `v`; the pool is unchanged. -/
theorem allocBuf_clock_order (io : FileOps W) (frame : Nat) (s : BufMgr) (e : Env W)
    (hex : ∃ j, j < s.numBufs ∧ (s.bufTable j).eligible = true) :
    ∃ t v, 1 ≤ t ∧ t ≤ s.numBufs ∧ v = (s.clockHand + t) % s.numBufs ∧
      (s.bufTable v).eligible = true ∧
      (∀ u, 1 ≤ u → u < t →
        (s.bufTable ((s.clockHand + u) % s.numBufs)).eligible = false) ∧
      (((s.bufTable v).valid = true →
          ((s.bufTable v).dirty = true →
            (io.writePage (s.bufTable v).file (s.bufTable v).pageNo (s.bufPool v)
              e.disk).1 = Status.OK) ∧
          s.hashTable.map (s.bufTable v).file (s.bufTable v).pageNo ≠ none) →
        ∃ sa ea, s.allocBuf io frame e = some (Status.OK, v, sa, ea) ∧
          sa.clockHand = v ∧
          (∀ u, 1 ≤ u → u < t →
            sa.bufTable ((s.clockHand + u) % s.numBufs) =
              { s.bufTable ((s.clockHand + u) % s.numBufs) with refbit := false }) ∧
          (∀ i, i ≠ v → (∀ u, 1 ≤ u → u < t → i ≠ (s.clockHand + u) % s.numBufs) →
            sa.bufTable i = s.bufTable i) ∧
          sa.bufTable v =
            (if (s.bufTable v).valid = true then (s.bufTable v).Clear else s.bufTable v) ∧
          (∀ fl p, sa.hashTable.map fl p =
            if (s.bufTable v).valid = true ∧ fl = (s.bufTable v).file ∧
                p = (s.bufTable v).pageNo then none
            else s.hashTable.map fl p) ∧
          sa.bufPool = s.bufPool ∧ sa.numBufs = s.numBufs) := by
  obtain ⟨t, ht1, htn, hel, hbusy⟩ := first_eligible_exists s hex
  refine ⟨t, _, ht1, htn, rfl, hel, hbusy, fun hsucc => ?_⟩
  exact allocBuf_stop_at io frame s e t _ ht1 htn rfl hel hbusy hsucc

/-- In `sweepMgr` the hand is on frame 0, frame 1 is unpinned with its reference flag set
and frame 2 is unpinned with the flag clear: `allocBuf` passes frame 1, clearing its
flag, and returns frame 2, cleared, with the hand on it; the key of frame 2 leaves the
index and the key of frame 1 stays. -/
theorem allocBuf_clock_order_witness :
    (∃ j, j < sweepMgr.numBufs ∧ (sweepMgr.bufTable j).eligible = true) ∧
    ∃ sa ea, sweepMgr.allocBuf okFiles 0 emptyEnv = some (Status.OK, 2, sa, ea) ∧
      sa.clockHand = 2 ∧ (sa.bufTable 1).refbit = false ∧ (sa.bufTable 1).valid = true ∧
      (sa.bufTable 2).valid = false ∧ sa.bufTable 0 = sweepMgr.bufTable 0 ∧
      sa.hashTable.map 1 7 = none ∧ sa.hashTable.map 1 6 = some 1 := by
  have hex : ∃ j, j < sweepMgr.numBufs ∧ (sweepMgr.bufTable j).eligible = true :=
    ⟨2, by decide, by decide⟩
  refine ⟨hex, ?_⟩
  obtain ⟨t, v, h1, h2, hv, hel, hbusy, hres⟩ :=
    allocBuf_clock_order okFiles 0 sweepMgr emptyEnv hex
  have h2b : t ≤ 3 := h2
  have ht : t = 2 := by
    interval_cases t
    · subst hv
      exact absurd hel (by decide)
    · rfl
    · exact absurd (hbusy 2 (by decide) (by decide)) (by decide)
  subst ht
  have hv2 : v = 2 := hv
  subst hv2
  obtain ⟨sa, ea, k1, k2, k3, k4, k5, k6, _, _⟩ :=
    hres (fun _ => ⟨fun _ => by decide, by decide⟩)
  refine ⟨sa, ea, k1, k2, ?_, ?_, ?_, ?_, ?_, ?_⟩
  · have := k3 1 (by decide) (by decide)
    rw [show (sweepMgr.clockHand + 1) % sweepMgr.numBufs = 1 by decide] at this
    rw [this]
  · have := k3 1 (by decide) (by decide)
    rw [show (sweepMgr.clockHand + 1) % sweepMgr.numBufs = 1 by decide] at this
    rw [this]
    decide
  · rw [k5]
    decide
  · refine k4 0 (by decide) (fun u hu1 hu2 => ?_)
    have : u = 1 := by omega
    subst this
    decide
  · rw [k6]
    decide
  · rw [k6]
    decide

/-! ## The exact condition for exhaustion -/

/-- The victim branch always records a call: its trace is longer than the one it
started from. -/
theorem allocBufVictim_trace_length (io : FileOps W) (frame : Nat) (s : BufMgr) (e : Env W) :
    e.trace.length < (s.allocBufVictim io frame e).2.2.2.trace.length := by
  rcases allocBufVictim_cases io frame s e with ⟨_, _, h⟩ | ⟨_, ew, hew, h⟩
  · rw [h]
    simp [Env.record]
  · have hle : e.trace.length ≤ ew.trace.length := by
      rw [hew]
      split_ifs <;> simp [Env.record]
    rcases h with ⟨_, h⟩ | ⟨_, h⟩ <;>
    · rw [h]
      simp only [Env.record, List.length_append, List.length_singleton]
      omega

/-- The result of a sweep that stops at an eligible frame is not the exhaustion return:
its status is `OK`, or a call has been recorded. -/
theorem stop_result_not_exhaustion (io : FileOps W) (frame v : Nat) (c : Prop)
    [Decidable c] (s1 s2 : BufMgr) (e : Env W) (r : Status × Nat × BufMgr × Env W)
    (hr : r = if c then s1.allocBufVictim io frame e else (Status.OK, v, s2, e)) :
    ¬(r.1 = Status.BUFFEREXCEEDED ∧ r.2.2.2.trace = e.trace) := by
  rintro ⟨h1, h2⟩
  by_cases hc : c
  · rw [if_pos hc] at hr
    have := allocBufVictim_trace_length io frame s1 e
    rw [← hr, h2] at this
    exact Nat.lt_irrefl _ this
  · rw [if_neg hc] at hr
    rw [hr] at h1
    exact absurd h1 (by simp)

/-- When every frame is valid, every frame other than the one under the hand is pinned,
and the frame under the hand is pinned or has its reference flag set, the sweep makes
`2 * numBufs` advances and returns `BUFFEREXCEEDED`. -/
theorem allocBuf_exhausted (io : FileOps W) (frame : Nat) (s : BufMgr) (e : Env W)
    (hval : ∀ i, i < s.numBufs → (s.bufTable i).valid = true)
    (hpin : ∀ i, i < s.numBufs → i ≠ s.clockHand → (s.bufTable i).pinCnt ≠ 0)
    (hhand : (s.bufTable s.clockHand).pinCnt ≠ 0 ∨ (s.bufTable s.clockHand).refbit = true) :
    s.allocBuf io frame e =
      some (Status.BUFFEREXCEEDED, frame, (s.passMany (2 * s.numBufs - 1)).advanceClock, e) := by
  have hn : 0 < s.numBufs := Nat.zero_lt_of_lt s.hand_lt
  have hpass := allocBufLoop_passMany io s.clockHand frame e (2 * s.numBufs - 1) 0 1 s
    s.hand_lt (by rw [Nat.add_zero, Nat.mod_eq_of_lt s.hand_lt]) (by omega) (by
      intro t ht
      have hlt : (s.clockHand + (t + 1)) % s.numBufs < s.numBufs := Nat.mod_lt _ hn
      rw [eligible_false_iff]
      refine ⟨by rw [passMany_desc]; exact hval _ hlt, ?_⟩
      by_cases hpos : (s.clockHand + (t + 1)) % s.numBufs = s.clockHand
      · have hdvd := (hand_returns_iff s.hand_lt).1 hpos
        obtain ⟨c, hc⟩ := hdvd
        have ht1 : t + 1 = s.numBufs := by
          have hc1 : c = 1 := by
            rcases Nat.lt_trichotomy c 1 with h | h | h
            · have : c = 0 := by omega
              subst this
              omega
            · exact h
            · have : s.numBufs * 2 ≤ s.numBufs * c := Nat.mul_le_mul_left _ h
              omega
          rw [hc, hc1, Nat.mul_one]
        rw [hpos, passMany_bufTable_of_not_visited s t s.clockHand (fun x hx => by
          have := @clock_pos_ne s.numBufs s.clockHand 0 (x + 1) (by omega) (by omega)
          rw [Nat.add_zero, Nat.mod_eq_of_lt s.hand_lt] at this
          exact this)]
        exact hhand.symm
      · right
        rw [passMany_desc]
        exact hpin _ hlt hpos)
  have hdiv : (0 + (2 * s.numBufs - 1)) / s.numBufs = 1 :=
    Nat.div_eq_of_lt_le (by omega) (by omega)
  rw [show 2 * s.numBufs - 1 + 1 = 2 * s.numBufs by omega, Nat.zero_div, hdiv] at hpass
  unfold BufMgr.allocBuf
  rw [hpass]
  exact allocBufLoop_exceeded io 0 s.clockHand frame (s.passMany (2 * s.numBufs - 1)) e (by
    rw [passMany_clockHand, passMany_numBufs, Nat.mod_add_mod,
      show s.clockHand + (2 * s.numBufs - 1) + 1 = s.clockHand + s.numBufs * 2 by omega,
      Nat.add_mul_mod_self_left, Nat.mod_eq_of_lt s.hand_lt])

/-- After `m` passes with `m` at least the number of frames, every frame of the table has
its reference flag clear and is otherwise as it was. -/
theorem passMany_all_visited (s : BufMgr) (m : Nat) (hm : s.numBufs ≤ m) :
    (∀ i, i < s.numBufs →
      (s.passMany m).bufTable i = { s.bufTable i with refbit := false }) ∧
    (∀ i, s.numBufs ≤ i → (s.passMany m).bufTable i = s.bufTable i) := by
  have hn : 0 < s.numBufs := Nat.zero_lt_of_lt s.hand_lt
  constructor
  · intro i hi
    obtain ⟨u, h1, h2, h3⟩ := clock_offset_exists s.hand_lt hi
    obtain ⟨w, rfl⟩ : ∃ w, u = w + 1 := ⟨u - 1, by omega⟩
    have := passMany_bufTable_visited s m w (by omega)
    rw [h3] at this
    exact this
  · intro i hi
    exact passMany_bufTable_of_not_visited s m i (fun t _ h => by
      have := Nat.mod_lt (s.clockHand + (t + 1)) hn
      omega)

/-- When some frame is not valid, or some frame other than the one under the hand is
unpinned, or the frame under the hand is unpinned with its reference flag clear, the
sweep does not end in the exhaustion return: it stops at an eligible frame during one of
its two revolutions. -/
theorem allocBuf_not_exhausted (io : FileOps W) (frame : Nat) (s : BufMgr) (e : Env W)
    (r : Status × Nat × BufMgr × Env W) (hr : s.allocBuf io frame e = some r)
    (hnc : ¬((∀ i, i < s.numBufs → (s.bufTable i).valid = true) ∧
      (∀ i, i < s.numBufs → i ≠ s.clockHand → (s.bufTable i).pinCnt ≠ 0) ∧
      ((s.bufTable s.clockHand).pinCnt ≠ 0 ∨ (s.bufTable s.clockHand).refbit = true))) :
    ¬(r.1 = Status.BUFFEREXCEEDED ∧ r.2.2.2.trace = e.trace) := by
  have hn : 0 < s.numBufs := Nat.zero_lt_of_lt s.hand_lt
  by_cases hex : ∃ j, j < s.numBufs ∧ (s.bufTable j).eligible = true
  · obtain ⟨t, ht1, htn, hel, hbusy⟩ := first_eligible_exists s hex
    obtain ⟨m, rfl⟩ : ∃ m, t = m + 1 := ⟨t - 1, by omega⟩
    have hrun := allocBufLoop_first_eligible io s.clockHand frame e m 0
      (2 * s.numBufs - (m + 1)) s s.hand_lt
      (by rw [Nat.add_zero, Nat.mod_eq_of_lt s.hand_lt]) (by omega) (by omega)
      (fun u hu => hbusy (u + 1) (by omega) (by omega)) hel
    rw [show m + (2 * s.numBufs - (m + 1) + 1) = 2 * s.numBufs by omega, Nat.zero_div] at hrun
    unfold BufMgr.allocBuf at hr
    rw [hrun] at hr
    exact stop_result_not_exhaustion io frame _ _ _ _ e r (Option.some.inj hr).symm
  · have hall : ∀ j, j < s.numBufs → (s.bufTable j).eligible = false := by
      intro j hj
      by_contra h
      exact hex ⟨j, hj, by simpa using h⟩
    have hval : ∀ i, i < s.numBufs → (s.bufTable i).valid = true :=
      fun i hi => ((eligible_false_iff _).1 (hall i hi)).1
    have hhand : (s.bufTable s.clockHand).pinCnt ≠ 0 ∨
        (s.bufTable s.clockHand).refbit = true :=
      ((eligible_false_iff _).1 (hall _ s.hand_lt)).2.symm
    have hfree : ∃ i, i < s.numBufs ∧ i ≠ s.clockHand ∧ (s.bufTable i).pinCnt = 0 := by
      by_contra h
      exact hnc ⟨hval, fun i hi hne hp => h ⟨i, hi, hne, hp⟩, hhand⟩
    obtain ⟨i, hi, hne, hp0⟩ := hfree
    -- first revolution: every frame is passed over
    have hpass := allocBufLoop_passMany io s.clockHand frame e s.numBufs 0 s.numBufs s
      s.hand_lt (by rw [Nat.add_zero, Nat.mod_eq_of_lt s.hand_lt]) (by omega) (by
        intro t ht
        rw [passMany_bufTable_of_not_visited s t _
          (fun x hx => (clock_pos_ne (by omega) (by omega)).symm)]
        exact hall _ (Nat.mod_lt _ hn))
    rw [Nat.zero_add, Nat.zero_div, Nat.div_self hn] at hpass
    -- the manager after the first revolution
    have hn1 : (s.passMany s.numBufs).numBufs = s.numBufs := passMany_numBufs s _
    have hc1 : (s.passMany s.numBufs).clockHand = s.clockHand := by
      rw [passMany_clockHand, Nat.add_mod_right, Nat.mod_eq_of_lt s.hand_lt]
    have htab := (passMany_all_visited s s.numBufs (Nat.le_refl _)).1
    have hex1 : ∃ j, j < (s.passMany s.numBufs).numBufs ∧
        ((s.passMany s.numBufs).bufTable j).eligible = true := by
      refine ⟨i, by rw [hn1]; exact hi, ?_⟩
      rw [htab i hi, eligible_true_iff]
      exact Or.inr ⟨rfl, hp0⟩
    obtain ⟨t, ht1, htn, hel, hbusy⟩ := first_eligible_exists _ hex1
    rw [hn1, hc1] at hel hbusy
    rw [hn1] at htn
    obtain ⟨u, hu1, hu2, hu3⟩ := clock_offset_exists s.hand_lt hi
    have hun : u < s.numBufs := by
      rcases Nat.lt_or_ge u s.numBufs with h | h
      · exact h
      · have : u = s.numBufs := by omega
        subst this
        rw [Nat.add_mod_right, Nat.mod_eq_of_lt s.hand_lt] at hu3
        exact absurd hu3.symm hne
    have htu : t ≤ u := by
      by_contra h
      have hb := hbusy u hu1 (by omega)
      rw [hu3, htab i hi, eligible_false_iff] at hb
      rcases hb.2 with h1 | h1
      · exact absurd h1 (by simp)
      · exact h1 hp0
    obtain ⟨m, rfl⟩ : ∃ m, t = m + 1 := ⟨t - 1, by omega⟩
    have hrun := allocBufLoop_first_eligible io s.clockHand frame e m s.numBufs
      (s.numBufs - (m + 1)) (s.passMany s.numBufs) (by rw [hn1]; exact s.hand_lt)
      (by rw [hn1, hc1, Nat.add_mod_right, Nat.mod_eq_of_lt s.hand_lt])
      (by rw [hn1]; omega) (by rw [hn1]; omega)
      (fun x hx => by rw [hn1, hc1]; exact hbusy (x + 1) (by omega) (by omega))
      (by rw [hn1, hc1]; exact hel)
    rw [hn1, show m + (s.numBufs - (m + 1) + 1) = s.numBufs by omega, Nat.div_self hn]
      at hrun
    unfold BufMgr.allocBuf at hr
    rw [show 2 * s.numBufs = s.numBufs + s.numBufs by omega, hpass, hrun] at hr
    exact stop_result_not_exhaustion io frame _ _ _ _ e r (Option.some.inj hr).symm

/-- C19. `allocBuf` takes its `BUFFEREXCEEDED` return (status `BUFFEREXCEEDED` with no
call made to the file or the index; every other return with that status comes from the
victim's write-back and records the call) if and only if every frame is valid, every
frame other than the one under the clock hand at entry has a pin count above 0, and the
frame under the hand has a pin count above 0 or its reference flag set.  In that case
the hand is back where it started, `frame` is untouched, and every frame has its
reference flag clear and is otherwise unchanged: the frame under the hand at entry has
lost its flag without being looked at again. -/
theorem allocBuf_exceeded_iff (io : FileOps W) (frame : Nat) (s : BufMgr) (e : Env W) :
    ((∃ r, s.allocBuf io frame e = some r ∧ r.1 = Status.BUFFEREXCEEDED ∧
        r.2.2.2.trace = e.trace) ↔
      ((∀ i, i < s.numBufs → (s.bufTable i).valid = true) ∧
        (∀ i, i < s.numBufs → i ≠ s.clockHand → 0 < (s.bufTable i).pinCnt) ∧
        (0 < (s.bufTable s.clockHand).pinCnt ∨ (s.bufTable s.clockHand).refbit = true))) ∧
    (((∀ i, i < s.numBufs → (s.bufTable i).valid = true) ∧
        (∀ i, i < s.numBufs → i ≠ s.clockHand → 0 < (s.bufTable i).pinCnt) ∧
        (0 < (s.bufTable s.clockHand).pinCnt ∨ (s.bufTable s.clockHand).refbit = true)) →
      ∃ sa, s.allocBuf io frame e = some (Status.BUFFEREXCEEDED, frame, sa, e) ∧
        sa.clockHand = s.clockHand ∧ sa.numBufs = s.numBufs ∧
        sa.hashTable = s.hashTable ∧ sa.bufPool = s.bufPool ∧
        (∀ i, i < s.numBufs → sa.bufTable i = { s.bufTable i with refbit := false }) ∧
        (∀ i, s.numBufs ≤ i → sa.bufTable i = s.bufTable i)) := by
  have hn : 0 < s.numBufs := Nat.zero_lt_of_lt s.hand_lt
  have hcnv : ((∀ i, i < s.numBufs → (s.bufTable i).valid = true) ∧
        (∀ i, i < s.numBufs → i ≠ s.clockHand → 0 < (s.bufTable i).pinCnt) ∧
        (0 < (s.bufTable s.clockHand).pinCnt ∨ (s.bufTable s.clockHand).refbit = true)) ↔
      ((∀ i, i < s.numBufs → (s.bufTable i).valid = true) ∧
        (∀ i, i < s.numBufs → i ≠ s.clockHand → (s.bufTable i).pinCnt ≠ 0) ∧
        ((s.bufTable s.clockHand).pinCnt ≠ 0 ∨ (s.bufTable s.clockHand).refbit = true)) := by
    simp only [Nat.pos_iff_ne_zero]
  have hfwd : ((∀ i, i < s.numBufs → (s.bufTable i).valid = true) ∧
        (∀ i, i < s.numBufs → i ≠ s.clockHand → 0 < (s.bufTable i).pinCnt) ∧
        (0 < (s.bufTable s.clockHand).pinCnt ∨ (s.bufTable s.clockHand).refbit = true)) →
      ∃ sa, s.allocBuf io frame e = some (Status.BUFFEREXCEEDED, frame, sa, e) ∧
        sa.clockHand = s.clockHand ∧ sa.numBufs = s.numBufs ∧
        sa.hashTable = s.hashTable ∧ sa.bufPool = s.bufPool ∧
        (∀ i, i < s.numBufs → sa.bufTable i = { s.bufTable i with refbit := false }) ∧
        (∀ i, s.numBufs ≤ i → sa.bufTable i = s.bufTable i) := by
    intro hc
    obtain ⟨hval, hpin, hhand⟩ := hcnv.1 hc
    obtain ⟨v1, v2⟩ := passMany_all_visited s (2 * s.numBufs - 1) (by omega)
    refine ⟨_, allocBuf_exhausted io frame s e hval hpin hhand, ?_,
      passMany_numBufs s _, passMany_hashTable s _, passMany_bufPool s _, v1, v2⟩
    rw [advanceClock_clockHand, passMany_clockHand, passMany_numBufs, Nat.mod_add_mod,
      show s.clockHand + (2 * s.numBufs - 1) + 1 = s.clockHand + s.numBufs * 2 by omega,
      Nat.add_mul_mod_self_left, Nat.mod_eq_of_lt s.hand_lt]
  refine ⟨⟨?_, fun hc => ?_⟩, hfwd⟩
  · rintro ⟨r, hr, h1, h2⟩
    by_contra hnc
    exact allocBuf_not_exhausted io frame s e r hr (fun h => hnc (hcnv.2 h)) ⟨h1, h2⟩
  · obtain ⟨sa, hsa, _⟩ := hfwd hc
    exact ⟨_, hsa, rfl, rfl⟩

/-- In `handReleasedMgr` the frame under the hand is unpinned with its reference flag
set and the other frame is pinned: `allocBuf` returns `BUFFEREXCEEDED` without a call,
the hand is back on frame 1, and frame 1, still unpinned, has lost its flag. -/
theorem allocBuf_exceeded_iff_witness :
    ((∀ i, i < handReleasedMgr.numBufs → (handReleasedMgr.bufTable i).valid = true) ∧
      (∀ i, i < handReleasedMgr.numBufs → i ≠ handReleasedMgr.clockHand →
        0 < (handReleasedMgr.bufTable i).pinCnt) ∧
      (0 < (handReleasedMgr.bufTable handReleasedMgr.clockHand).pinCnt ∨
        (handReleasedMgr.bufTable handReleasedMgr.clockHand).refbit = true)) ∧
    ∃ sa, handReleasedMgr.allocBuf okFiles 0 emptyEnv =
        some (Status.BUFFEREXCEEDED, 0, sa, emptyEnv) ∧
      sa.clockHand = 1 ∧ (sa.bufTable 1).refbit = false ∧ (sa.bufTable 1).pinCnt = 0 ∧
      (sa.bufTable 1).valid = true := by
  have hc : (∀ i, i < handReleasedMgr.numBufs → (handReleasedMgr.bufTable i).valid = true) ∧
      (∀ i, i < handReleasedMgr.numBufs → i ≠ handReleasedMgr.clockHand →
        0 < (handReleasedMgr.bufTable i).pinCnt) ∧
      (0 < (handReleasedMgr.bufTable handReleasedMgr.clockHand).pinCnt ∨
        (handReleasedMgr.bufTable handReleasedMgr.clockHand).refbit = true) :=
    ⟨by decide, by decide, by decide⟩
  obtain ⟨sa, h1, h2, _, _, _, h6, _⟩ :=
    (allocBuf_exceeded_iff okFiles 0 handReleasedMgr emptyEnv).2 hc
  refine ⟨hc, sa, h1, h2, ?_, ?_, ?_⟩
  · rw [h6 1 (by decide)]
  · rw [h6 1 (by decide)]
    decide
  · rw [h6 1 (by decide)]
    decide

/-! ## The full-pool scenario -/

/-- The manager after a fetch that missed the index, found a frame and read the page. -/
theorem readPage_miss_state (io : FileOps W) (file : FilePtr) (pageNo : Int) (s : BufMgr)
    (e : Env W) (hm : s.hashTable.map file pageNo = none) (f : Nat) (sa : BufMgr)
    (ea : Env W) (ha : s.allocBuf io 0 e = some (Status.OK, f, sa, ea))
    (hrd : (io.readPage file pageNo (sa.bufPool f) ea.disk).1 = Status.OK) :
    ∃ s1 e1, s.readPage io file pageNo e = some (Status.OK, some f, s1, e1) ∧
      s1.clockHand = sa.clockHand ∧ s1.numBufs = sa.numBufs ∧
      s1.bufTable f = (sa.bufTable f).Set file pageNo ∧
      (∀ g, g ≠ f → s1.bufTable g = sa.bufTable g) ∧
      (∀ fl p, s1.hashTable.map fl p =
        if fl = file ∧ p = pageNo then some f else sa.hashTable.map fl p) :=
  ⟨_, _, readPage_of_miss io file pageNo s e hm f sa ea ha hrd, rfl, rfl,
    Function.update_same _ _ _, fun _ hg => Function.update_noteq hg _ _, fun _ _ => rfl⟩

theorem construct_filled (keys : Nat → FilePtr × Int) (N : Nat) (hN : 0 < N) :
    Filled keys 0 (BufMgr.construct N hN) :=
  ⟨(Nat.mod_eq_of_lt (Nat.sub_lt hN Nat.one_pos)).symm, fun i hi => absurd hi (Nat.not_lt_zero i),
    fun _ _ => rfl, fun _ _ _ => rfl⟩

/-- Fetching the next page into a pool filled up to frame `k - 1` puts it in frame
`k`. -/
theorem fetch_step (io : FileOps W) (keys : Nat → FilePtr × Int) (k : Nat) (s : BufMgr)
    (e : Env W) (hf : Filled keys k s) (hk : k < s.numBufs)
    (hnew : ∀ i, i < k → keys i ≠ keys k)
    (hread : ∀ c w, (io.readPage (keys k).1 (keys k).2 c w).1 = Status.OK) :
    ∃ s1 e1, s.readPage io (keys k).1 (keys k).2 e = some (Status.OK, some k, s1, e1) ∧
      Filled keys (k + 1) s1 ∧ s1.numBufs = s.numBufs := by
  obtain ⟨hh, hfr, hinv, hnone⟩ := hf
  have hm : s.hashTable.map (keys k).1 (keys k).2 = none :=
    hnone _ _ (fun i hi => hnew i hi)
  have hv : k = (s.clockHand + 1) % s.numBufs := by
    rw [hh, Nat.mod_add_mod, show s.numBufs - 1 + k + 1 = k + s.numBufs by omega,
      Nat.add_mod_right, Nat.mod_eq_of_lt hk]
  have hkinv := hinv k (Nat.le_refl k)
  obtain ⟨sa, ea, h1, h2, _, h4, h5, h6, _, h8⟩ :=
    allocBuf_stop_at io 0 s e 1 k (Nat.le_refl 1) (by omega) hv
      ((eligible_true_iff _).2 (Or.inl hkinv)) (fun u h1 h2 => by omega)
      (fun hval => by rw [hkinv] at hval; exact absurd hval (by decide))
  have hsak : sa.bufTable k = s.bufTable k := by
    rw [h5, if_neg (by rw [hkinv]; decide)]
  have hmap : ∀ fl p, sa.hashTable.map fl p = s.hashTable.map fl p := by
    intro fl p
    rw [h6, if_neg (by rw [hkinv]; simp)]
  have hoth : ∀ i, i ≠ k → sa.bufTable i = s.bufTable i :=
    fun i hi => h4 i hi (fun u h1 h2 => by omega)
  obtain ⟨s1, e1, r1, r2, r3, r4, r5, r6⟩ :=
    readPage_miss_state io _ _ s e hm k sa ea h1 (hread _ _)
  refine ⟨s1, e1, r1, ⟨?_, ?_, ?_, ?_⟩, r3.trans h8⟩
  · rw [r2, h2, r3, h8, show s.numBufs - 1 + (k + 1) = k + s.numBufs by omega,
      Nat.add_mod_right, Nat.mod_eq_of_lt hk]
  · intro i hi
    rcases Nat.lt_succ_iff_lt_or_eq.1 hi with hlt | heq
    · have hne : i ≠ k := Nat.ne_of_lt hlt
      obtain ⟨a1, a2, a3, a4, a5, a6, a7⟩ := hfr i hlt
      rw [r5 i hne, hoth i hne, r6, hmap]
      have hkey : ¬((keys i).1 = (keys k).1 ∧ (keys i).2 = (keys k).2) :=
        fun h => hnew i hlt (Prod.ext h.1 h.2)
      rw [if_neg hkey]
      exact ⟨a1, a2, a3, a4, a5, a6, a7⟩
    · subst heq
      rw [r4, r6, if_pos ⟨rfl, rfl⟩]
      exact ⟨rfl, rfl, rfl, rfl, rfl, rfl, rfl⟩
  · intro i hi
    have hne : i ≠ k := by omega
    rw [r5 i hne, hoth i hne]
    exact hinv i (by omega)
  · intro f p hfp
    have hkey : ¬(f = (keys k).1 ∧ p = (keys k).2) :=
      fun h => hfp k (Nat.lt_succ_self k) (Prod.ext h.1.symm h.2.symm)
    rw [r6, if_neg hkey, hmap]
    exact hnone f p (fun i hi => hfp i (Nat.lt_succ_of_lt hi))

/-- Fetching `k` distinct pages into a fresh pool of at least `k` frames succeeds and
fills the frames `0`, ..., `k - 1` in order. -/
theorem fetchAll_filled (io : FileOps W) (keys : Nat → FilePtr × Int) (N : Nat)
    (hN : 0 < N) (e : Env W) (k : Nat) (hk : k ≤ N)
    (hinj : ∀ i j, i < k → j < k → keys i = keys j → i = j)
    (hread : ∀ i, i < k → ∀ c w, (io.readPage (keys i).1 (keys i).2 c w).1 = Status.OK) :
    ∃ s1 e1, fetchAll io keys k (BufMgr.construct N hN) e = some (s1, e1) ∧
      Filled keys k s1 ∧ s1.numBufs = N := by
  induction k with
  | zero => exact ⟨_, _, rfl, construct_filled keys N hN, rfl⟩
  | succ k ih =>
    obtain ⟨s0, e0, h1, h2, h3⟩ := ih (by omega)
      (fun i j hi hj => hinj i j (by omega) (by omega))
      (fun i hi => hread i (by omega))
    obtain ⟨s1, e1, g1, g2, g3⟩ := fetch_step io keys k s0 e0 h2 (by omega)
      (fun i hi h => by
        have := hinj i k (by omega) (by omega) h
        omega)
      (hread k (by omega))
    refine ⟨s1, e1, ?_, g2, g3.trans h3⟩
    rw [fetchAll, h1]
    simp only [g1]
    rfl

/-- The manager `allocBuf` leaves when it takes its exhaustion return. -/
theorem allocBuf_exhausted_state (io : FileOps W) (frame : Nat) (s : BufMgr) (e : Env W)
    (hval : ∀ i, i < s.numBufs → (s.bufTable i).valid = true)
    (hpin : ∀ i, i < s.numBufs → i ≠ s.clockHand → (s.bufTable i).pinCnt ≠ 0)
    (hhand : (s.bufTable s.clockHand).pinCnt ≠ 0 ∨ (s.bufTable s.clockHand).refbit = true) :
    ∃ sa, s.allocBuf io frame e = some (Status.BUFFEREXCEEDED, frame, sa, e) ∧
      sa.clockHand = s.clockHand ∧ sa.numBufs = s.numBufs ∧
      sa.hashTable = s.hashTable ∧ sa.bufPool = s.bufPool ∧
      (∀ i, i < s.numBufs → sa.bufTable i = { s.bufTable i with refbit := false }) ∧
      (∀ i, s.numBufs ≤ i → sa.bufTable i = s.bufTable i) := by
  have hn : 0 < s.numBufs := Nat.zero_lt_of_lt s.hand_lt
  obtain ⟨v1, v2⟩ := passMany_all_visited s (2 * s.numBufs - 1) (by omega)
  refine ⟨_, allocBuf_exhausted io frame s e hval hpin hhand, ?_,
    passMany_numBufs s _, passMany_hashTable s _, passMany_bufPool s _, v1, v2⟩
  rw [advanceClock_clockHand, passMany_clockHand, passMany_numBufs, Nat.mod_add_mod,
    show s.clockHand + (2 * s.numBufs - 1) + 1 = s.clockHand + s.numBufs * 2 by omega,
    Nat.add_mul_mod_self_left, Nat.mod_eq_of_lt s.hand_lt]

/-- With the pool full of pinned pages, the fetch of a further page fails with
`BUFFEREXCEEDED`; after one of the pages is released, the fetch succeeds and the new page
takes the frame of the released one. -/
theorem full_pool_release (io : FileOps W) (keys : Nat → FilePtr × Int) (N : Nat)
    (s1 : BufMgr) (e1 : Env W) (hf : Filled keys N s1) (hn : s1.numBufs = N)
    (hinj : ∀ i j, i ≤ N → j ≤ N → keys i = keys j → i = j)
    (hread : ∀ c w, (io.readPage (keys N).1 (keys N).2 c w).1 = Status.OK) :
    ∃ s2, s1.readPage io (keys N).1 (keys N).2 e1 =
        some (Status.BUFFEREXCEEDED, none, s2, e1) ∧
      ∀ j, j < N → ∀ dirty : Bool,
        (dirty = true → ∀ c w, (io.writePage (keys j).1 (keys j).2 c w).1 = Status.OK) →
        ∃ s3, s2.unPinPage (keys j).1 (keys j).2 dirty = (Status.OK, s3) ∧
          ∃ s4 e4, s3.readPage io (keys N).1 (keys N).2 e1 =
              some (Status.OK, some j, s4, e4) ∧
            s4.hashTable.map (keys N).1 (keys N).2 = some j ∧
            (s4.bufTable j).file = (keys N).1 ∧ (s4.bufTable j).pageNo = (keys N).2 ∧
            (s4.bufTable j).valid = true ∧ (s4.bufTable j).pinCnt = 1 ∧
            s4.hashTable.map (keys j).1 (keys j).2 = none ∧
            (∀ i, i < N → i ≠ j →
              s4.hashTable.map (keys i).1 (keys i).2 = some i ∧
              (s4.bufTable i).valid = true ∧ (s4.bufTable i).pinCnt = 1 ∧
              (s4.bufTable i).file = (keys i).1 ∧ (s4.bufTable i).pageNo = (keys i).2) ∧
            ∃ s5, s4.readPage io (keys j).1 (keys j).2 e4 =
              some (Status.BUFFEREXCEEDED, none, s5, e4) := by
  obtain ⟨hh, hfr, _, hnone⟩ := hf
  have hN : 0 < N := hn ▸ Nat.zero_lt_of_lt s1.hand_lt
  have hmD : s1.hashTable.map (keys N).1 (keys N).2 = none :=
    hnone _ _ (fun i hi h => by
      have := hinj i N (by omega) (Nat.le_refl N) h
      omega)
  have hhand1 : s1.clockHand = N - 1 := by
    rw [hh, hn, show N - 1 + N = N - 1 + N * 1 by omega, Nat.add_mul_mod_self_left,
      Nat.mod_eq_of_lt (by omega)]
  obtain ⟨s2, a1, a2, a3, a4, _, a6, _⟩ := allocBuf_exhausted_state io 0 s1 e1
    (fun i hi => (hfr i (hn ▸ hi)).1)
    (fun i hi _ => by rw [(hfr i (hn ▸ hi)).2.1]; decide)
    (Or.inl (by rw [(hfr _ (hn ▸ s1.hand_lt)).2.1]; decide))
  refine ⟨s2, readPage_of_allocBuf_fail io _ _ s1 e1 hmD _ _ _ _ a1 (by decide), ?_⟩
  intro j hj dirty hwrite
  have hjn : j < s1.numBufs := hn ▸ hj
  obtain ⟨b1, b2, _, b4, b5, b6, b7⟩ := hfr j hj
  have hs2j : s2.bufTable j = { s1.bufTable j with refbit := false } := a6 j hjn
  have hm2 : s2.hashTable.map (keys j).1 (keys j).2 = some j := by rw [a4]; exact b7
  obtain ⟨s3, c1, c2, _, c4, c5, c6, _, c8⟩ :=
    unPinPage_success (keys j).1 (keys j).2 dirty s2 j hm2 (by rw [hs2j]; show 0 < _; rw [b2]; decide)
  refine ⟨s3, c1, ?_⟩
  -- the frames of the manager in which the second fetch of the new page starts
  have hn3 : s3.numBufs = N := c8.trans (a3.trans hn)
  have hh3 : s3.clockHand = N - 1 := c6.trans (a2.trans hhand1)
  have hpos : ∀ u, 1 ≤ u → u ≤ N → (s3.clockHand + u) % s3.numBufs = u - 1 := by
    intro u h1 h2
    rw [hh3, hn3, show N - 1 + u = u - 1 + N by omega, Nat.add_mod_right,
      Nat.mod_eq_of_lt (by omega)]
  have hs3j : s3.bufTable j =
      { s1.bufTable j with refbit := false, pinCnt := 0,
                           dirty := (s1.bufTable j).dirty || dirty } := by
    rw [c2, hs2j]
    simp [b2]
  have hs3i : ∀ i, i < N → i ≠ j → s3.bufTable i = { s1.bufTable i with refbit := false } :=
    fun i hi hne => (c4 i hne).trans (a6 i (hn ▸ hi))
  have hmap3 : ∀ fl p, s3.hashTable.map fl p = s1.hashTable.map fl p := by
    intro fl p
    rw [c5, a4]
  have hv3 : (s3.bufTable j).valid = true := by rw [hs3j]; exact b1
  have hf3 : (s3.bufTable j).file = (keys j).1 := by rw [hs3j]; exact b5
  have hp3 : (s3.bufTable j).pageNo = (keys j).2 := by rw [hs3j]; exact b6
  have hd3 : (s3.bufTable j).dirty = dirty := by
    rw [hs3j]
    show ((s1.bufTable j).dirty || dirty) = dirty
    rw [b4, Bool.false_or]
  obtain ⟨sa, ea, d1, d2, d3, d4, d5, d6, _, d8⟩ :=
    allocBuf_stop_at io 0 s3 e1 (j + 1) j (by omega) (by omega)
      (by rw [hpos (j + 1) (by omega) (by omega)]; rfl)
      (by rw [hs3j, eligible_true_iff]; exact Or.inr ⟨rfl, rfl⟩)
      (fun u h1 h2 => by
        rw [hpos u h1 (by omega), hs3i (u - 1) (by omega) (by omega), eligible_false_iff]
        exact ⟨(hfr (u - 1) (by omega)).1, Or.inr (by
          show (s1.bufTable (u - 1)).pinCnt ≠ 0
          rw [(hfr (u - 1) (by omega)).2.1]; decide)⟩)
      (fun _ => by
        rw [hf3, hp3]
        refine ⟨fun hd => ?_, ?_⟩
        · rw [hd3] at hd
          exact hwrite hd _ _
        · rw [hmap3, b7]
          exact Option.some_ne_none j)
  have hmapa : ∀ fl p, sa.hashTable.map fl p =
      if fl = (keys j).1 ∧ p = (keys j).2 then none else s1.hashTable.map fl p := by
    intro fl p
    rw [d6, hf3, hp3, hmap3]
    simp only [hv3, true_and]
  have hDj : ¬((keys N).1 = (keys j).1 ∧ (keys N).2 = (keys j).2) := fun h => by
    have := hinj N j (Nat.le_refl N) (by omega) (Prod.ext h.1 h.2)
    omega
  have hmaD : s3.hashTable.map (keys N).1 (keys N).2 = none := by rw [hmap3]; exact hmD
  obtain ⟨s4, e4, r1, r2, r3, r4, r5, r6⟩ :=
    readPage_miss_state io _ _ s3 e1 hmaD j sa ea d1 (hread _ _)
  have hothers : ∀ i, i < N → i ≠ j →
      s4.hashTable.map (keys i).1 (keys i).2 = some i ∧
      (s4.bufTable i).valid = true ∧ (s4.bufTable i).pinCnt = 1 ∧
      (s4.bufTable i).file = (keys i).1 ∧ (s4.bufTable i).pageNo = (keys i).2 := by
    intro i hi hne
    obtain ⟨g1, g2, _, _, g5, g6, g7⟩ := hfr i hi
    have hiN : ¬((keys i).1 = (keys N).1 ∧ (keys i).2 = (keys N).2) := fun h => by
      have := hinj i N (by omega) (Nat.le_refl N) (Prod.ext h.1 h.2)
      omega
    have hij : ¬((keys i).1 = (keys j).1 ∧ (keys i).2 = (keys j).2) := fun h =>
      hne (hinj i j (by omega) (by omega) (Prod.ext h.1 h.2))
    have hsai : sa.bufTable i = { s1.bufTable i with refbit := false } := by
      by_cases hvis : ∃ u, 1 ≤ u ∧ u < j + 1 ∧ i = (s3.clockHand + u) % s3.numBufs
      · obtain ⟨u, h1, h2, h3⟩ := hvis
        rw [h3, d3 u h1 h2, ← h3, hs3i i hi hne]
      · rw [d4 i hne (fun u h1 h2 h3 => hvis ⟨u, h1, h2, h3⟩), hs3i i hi hne]
    rw [r6, if_neg hiN, hmapa, if_neg hij, r5 i hne, hsai]
    exact ⟨g7, g1, g2, g5, g6⟩
  have hs4j : s4.bufTable j = (sa.bufTable j).Set (keys N).1 (keys N).2 := r4
  have hPnone : s4.hashTable.map (keys j).1 (keys j).2 = none := by
    rw [r6, if_neg (fun h => hDj ⟨h.1.symm, h.2.symm⟩), hmapa, if_pos ⟨rfl, rfl⟩]
  have hn4 : s4.numBufs = N := r3.trans (d8.trans hn3)
  refine ⟨s4, e4, r1, by rw [r6, if_pos ⟨rfl, rfl⟩], by rw [hs4j]; rfl, by rw [hs4j]; rfl,
    by rw [hs4j]; rfl, by rw [hs4j]; rfl, hPnone, hothers, ?_⟩
  obtain ⟨s5, k1, _⟩ := allocBuf_exceeded_of_all_pinned io 0 s4 e4 (fun i hi => by
    rw [hn4] at hi
    by_cases hij : i = j
    · subst hij
      rw [hs4j]
      exact ⟨rfl, Nat.one_pos⟩
    · obtain ⟨_, g2, g3, _⟩ := hothers i hi hij
      exact ⟨g2, by rw [g3]; exact Nat.one_pos⟩)
  exact ⟨s5, readPage_of_allocBuf_fail io _ _ s4 e4 hPnone _ _ _ _ k1 (by decide)⟩

/-- C16. For every capacity `N ≥ 1` and any `N + 1` distinct pages `keys 0`, ...,
`keys N` whose disk reads succeed: fetching `keys 0`, ..., `keys (N - 1)` into a fresh
manager of `N` frames succeeds and leaves page `i` in frame `i`, pinned once; the fetch
of the further page `D = keys N` then returns `BUFFEREXCEEDED` (no call is made: the
world is unchanged); and for any `j < N`, after `unPinPage` of `P = keys j` (returning
`OK`; with `dirty` set the write-back of `P` has to succeed) the fetch of `D` returns
`OK` with frame `j`, the frame `P` occupied: the index maps `D` to `j`, frame `j` holds
`D` pinned once, `P` is no longer in the index, the other `N - 1` pages are still in
the index and in their frames, valid with pin count 1, and a later fetch of `P` is not
served from the pool (with all frames pinned again it returns `BUFFEREXCEEDED`). -/
theorem full_pool_scenario (io : FileOps W) (keys : Nat → FilePtr × Int) (N : Nat)
    (hN : 0 < N) (e : Env W)
    (hinj : ∀ i j, i ≤ N → j ≤ N → keys i = keys j → i = j)
    (hread : ∀ i, i ≤ N → ∀ c w, (io.readPage (keys i).1 (keys i).2 c w).1 = Status.OK) :
    ∃ s1 e1, fetchAll io keys N (BufMgr.construct N hN) e = some (s1, e1) ∧
      (∀ i, i < N → s1.hashTable.map (keys i).1 (keys i).2 = some i ∧
        (s1.bufTable i).valid = true ∧ (s1.bufTable i).pinCnt = 1) ∧
      ∃ s2, s1.readPage io (keys N).1 (keys N).2 e1 =
          some (Status.BUFFEREXCEEDED, none, s2, e1) ∧
        ∀ j, j < N → ∀ dirty : Bool,
          (dirty = true →
            ∀ c w, (io.writePage (keys j).1 (keys j).2 c w).1 = Status.OK) →
          ∃ s3, s2.unPinPage (keys j).1 (keys j).2 dirty = (Status.OK, s3) ∧
            ∃ s4 e4, s3.readPage io (keys N).1 (keys N).2 e1 =
                some (Status.OK, some j, s4, e4) ∧
              s4.hashTable.map (keys N).1 (keys N).2 = some j ∧
              (s4.bufTable j).file = (keys N).1 ∧ (s4.bufTable j).pageNo = (keys N).2 ∧
              (s4.bufTable j).valid = true ∧ (s4.bufTable j).pinCnt = 1 ∧
              s4.hashTable.map (keys j).1 (keys j).2 = none ∧
              (∀ i, i < N → i ≠ j →
                s4.hashTable.map (keys i).1 (keys i).2 = some i ∧
                (s4.bufTable i).valid = true ∧ (s4.bufTable i).pinCnt = 1 ∧
                (s4.bufTable i).file = (keys i).1 ∧
                (s4.bufTable i).pageNo = (keys i).2) ∧
              ∃ s5, s4.readPage io (keys j).1 (keys j).2 e4 =
                some (Status.BUFFEREXCEEDED, none, s5, e4) := by
  obtain ⟨s1, e1, h1, h2, h3⟩ := fetchAll_filled io keys N hN e N (Nat.le_refl N)
    (fun i j hi hj => hinj i j (by omega) (by omega)) (fun i hi => hread i (by omega))
  refine ⟨s1, e1, h1, fun i hi => ?_, ?_⟩
  · obtain ⟨g1, g2, _, _, _, _, g7⟩ := h2.2.1 i hi
    exact ⟨g7, g1, g2⟩
  · exact full_pool_release io keys N s1 e1 h2 h3 hinj (hread N (Nat.le_refl N))

/-- The spec's instance: a pool of 3 frames, the pages A, B, C = pages 10, 11, 12 of
file 1, then D = page 13.  After the three fetches the fetch of D fails with
`BUFFEREXCEEDED`; after `unPinPage` of A the fetch of D returns `OK` with frame 0, where
A was; A has left the index, B and C are still resident with pin count 1. -/
theorem full_pool_scenario_witness :
    (∀ i j, i ≤ 3 → j ≤ 3 → scenarioKeys i = scenarioKeys j → i = j) ∧
    ∃ s1 e1, fetchAll okFiles scenarioKeys 3 (BufMgr.construct 3 (by decide)) emptyEnv
        = some (s1, e1) ∧
      ∃ s2, s1.readPage okFiles 1 13 e1 = some (Status.BUFFEREXCEEDED, none, s2, e1) ∧
        ∃ s3, s2.unPinPage 1 10 false = (Status.OK, s3) ∧
          ∃ s4 e4, s3.readPage okFiles 1 13 e1 = some (Status.OK, some 0, s4, e4) ∧
            s4.hashTable.map 1 13 = some 0 ∧ s4.hashTable.map 1 10 = none ∧
            s4.hashTable.map 1 11 = some 1 ∧ (s4.bufTable 1).pinCnt = 1 ∧
            s4.hashTable.map 1 12 = some 2 ∧ (s4.bufTable 2).pinCnt = 1 := by
  have hinj : ∀ i j, i ≤ 3 → j ≤ 3 → scenarioKeys i = scenarioKeys j → i = j := by
    intro i j _ _ h
    have h2 : (10 : Int) + (i : Int) = 10 + (j : Int) := congrArg Prod.snd h
    omega
  refine ⟨hinj, ?_⟩
  obtain ⟨s1, e1, h1, _, s2, h3, h4⟩ :=
    full_pool_scenario okFiles scenarioKeys 3 (by decide) emptyEnv hinj
      (fun _ _ _ _ => rfl)
  obtain ⟨s3, k1, s4, e4, k2, k3, _, _, _, _, k8, k9, _⟩ :=
    h4 0 (by decide) false (fun h => absurd h (by decide))
  exact ⟨s1, e1, h1, s2, h3, s3, k1, s4, e4, k2, k3, k8,
    (k9 1 (by decide) (by decide)).1, (k9 1 (by decide) (by decide)).2.2.1,
    (k9 2 (by decide) (by decide)).1, (k9 2 (by decide) (by decide)).2.2.1⟩

/-! ## A fetch that follows a disposal -/

/-- When some frame `f` of the pool is not valid, `allocBuf` does not take its exhaustion
return, and it can fail only in the victim branch: at a valid frame `v` with pin count 0
and reference flag clear that the sweep meets before `f`, either because `v` is dirty and
its write-back fails (the status is that of the write, which is the only call made), or
because the removal of the key of `v` from the index fails. -/
theorem allocBuf_fail_victim (io : FileOps W) (frame : Nat) (s : BufMgr) (e : Env W)
    (f : Nat) (hf : f < s.numBufs) (hinv : (s.bufTable f).valid = false)
    (ra : Status × Nat × BufMgr × Env W) (hr : s.allocBuf io frame e = some ra)
    (hne : ra.1 ≠ Status.OK) :
    ∃ t u v, 1 ≤ t ∧ t < u ∧ u ≤ s.numBufs ∧ v = (s.clockHand + t) % s.numBufs ∧
      f = (s.clockHand + u) % s.numBufs ∧
      (s.bufTable v).valid = true ∧ (s.bufTable v).pinCnt = 0 ∧
      (s.bufTable v).refbit = false ∧
      (((s.bufTable v).dirty = true ∧
          ra.1 = (io.writePage (s.bufTable v).file (s.bufTable v).pageNo (s.bufPool v)
            e.disk).1 ∧
          ra.2.2.2.trace = e.trace ++
            [Event.writePage (s.bufTable v).file (s.bufTable v).pageNo (s.bufPool v)]) ∨
        (((s.bufTable v).dirty = true →
            (io.writePage (s.bufTable v).file (s.bufTable v).pageNo (s.bufPool v)
              e.disk).1 = Status.OK) ∧
          ra.1 = Status.HASHNOTFOUND ∧
          s.hashTable.map (s.bufTable v).file (s.bufTable v).pageNo = none)) := by
  have hn : 0 < s.numBufs := Nat.zero_lt_of_lt s.hand_lt
  have helf : (s.bufTable f).eligible = true := (eligible_true_iff _).2 (Or.inl hinv)
  obtain ⟨t, ht1, htn, hel, hbusy⟩ := first_eligible_exists s ⟨f, hf, helf⟩
  obtain ⟨u, hu1, hu2, hu3⟩ := clock_offset_exists s.hand_lt hf
  obtain ⟨m, rfl⟩ : ∃ m, t = m + 1 := ⟨t - 1, by omega⟩
  have hrun := allocBufLoop_first_eligible io s.clockHand frame e m 0
    (2 * s.numBufs - (m + 1)) s s.hand_lt
    (by rw [Nat.add_zero, Nat.mod_eq_of_lt s.hand_lt]) (by omega) (by omega)
    (fun x hx => hbusy (x + 1) (by omega) (by omega)) hel
  rw [show m + (2 * s.numBufs - (m + 1) + 1) = 2 * s.numBufs by omega, Nat.zero_div] at hrun
  unfold BufMgr.allocBuf at hr
  rw [hrun] at hr
  have hra := (Option.some.inj hr).symm
  obtain ⟨a1, a2, a3, a4, a5⟩ := passMany_advance s m (by omega)
  by_cases hv : (s.bufTable ((s.clockHand + (m + 1)) % s.numBufs)).valid = true
  · rw [if_pos hv] at hra
    obtain ⟨hr0, hp0⟩ : (s.bufTable ((s.clockHand + (m + 1)) % s.numBufs)).refbit = false ∧
        (s.bufTable ((s.clockHand + (m + 1)) % s.numBufs)).pinCnt = 0 := by
      rcases (eligible_true_iff _).1 hel with h | h
      · rw [hv] at h
        exact absurd h (by decide)
      · exact h
    have hlt : m + 1 < u := by
      rcases Nat.lt_trichotomy (m + 1) u with h | h | h
      · exact h
      · rw [h, hu3, hinv] at hv
        exact absurd hv (by decide)
      · have := hbusy u hu1 h
        rw [hu3, helf] at this
        exact absurd this (by decide)
    refine ⟨m + 1, u, _, ht1, hlt, hu2, rfl, hu3.symm, hv, hp0, hr0, ?_⟩
    rcases allocBufVictim_cases io frame (s.passMany m).advanceClock e with
      ⟨c1, _, c3⟩ | ⟨c1, ew, _, c2⟩
    · rw [a1, a2] at c1
      rw [a1, a2, a3] at c3
      rw [c3] at hra
      rw [hra]
      exact Or.inl ⟨c1, rfl, rfl⟩
    · rw [a1, a2, a3] at c1
      rcases c2 with ⟨c3, c4⟩ | ⟨_, c4⟩
      · rw [a1, a2, a4] at c3
        rw [c4] at hra
        rw [hra]
        exact Or.inr ⟨c1, rfl, c3⟩
      · rw [c4] at hra
        rw [hra] at hne
        exact absurd rfl hne
  · rw [if_neg hv] at hra
    rw [hra] at hne
    exact absurd rfl hne

/-- C13 (as amended). When `(file, pageNo)` is resident in frame `f`, `disposePage`
returns exactly the status of the file's `disposePage`; afterwards the index has no entry
for `(file, pageNo)`, frame `f` is free (not valid, no owner, pin count 0, not dirty),
the other frames, the other index entries, the pool and the clock hand are unchanged,
and the calls issued are the index removal and the file's `disposePage` (no `writePage`).
A following `readPage(file, pageNo)` takes the miss path: it calls `allocBuf`, returns
the failure of `allocBuf` if there is one, and otherwise reads the page from the file
into the frame `allocBuf` returned.  With `f` a frame of the pool, `allocBuf` can fail
there only at a victim `v` (valid, pin count 0) that the sweep meets before the freed
frame `f`: `v` is dirty and its write-back fails, or the removal of its key from the
index fails.  When the page is not resident the frame table and the index are unchanged
and the status is again that of the file's `disposePage`.  The disk after the call is
the one the file's `disposePage` left: no other call has touched it. -/
theorem disposePage_effect (io : FileOps W) (file : FilePtr) (pageNo : Int) (s : BufMgr)
    (e : Env W) :
    (s.disposePage io file pageNo e).1 = (io.disposePage file pageNo e.disk).1 ∧
    (s.disposePage io file pageNo e).2.2.trace =
      e.trace ++ [Event.indexRemove file pageNo, Event.disposePage file pageNo] ∧
    (s.disposePage io file pageNo e).2.1.hashTable.map file pageNo = none ∧
    (∀ fl p, ¬(fl = file ∧ p = pageNo) →
      (s.disposePage io file pageNo e).2.1.hashTable.map fl p = s.hashTable.map fl p) ∧
    (s.disposePage io file pageNo e).2.1.bufPool = s.bufPool ∧
    (s.disposePage io file pageNo e).2.1.clockHand = s.clockHand ∧
    (s.disposePage io file pageNo e).2.1.numBufs = s.numBufs ∧
    (∀ f, s.hashTable.map file pageNo = some f →
      (s.disposePage io file pageNo e).2.1.bufTable f =
        { file := NULL, pageNo := -1, frameNo := (s.bufTable f).frameNo, pinCnt := 0,
          dirty := false, valid := false, refbit := false } ∧
      (∀ g, g ≠ f → (s.disposePage io file pageNo e).2.1.bufTable g = s.bufTable g)) ∧
    (s.hashTable.map file pageNo = none →
      (s.disposePage io file pageNo e).2.1.bufTable = s.bufTable ∧
      (s.disposePage io file pageNo e).2.1.hashTable = s.hashTable) ∧
    (∃ ra rr,
      (s.disposePage io file pageNo e).2.1.allocBuf io 0 (s.disposePage io file pageNo e).2.2
        = some ra ∧
      (s.disposePage io file pageNo e).2.1.readPage io file pageNo
        (s.disposePage io file pageNo e).2.2 = some rr ∧
      (ra.1 ≠ Status.OK → rr = (ra.1, none, ra.2.2.1, ra.2.2.2)) ∧
      (ra.1 = Status.OK →
        (∃ rest, rr.2.2.2.trace =
          ra.2.2.2.trace ++ Event.readPage file pageNo :: rest) ∧
        rr.2.2.1.bufPool ra.2.1 =
          (io.readPage file pageNo (ra.2.2.1.bufPool ra.2.1) ra.2.2.2.disk).2.1)) ∧
    (∀ f, s.hashTable.map file pageNo = some f → f < s.numBufs →
      ∀ ra, (s.disposePage io file pageNo e).2.1.allocBuf io 0
          (s.disposePage io file pageNo e).2.2 = some ra → ra.1 ≠ Status.OK →
        ∃ t u v, 1 ≤ t ∧ t < u ∧ u ≤ s.numBufs ∧ v = (s.clockHand + t) % s.numBufs ∧
          f = (s.clockHand + u) % s.numBufs ∧
          (s.bufTable v).valid = true ∧ (s.bufTable v).pinCnt = 0 ∧
          (((s.bufTable v).dirty = true ∧
              ra.1 = (io.writePage (s.bufTable v).file (s.bufTable v).pageNo (s.bufPool v)
                (s.disposePage io file pageNo e).2.2.disk).1 ∧
              ra.2.2.2.trace = (s.disposePage io file pageNo e).2.2.trace ++
                [Event.writePage (s.bufTable v).file (s.bufTable v).pageNo
                  (s.bufPool v)]) ∨
            (ra.1 = Status.HASHNOTFOUND ∧
              (s.disposePage io file pageNo e).2.1.hashTable.map (s.bufTable v).file
                (s.bufTable v).pageNo = none))) ∧
    (s.disposePage io file pageNo e).2.2.disk = (io.disposePage file pageNo e.disk).2 := by
  have hnone : (s.disposePage io file pageNo e).2.1.hashTable.map file pageNo = none := by
    simp [BufMgr.disposePage, remove_map]
  have hpool : (s.disposePage io file pageNo e).2.1.bufPool = s.bufPool := by
    simp only [BufMgr.disposePage]; split_ifs <;> rfl
  have hhand : (s.disposePage io file pageNo e).2.1.clockHand = s.clockHand := by
    simp only [BufMgr.disposePage]; split_ifs <;> rfl
  have hnum : (s.disposePage io file pageNo e).2.1.numBufs = s.numBufs := by
    simp only [BufMgr.disposePage]; split_ifs <;> rfl
  have hfree : ∀ f, s.hashTable.map file pageNo = some f →
      (s.disposePage io file pageNo e).2.1.bufTable f =
        { file := NULL, pageNo := -1, frameNo := (s.bufTable f).frameNo, pinCnt := 0,
          dirty := false, valid := false, refbit := false } ∧
      (∀ g, g ≠ f → (s.disposePage io file pageNo e).2.1.bufTable g = s.bufTable g) := by
    intro f hm
    constructor
    · simp [BufMgr.disposePage, BufHashTbl.lookup, hm, BufDesc.Clear]
    · intro g hg
      simp [BufMgr.disposePage, BufHashTbl.lookup, hm, Function.update_noteq hg]
  refine ⟨rfl, by simp [BufMgr.disposePage, Env.record], hnone, ?_, hpool, hhand, hnum,
    hfree, ?_, ?_, ?_, rfl⟩
  · intro fl p hk
    simp only [BufMgr.disposePage, remove_map, if_neg hk]
    split_ifs <;> rfl
  · intro hm
    simp [BufMgr.disposePage, BufHashTbl.lookup, BufHashTbl.remove, hm]
  · generalize (s.disposePage io file pageNo e).2.1 = s2 at hnone ⊢
    generalize (s.disposePage io file pageNo e).2.2 = e2
    obtain ⟨⟨st, f, sa, ea⟩, ha⟩ := Option.isSome_iff_exists.1 (allocBuf_isSome io 0 s2 e2)
    by_cases hst : st = Status.OK
    · subst hst
      by_cases hrd : (io.readPage file pageNo (sa.bufPool f) ea.disk).1 = Status.OK
      · exact ⟨_, _, ha, readPage_of_miss io file pageNo s2 e2 hnone f sa ea ha hrd,
          fun h => absurd rfl h,
          fun _ => ⟨⟨[Event.indexInsert file pageNo f], by simp [Env.record]⟩, by simp⟩⟩
      · exact ⟨_, _, ha, readPage_of_read_fail io file pageNo s2 e2 hnone f sa ea ha hrd,
          fun h => absurd rfl h, fun _ => ⟨⟨[], by simp [Env.record]⟩, by simp⟩⟩
    · exact ⟨_, _, ha, readPage_of_allocBuf_fail io file pageNo s2 e2 hnone st f sa ea ha
        hst, fun _ => rfl, fun h => absurd h hst⟩
  · intro f hm hf ra hr hne
    obtain ⟨hff, hoth⟩ := hfree f hm
    obtain ⟨t, u, v, h1, h2, h3, h4, h5, h6, h7, _, h9⟩ :=
      allocBuf_fail_victim io 0 (s.disposePage io file pageNo e).2.1
        (s.disposePage io file pageNo e).2.2 f (by rw [hnum]; exact hf)
        (by rw [hff]) ra hr hne
    rw [hnum, hhand] at h4 h5
    rw [hnum] at h3
    have hvf : v ≠ f := by
      rintro rfl
      rw [hff] at h6
      exact absurd h6 (by simp)
    rw [hoth v hvf] at h6 h7 h9
    rw [hpool] at h9
    refine ⟨t, u, v, h1, h2, h3, h4, h5, h6, h7, ?_⟩
    rcases h9 with ⟨k1, k2, k3⟩ | ⟨_, k2, k3⟩
    · exact Or.inl ⟨k1, k2, k3⟩
    · exact Or.inr ⟨k2, k3⟩

/-- Witness for `disposePage_effect`: disposing the dirty resident page 5 of file 1 in
`twoPageMgr` frees frame 0 and issues no write. -/
theorem disposePage_effect_witness :
    (twoPageMgr.disposePage okFiles 1 5 emptyEnv).2.1.bufTable 0 =
      { file := NULL, pageNo := -1, frameNo := 0, pinCnt := 0, dirty := false,
        valid := false, refbit := false } ∧
    (twoPageMgr.disposePage okFiles 1 5 emptyEnv).2.1.hashTable.map 1 5 = none ∧
    (twoPageMgr.disposePage okFiles 1 5 emptyEnv).2.2.trace =
      [Event.indexRemove 1 5, Event.disposePage 1 5] := by
  have h := disposePage_effect okFiles 1 5 twoPageMgr emptyEnv
  exact ⟨(h.2.2.2.2.2.2.2.1 0 (by decide)).1, h.2.2.1, h.2.1⟩

/-- C13, counterexample to the claim as stated. Page 5 of file 1 is resident in
`twoPageMgr`; after `disposePage` the following `readPage` of that page does not read
from the file: the sweep of `allocBuf` stops at the dirty frame 1, whose write-back
fails, and `readPage` returns `UNIXERR` with no `readPage` call in the trace. -/
theorem readPage_after_dispose_without_read :
    twoPageMgr.hashTable.map 1 5 = some 0 ∧
    (twoPageMgr.disposePage noWriteFiles 1 5 emptyEnv).1 = Status.OK ∧
    ((twoPageMgr.disposePage noWriteFiles 1 5 emptyEnv).2.1.readPage noWriteFiles 1 5
        (twoPageMgr.disposePage noWriteFiles 1 5 emptyEnv).2.2).map
      (fun r => (r.1, r.2.2.2.trace)) =
      some (Status.UNIXERR,
        [Event.indexRemove 1 5, Event.disposePage 1 5, Event.writePage 1 6 2]) :=
  ⟨by decide, by decide, by decide⟩

/-! ## `flushFile`: the first pinned frame, and the reachable states -/

/-- The disk the loop of `flushFile` leaves is the one the file's `writePage` produces
from the writes the loop has recorded, applied in order. -/
theorem flushFileLoop_disk (io : FileOps W) (file : FilePtr) :
    ∀ (n i : Nat) (s : BufMgr) (e : Env W),
      ∃ evs, (BufMgr.flushFileLoop io file n i s e).2.2.trace = e.trace ++ evs ∧
        (BufMgr.flushFileLoop io file n i s e).2.2.disk = applyWrites io evs e.disk := by
  intro n
  induction n with
  | zero => intro i s e; exact ⟨[], by simp [BufMgr.flushFileLoop], rfl⟩
  | succ n ih =>
    intro i s e
    have stop : ∀ (st : Status), BufMgr.flushFileLoop io file (n + 1) i s e = (st, s, e) →
        ∃ evs, (BufMgr.flushFileLoop io file (n + 1) i s e).2.2.trace = e.trace ++ evs ∧
          (BufMgr.flushFileLoop io file (n + 1) i s e).2.2.disk =
            applyWrites io evs e.disk := by
      intro st heq
      rw [heq]
      exact ⟨[], by simp, rfl⟩
    by_cases hf : (s.bufTable i).file = file
    · by_cases hv : (s.bufTable i).valid = true
      · by_cases hp : (s.bufTable i).pinCnt = 0
        · by_cases hd : (s.bufTable i).dirty = true
          · by_cases hw : (io.writePage file (s.bufTable i).pageNo (s.bufPool i) e.disk).1
                = Status.OK
            · have heq : BufMgr.flushFileLoop io file (n + 1) i s e =
                  BufMgr.flushFileLoop io file n (i + 1)
                    { s with hashTable := (s.hashTable.remove file (s.bufTable i).pageNo).2
                             bufTable := Function.update s.bufTable i
                               (s.bufTable i).flushed }
                    ⟨(io.writePage file (s.bufTable i).pageNo (s.bufPool i) e.disk).2,
                      e.trace ++ [Event.writePage file (s.bufTable i).pageNo (s.bufPool i)]
                        ++ [Event.indexRemove file (s.bufTable i).pageNo]⟩ := by
                rw [BufMgr.flushFileLoop]
                simp [hv, hf, hp, hd, hw, BufDesc.flushed, Env.record]
              obtain ⟨evs, h1, h2⟩ := ih (i + 1)
                { s with hashTable := (s.hashTable.remove file (s.bufTable i).pageNo).2
                         bufTable := Function.update s.bufTable i (s.bufTable i).flushed }
                ⟨(io.writePage file (s.bufTable i).pageNo (s.bufPool i) e.disk).2,
                  e.trace ++ [Event.writePage file (s.bufTable i).pageNo (s.bufPool i)]
                    ++ [Event.indexRemove file (s.bufTable i).pageNo]⟩
              rw [heq]
              refine ⟨Event.writePage file (s.bufTable i).pageNo (s.bufPool i) ::
                Event.indexRemove file (s.bufTable i).pageNo :: evs, ?_, ?_⟩
              · rw [h1]
                simp
              · rw [h2, applyWrites_cons_write, applyWrites_cons_remove]
            · have heq : BufMgr.flushFileLoop io file (n + 1) i s e =
                  ((io.writePage file (s.bufTable i).pageNo (s.bufPool i) e.disk).1, s,
                    e.record (io.writePage file (s.bufTable i).pageNo (s.bufPool i) e.disk).2
                      (Event.writePage file (s.bufTable i).pageNo (s.bufPool i))) := by
                rw [BufMgr.flushFileLoop]
                simp [hv, hf, hp, hd, hw]
              rw [heq]
              exact ⟨[Event.writePage file (s.bufTable i).pageNo (s.bufPool i)], rfl, rfl⟩
          · have hd2 : (s.bufTable i).dirty = false := by simpa using hd
            have heq : BufMgr.flushFileLoop io file (n + 1) i s e =
                BufMgr.flushFileLoop io file n (i + 1)
                  { s with hashTable := (s.hashTable.remove file (s.bufTable i).pageNo).2
                           bufTable := Function.update s.bufTable i
                             (s.bufTable i).flushed }
                  ⟨e.disk, e.trace ++ [Event.indexRemove file (s.bufTable i).pageNo]⟩ := by
              rw [BufMgr.flushFileLoop]
              simp [hv, hf, hp, hd2, BufDesc.flushed, Env.record]
            obtain ⟨evs, h1, h2⟩ := ih (i + 1)
              { s with hashTable := (s.hashTable.remove file (s.bufTable i).pageNo).2
                       bufTable := Function.update s.bufTable i (s.bufTable i).flushed }
              ⟨e.disk, e.trace ++ [Event.indexRemove file (s.bufTable i).pageNo]⟩
            rw [heq]
            refine ⟨Event.indexRemove file (s.bufTable i).pageNo :: evs, ?_, ?_⟩
            · rw [h1]
              simp
            · rw [h2, applyWrites_cons_remove]
        · apply stop Status.PAGEPINNED
          rw [BufMgr.flushFileLoop]
          simp [hv, hf, Nat.pos_of_ne_zero hp]
      · apply stop Status.BADBUFFER
        rw [BufMgr.flushFileLoop]
        simp [hv, hf]
    · obtain ⟨hstep, _⟩ := flushFileLoop_skip io file n i s e hf
      rw [hstep]
      exact ih (i + 1) s e

/-- The disk `flushFile` leaves, from the calls it has recorded. -/
theorem flushFile_disk_of_trace (io : FileOps W) (file : FilePtr) (s : BufMgr) (e : Env W)
    (l : List Event) (h : (s.flushFile io file e).2.2.trace = e.trace ++ l) :
    (s.flushFile io file e).2.2.disk = applyWrites io l e.disk := by
  obtain ⟨evs, h1, h2⟩ := flushFileLoop_disk io file s.numBufs 0 s e
  have : evs = l := List.append_cancel_left (h1.symm.trans h)
  rw [← this]
  exact h2

/-- The loop of `flushFile` on a stretch whose first pinned valid frame of the file is
`p`: either it reaches `p` and returns `PAGEPINNED`, having flushed the valid frames of
the file before `p`; or the write-back of a valid dirty frame of the file before `p`
fails and its status is returned; or a frame before `p` is not valid while carrying the
file and `BADBUFFER` is returned. -/
theorem flushFileLoop_before_pinned (io : FileOps W) (file : FilePtr) (p : Nat) :
    ∀ (n i : Nat) (s : BufMgr) (e : Env W), i ≤ p → p < i + n →
      (s.bufTable p).valid = true → (s.bufTable p).file = file →
      0 < (s.bufTable p).pinCnt →
      (∀ j, i ≤ j → j < p → ¬((s.bufTable j).valid = true ∧ (s.bufTable j).file = file ∧
        0 < (s.bufTable j).pinCnt)) →
      (∃ s1 e1, BufMgr.flushFileLoop io file n i s e = (Status.PAGEPINNED, s1, e1) ∧
        FlushedRange s s1 file i (p - i) ∧
        e1.trace = e.trace ++ flushEvents s file (p - i) i) ∨
      (∃ j w, i ≤ j ∧ j < p ∧ (s.bufTable j).valid = true ∧ (s.bufTable j).file = file ∧
        (s.bufTable j).dirty = true ∧
        (io.writePage file (s.bufTable j).pageNo (s.bufPool j) w).1 ≠ Status.OK ∧
        (BufMgr.flushFileLoop io file n i s e).1 =
          (io.writePage file (s.bufTable j).pageNo (s.bufPool j) w).1) ∨
      (∃ j, i ≤ j ∧ j < p ∧ (s.bufTable j).valid = false ∧ (s.bufTable j).file = file ∧
        (BufMgr.flushFileLoop io file n i s e).1 = Status.BADBUFFER) := by
  intro n
  induction n with
  | zero => intro i s e h1 h2; omega
  | succ n ih =>
    intro i s e hip hpn hvp hfp hpp hfirst
    by_cases hf : (s.bufTable i).file = file
    · by_cases hv : (s.bufTable i).valid = true
      · by_cases hp : (s.bufTable i).pinCnt = 0
        · have hlt : i < p := by
            rcases Nat.eq_or_lt_of_le hip with rfl | h
            · omega
            · exact h
          have hcnt : p - i = (p - (i + 1)) + 1 := by omega
          by_cases hw : (s.bufTable i).dirty = true →
              (io.writePage file (s.bufTable i).pageNo (s.bufPool i) e.disk).1 = Status.OK
          · obtain ⟨e2, he2, hstep⟩ := flushFileLoop_flush io file n i s e hv hf hp hw
            let s2 : BufMgr :=
              { s with hashTable := (s.hashTable.remove file (s.bufTable i).pageNo).2
                       bufTable := Function.update s.bufTable i (s.bufTable i).flushed }
            have hupd : ∀ j, j ≠ i → s2.bufTable j = s.bufTable j := by
              intro j hj
              exact Function.update_noteq hj _ _
            have hstep2 : BufMgr.flushFileLoop io file (n + 1) i s e =
                BufMgr.flushFileLoop io file n (i + 1) s2 e2 := hstep
            rw [hstep2]
            rcases ih (i + 1) s2 e2 hlt (by omega)
              (by rw [hupd p (by omega)]; exact hvp) (by rw [hupd p (by omega)]; exact hfp)
              (by rw [hupd p (by omega)]; exact hpp)
              (fun j h1 h2 => by rw [hupd j (by omega)]; exact hfirst j (by omega) h2) with
              ⟨s1, e1, b1, b2, b3⟩ | ⟨j, w, b1, b2, b3, b4, b5, b6, b7⟩ |
              ⟨j, b1, b2, b3, b4, b5⟩
            · refine Or.inl ⟨s1, e1, b1, ?_, ?_⟩
              · rw [hcnt]
                exact FlushedRange.cons_flush hv hf b2
              · rw [b3, he2, hcnt, flushEvents, List.append_assoc]
                congr 2
                exact flushEvents_congr file s s2 rfl _ (i + 1)
                  (fun j h1 _ => hupd j (by omega))
            · rw [hupd j (by omega)] at b3 b4 b5 b6 b7
              exact Or.inr (Or.inl ⟨j, w, by omega, b2, b3, b4, b5, b6, b7⟩)
            · rw [hupd j (by omega)] at b3 b4
              exact Or.inr (Or.inr ⟨j, by omega, b2, b3, b4, b5⟩)
          · have hd : (s.bufTable i).dirty = true := by
              by_contra hd
              exact hw (fun h => absurd h hd)
            have hwf : (io.writePage file (s.bufTable i).pageNo (s.bufPool i) e.disk).1
                ≠ Status.OK := fun h => hw (fun _ => h)
            have heq : BufMgr.flushFileLoop io file (n + 1) i s e =
                ((io.writePage file (s.bufTable i).pageNo (s.bufPool i) e.disk).1, s,
                  e.record (io.writePage file (s.bufTable i).pageNo (s.bufPool i) e.disk).2
                    (Event.writePage file (s.bufTable i).pageNo (s.bufPool i))) := by
              rw [BufMgr.flushFileLoop]
              simp [hv, hf, hp, hd, hwf]
            rw [heq]
            exact Or.inr (Or.inl ⟨i, e.disk, Nat.le_refl i, hlt, hv, hf, hd, hwf, rfl⟩)
        · have hip2 : i = p := by
            rcases Nat.eq_or_lt_of_le hip with h | h
            · exact h
            · exact absurd ⟨hv, hf, Nat.pos_of_ne_zero hp⟩ (hfirst i (Nat.le_refl i) h)
          subst hip2
          refine Or.inl ⟨s, e, ?_, ?_, ?_⟩
          · rw [BufMgr.flushFileLoop]
            simp [hv, hf, Nat.pos_of_ne_zero hp]
          · rw [Nat.sub_self]
            exact FlushedRange.nil s file i
          · rw [Nat.sub_self]
            simp [flushEvents]
      · have hlt : i < p := by
          rcases Nat.eq_or_lt_of_le hip with rfl | h
          · exact absurd hvp hv
          · exact h
        refine Or.inr (Or.inr ⟨i, Nat.le_refl i, hlt, by simpa using hv, hf, ?_⟩)
        rw [BufMgr.flushFileLoop]
        simp [hv, hf]
    · have hlt : i < p := by
        rcases Nat.eq_or_lt_of_le hip with rfl | h
        · exact absurd hfp hf
        · exact h
      have hcnt : p - i = (p - (i + 1)) + 1 := by omega
      obtain ⟨hstep, hev⟩ := flushFileLoop_skip io file n i s e hf
      rw [hstep]
      rcases ih (i + 1) s e hlt (by omega) hvp hfp hpp
        (fun j h1 h2 => hfirst j (by omega) h2) with
        ⟨s1, e1, b1, b2, b3⟩ | ⟨j, w, b1, b2, b3, b4, b5, b6, b7⟩ | ⟨j, b1, b2, b3, b4, b5⟩
      · refine Or.inl ⟨s1, e1, b1, ?_, ?_⟩
        · rw [hcnt]
          exact b2.cons_skip (fun h => hf h.2)
        · rw [b3, hcnt, flushEvents, hev, List.nil_append]
      · exact Or.inr (Or.inl ⟨j, w, by omega, b2, b3, b4, b5, b6, b7⟩)
      · exact Or.inr (Or.inr ⟨j, by omega, b2, b3, b4, b5⟩)

/-- C9 (as amended). When some valid frame `p` of the file is pinned, `flushFile` never
returns `OK`, whatever the collaborators do; it leaves every descriptor from `p` on, the
whole pool and the clock hand as they were, removes index entries only for pages held by
valid frames of the file before `p`, and issues only an initial part of the calls that
flushing the frames before `p` consists of (so no `writePage` for a frame from `p` on),
the disk being what the file's `writePage` made of these calls.  When moreover `p` is
the first such frame, one of three things happens: the status is `PAGEPINNED` and the
valid frames of the file before `p` have been flushed (written back if dirty, removed
from the index and reset); or the write-back of a valid dirty frame of the file before
`p` has failed and its status is returned; or a frame before `p` is not valid while
carrying the file and `BADBUFFER` is returned.  So the status is `PAGEPINNED` as soon as
the write-backs of the dirty frames of the file before `p` succeed and no frame before
`p` is invalid while carrying the file. -/
theorem flushFile_pinned (io : FileOps W) (file : FilePtr) (s : BufMgr) (e : Env W)
    (p : Nat) (hp : p < s.numBufs) (hv : (s.bufTable p).valid = true)
    (hf : (s.bufTable p).file = file) (hpin : 0 < (s.bufTable p).pinCnt) :
    (s.flushFile io file e).1 ≠ Status.OK ∧
    (∀ j, p ≤ j → (s.flushFile io file e).2.1.bufTable j = s.bufTable j) ∧
    (s.flushFile io file e).2.1.bufPool = s.bufPool ∧
    (s.flushFile io file e).2.1.numBufs = s.numBufs ∧
    (s.flushFile io file e).2.1.clockHand = s.clockHand ∧
    (∀ f1 p1,
      (s.flushFile io file e).2.1.hashTable.map f1 p1 = s.hashTable.map f1 p1 ∨
      ((s.flushFile io file e).2.1.hashTable.map f1 p1 = none ∧ f1 = file ∧
        ∃ j, j < p ∧ (s.bufTable j).valid = true ∧ (s.bufTable j).file = file ∧
          (s.bufTable j).pageNo = p1)) ∧
    (∃ evs, (s.flushFile io file e).2.2.trace = e.trace ++ evs ∧
      evs <+: flushEvents s file p 0 ∧
      (s.flushFile io file e).2.2.disk = applyWrites io evs e.disk) ∧
    ((∀ j, j < p → ¬((s.bufTable j).valid = true ∧ (s.bufTable j).file = file ∧
        0 < (s.bufTable j).pinCnt)) →
      (((s.flushFile io file e).1 = Status.PAGEPINNED ∧
          (s.flushFile io file e).2.2.trace = e.trace ++ flushEvents s file p 0 ∧
          (s.flushFile io file e).2.2.disk =
            applyWrites io (flushEvents s file p 0) e.disk ∧
          (∀ j, j < p → (s.bufTable j).valid = true → (s.bufTable j).file = file →
            (s.flushFile io file e).2.1.bufTable j =
              { s.bufTable j with dirty := false, file := NULL, pageNo := -1,
                                  valid := false } ∧
            (s.flushFile io file e).2.1.hashTable.map file (s.bufTable j).pageNo = none)) ∨
        (∃ j w, j < p ∧ (s.bufTable j).valid = true ∧ (s.bufTable j).file = file ∧
          (s.bufTable j).dirty = true ∧
          (io.writePage file (s.bufTable j).pageNo (s.bufPool j) w).1 ≠ Status.OK ∧
          (s.flushFile io file e).1 =
            (io.writePage file (s.bufTable j).pageNo (s.bufPool j) w).1) ∨
        (∃ j, j < p ∧ (s.bufTable j).valid = false ∧ (s.bufTable j).file = file ∧
          (s.flushFile io file e).1 = Status.BADBUFFER)) ∧
      ((∀ j, j < p → (s.bufTable j).valid = true → (s.bufTable j).file = file →
          (s.bufTable j).dirty = true →
          ∀ w, (io.writePage file (s.bufTable j).pageNo (s.bufPool j) w).1 = Status.OK) →
        (∀ j, j < p → ¬((s.bufTable j).valid = false ∧ (s.bufTable j).file = file)) →
        (s.flushFile io file e).1 = Status.PAGEPINNED ∧
        (s.flushFile io file e).2.2.trace = e.trace ++ flushEvents s file p 0 ∧
        (s.flushFile io file e).2.2.disk =
          applyWrites io (flushEvents s file p 0) e.disk ∧
        (∀ j, j < p → (s.bufTable j).valid = true → (s.bufTable j).file = file →
          (s.flushFile io file e).2.1.bufTable j =
            { s.bufTable j with dirty := false, file := NULL, pageNo := -1,
                                valid := false } ∧
          (s.flushFile io file e).2.1.hashTable.map file (s.bufTable j).pageNo
            = none))) := by
  obtain ⟨a1, a2, a3, a4, a5, a6, evs, a7, a8⟩ :=
    flushFileLoop_pinned io file p s.numBufs 0 s e (Nat.zero_le p) (by omega) hv hf hpin
  have a6b : ∀ f1 p1,
      (s.flushFile io file e).2.1.hashTable.map f1 p1 = s.hashTable.map f1 p1 ∨
      ((s.flushFile io file e).2.1.hashTable.map f1 p1 = none ∧ f1 = file ∧
        ∃ j, j < p ∧ (s.bufTable j).valid = true ∧ (s.bufTable j).file = file ∧
          (s.bufTable j).pageNo = p1) := by
    intro f1 p1
    rcases a6 f1 p1 with h | ⟨h1, h2, j, _, j2, j3, j4, j5⟩
    · exact Or.inl h
    · exact Or.inr ⟨h1, h2, j, j2, j3, j4, j5⟩
  have htri : (∀ j, j < p → ¬((s.bufTable j).valid = true ∧ (s.bufTable j).file = file ∧
        0 < (s.bufTable j).pinCnt)) →
      (((s.flushFile io file e).1 = Status.PAGEPINNED ∧
          (s.flushFile io file e).2.2.trace = e.trace ++ flushEvents s file p 0 ∧
          (s.flushFile io file e).2.2.disk =
            applyWrites io (flushEvents s file p 0) e.disk ∧
          (∀ j, j < p → (s.bufTable j).valid = true → (s.bufTable j).file = file →
            (s.flushFile io file e).2.1.bufTable j =
              { s.bufTable j with dirty := false, file := NULL, pageNo := -1,
                                  valid := false } ∧
            (s.flushFile io file e).2.1.hashTable.map file (s.bufTable j).pageNo = none)) ∨
        (∃ j w, j < p ∧ (s.bufTable j).valid = true ∧ (s.bufTable j).file = file ∧
          (s.bufTable j).dirty = true ∧
          (io.writePage file (s.bufTable j).pageNo (s.bufPool j) w).1 ≠ Status.OK ∧
          (s.flushFile io file e).1 =
            (io.writePage file (s.bufTable j).pageNo (s.bufPool j) w).1) ∨
        (∃ j, j < p ∧ (s.bufTable j).valid = false ∧ (s.bufTable j).file = file ∧
          (s.flushFile io file e).1 = Status.BADBUFFER)) := by
    intro hfirst
    rcases flushFileLoop_before_pinned io file p s.numBufs 0 s e (Nat.zero_le p) (by omega)
      hv hf hpin (fun j _ h2 => hfirst j h2) with
      ⟨s1, e1, b1, b2, b3⟩ | ⟨j, w, _, b2, b3, b4, b5, b6, b7⟩ | ⟨j, _, b2, b3, b4, b5⟩
    · have hres : s.flushFile io file e = (Status.PAGEPINNED, s1, e1) := b1
      have htr : (s.flushFile io file e).2.2.trace = e.trace ++ flushEvents s file p 0 := by
        rw [hres]; exact b3
      refine Or.inl ⟨by rw [hres], htr,
        flushFile_disk_of_trace io file s e _ htr, fun j hj hvj hfj => ?_⟩
      rw [hres]
      exact ⟨b2.2.2.2.1 j (Nat.zero_le j) (by omega) hvj hfj,
        b2.2.2.2.2.2.1 j (Nat.zero_le j) (by omega) hvj hfj⟩
    · exact Or.inr (Or.inl ⟨j, w, b2, b3, b4, b5, b6, b7⟩)
    · exact Or.inr (Or.inr ⟨j, b2, b3, b4, b5⟩)
  refine ⟨a1, fun j hj => a2 j (Or.inr hj), a3, a4, a5, a6b,
    ⟨evs, a7, a8, flushFile_disk_of_trace io file s e evs a7⟩, fun hfirst => ⟨htri hfirst,
      fun hw hnb => ?_⟩⟩
  rcases htri hfirst with h | ⟨j, w, b2, b3, b4, b5, b6, _⟩ | ⟨j, b2, b3, b4, _⟩
  · exact h
  · exact absurd (hw j b2 b3 b4 b5 w) b6
  · exact absurd ⟨b3, b4⟩ (hnb j b2)

/-- Witness for `flushFile_pinned`: in `pinnedSecondMgr` frame 1 of file 1 is pinned; the
call returns `PAGEPINNED`, frame 1 is untouched, and the dirty frame 0 before it has been
written back. -/
theorem flushFile_pinned_witness :
    (pinnedSecondMgr.flushFile okFiles 1 emptyEnv).1 = Status.PAGEPINNED ∧
    (pinnedSecondMgr.flushFile okFiles 1 emptyEnv).2.1.bufTable 1 =
      pinnedSecondMgr.bufTable 1 ∧
    (pinnedSecondMgr.flushFile okFiles 1 emptyEnv).2.2.trace =
      [Event.writePage 1 5 1, Event.indexRemove 1 5] := by
  have h := flushFile_pinned okFiles 1 pinnedSecondMgr emptyEnv 1 (by decide) (by decide)
    (by decide) (by decide)
  have h2 := (h.2.2.2.2.2.2.2 (by decide)).2 (fun _ _ _ _ _ _ => rfl) (by decide)
  exact ⟨h2.1, h.2.1 1 (Nat.le_refl 1), by rw [h2.2.1]; rfl⟩

/-- C9, counterexample to the claim as stated. In `pinnedSecondMgr` a valid frame of file
1 is pinned and frame 0 holds a valid, dirty, resident page of file 1; `flushFile`
returns `PAGEPINNED`, but frame 0 is no longer valid nor dirty, its page has left the
index and a `writePage` has been issued for it. -/
theorem flushFile_flushes_before_pinned_frame :
    ((pinnedSecondMgr.bufTable 1).valid = true ∧ (pinnedSecondMgr.bufTable 1).file = 1 ∧
      0 < (pinnedSecondMgr.bufTable 1).pinCnt) ∧
    ((pinnedSecondMgr.bufTable 0).valid = true ∧ (pinnedSecondMgr.bufTable 0).file = 1 ∧
      (pinnedSecondMgr.bufTable 0).dirty = true ∧
      pinnedSecondMgr.hashTable.map 1 5 = some 0) ∧
    (pinnedSecondMgr.flushFile okFiles 1 emptyEnv).1 = Status.PAGEPINNED ∧
    ((pinnedSecondMgr.flushFile okFiles 1 emptyEnv).2.1.bufTable 0).valid = false ∧
    ((pinnedSecondMgr.flushFile okFiles 1 emptyEnv).2.1.bufTable 0).dirty = false ∧
    (pinnedSecondMgr.flushFile okFiles 1 emptyEnv).2.1.hashTable.map 1 5 = none ∧
    (pinnedSecondMgr.flushFile okFiles 1 emptyEnv).2.2.trace =
      [Event.writePage 1 5 1, Event.indexRemove 1 5] := by
  decide

/-- Outside the reachable states, and with the null file, `flushFile` behaves
differently.  On a fresh pool no valid frame is pinned and every write succeeds, yet the
call with the null file returns `BADBUFFER` (free frames have owner `NULL`); and in
`staleIndexMgr`, whose index holds an entry that no valid frame carries, the call for
file 1 returns `OK` while that entry stays. -/
theorem flushFile_unpinned_not_ok :
    (∀ fl pg c w, (okFiles.writePage fl pg c w).1 = Status.OK) ∧
    (∀ j, j < (BufMgr.construct 1 (by decide)).numBufs →
      ¬(((BufMgr.construct 1 (by decide)).bufTable j).valid = true ∧
        ((BufMgr.construct 1 (by decide)).bufTable j).file = NULL ∧
        0 < ((BufMgr.construct 1 (by decide)).bufTable j).pinCnt)) ∧
    ((BufMgr.construct 1 (by decide)).flushFile okFiles NULL emptyEnv).1
      = Status.BADBUFFER ∧
    (∀ j, j < staleIndexMgr.numBufs →
      ¬((staleIndexMgr.bufTable j).valid = true ∧ (staleIndexMgr.bufTable j).file = 1 ∧
        0 < (staleIndexMgr.bufTable j).pinCnt)) ∧
    (staleIndexMgr.flushFile okFiles 1 emptyEnv).1 = Status.OK ∧
    (staleIndexMgr.flushFile okFiles 1 emptyEnv).2.1.hashTable.map 1 9 = some 0 :=
  ⟨fun _ _ _ _ => rfl, by decide, by decide, by decide, by decide, by decide⟩

/-! ## Eviction safety in the reachable states -/

end Minirel
